import Mathlib

/-! Module botsky: composing and submitting a post record.

A shallow embedding of `pkg/botsky` (posts.go, repo.go, utils.go).

* Go strings are Lean strings; a position in a string is a byte offset, computed
  from the UTF-8 width of every character, as Go's `len` and slice indices are.
* The network, the file system and the clock are a record of oracles `Env` over
  an arbitrary state `σ`; every call is appended to an event log.
* Go's `(T, error)` pairs are `Except String T`; a run-time fault (nil pointer
  dereference) is the `fault` outcome of `Outcome`.
-/

namespace Botsky

/-! ## Text: byte offsets, slicing, searching -/

/-- Length in bytes of a text: Go's `len(s)` for a UTF-8 string. -/
def byteLen : List Char → Nat
  | [] => 0
  | c :: s => c.utf8Size + byteLen s

/-- The text from byte offset `n` on: Go's `s[n:]`, for `n` at a character
boundary (a character that starts before `n` is dropped whole). -/
def dropBytes : List Char → Nat → List Char
  | s, 0 => s
  | [], _ + 1 => []
  | c :: t, n + 1 => dropBytes t (n + 1 - c.utf8Size)

/-- The first `n` bytes of a text: Go's `s[:n]`, for `n` at a character boundary. -/
def takeBytes : List Char → Nat → List Char
  | _, 0 => []
  | [], _ + 1 => []
  | c :: t, n + 1 => c :: takeBytes t (n + 1 - c.utf8Size)

/-- Go's `s[a:b]`. -/
def sliceBytes (s : List Char) (a b : Nat) : List Char :=
  takeBytes (dropBytes s a) (b - a)

/-- Scan for the first position at which `sub` starts; `pos` is the byte offset
of the head of the text still to be scanned. -/
def indexFrom (sub : List Char) : Nat → List Char → Option Nat
  | pos, [] => if sub.isPrefixOf [] then some pos else none
  | pos, c :: t =>
    if sub.isPrefixOf (c :: t) then some pos else indexFrom sub (pos + c.utf8Size) t

/-- Go's `strings.Index(s, substr)`: byte offset of the first occurrence, `none` for -1. -/
def stringsIndex (s substr : String) : Option Nat :=
  indexFrom substr.toList 0 s.toList

/-- utils.go `findSubstring`. -/
def findSubstring (s substr : String) : Except String (Nat × Nat) :=
  match stringsIndex s substr with
  | none => .error "substring not found"
  | some index => .ok (index, index + byteLen substr.toList)

/-! ## Regular expressions (Go `regexp`: leftmost-first matching) -/

/-- Regular expressions, as far as the three patterns of posts.go need them. -/
inductive RE where
  | eps : RE
  | bot : RE
  | cls : (Char → Bool) → RE
  | cat : RE → RE → RE
  | alt : RE → RE → RE
  | star : RE → RE

/-- Greedy iteration of `step`, then `k`. Every iteration has to consume input,
so a text of `fuel` characters needs at most `fuel` iterations. -/
def starRun {α : Type} (step : (Nat → List Char → Option α) → Nat → List Char → Option α)
    (k : Nat → List Char → Option α) : Nat → Nat → List Char → Option α
  | 0, pos, s => k pos s
  | fuel + 1, pos, s =>
    (step (fun pos1 s1 =>
        if s1.length < s.length then starRun step k fuel pos1 s1 else none) pos s).orElse
      (fun _ => k pos s)

/-- Backtracking matcher in continuation-passing style. `pos` is the byte
offset of the head of `s` in the whole text; the first alternative that lets the
continuation succeed wins, which is the leftmost-first rule of Go's `regexp`. -/
def RE.run {α : Type} : RE → (Nat → List Char → Option α) → Nat → List Char → Option α
  | .eps, k, pos, s => k pos s
  | .bot, k, pos, s => if pos = 0 then k pos s else none
  | .cls p, k, pos, s =>
    match s with
    | [] => none
    | c :: t => if p c then k (pos + c.utf8Size) t else none
  | .cat a b, k, pos, s => a.run (fun pos1 s1 => b.run k pos1 s1) pos s
  | .alt a b, k, pos, s => (a.run k pos s).orElse (fun _ => b.run k pos s)
  | .star a, k, pos, s => starRun (fun k1 pos1 s1 => a.run k1 pos1 s1) k s.length pos s

/-- Optional: `a?`. -/
def RE.opt (a : RE) : RE := .alt a .eps

/-- Bounded repetition `a{0,n}`. -/
def RE.upTo (a : RE) : Nat → RE
  | 0 => .eps
  | n + 1 => RE.opt (.cat a (RE.upTo a n))

/-- Exact repetition `a{n}`. -/
def RE.times (a : RE) : Nat → RE
  | 0 => .eps
  | n + 1 => .cat a (RE.times a n)

/-- Repetition `a{lo,hi}`. -/
def RE.rep (a : RE) (lo hi : Nat) : RE := .cat (a.times lo) (a.upTo (hi - lo))

/-- A literal string. -/
def RE.lit : List Char → RE
  | [] => .eps
  | c :: s => .cat (.cls (fun x => x == c)) (RE.lit s)

/-- One or more: `a+`. -/
def RE.plus (a : RE) : RE := .cat a (.star a)

/-- Whether the expression can match without consuming a character. -/
def RE.nullable : RE → Bool
  | .eps => true
  | .bot => true
  | .cls _ => false
  | .cat a b => a.nullable && b.nullable
  | .alt a b => a.nullable || b.nullable
  | .star _ => true

/-- Successive non-overlapping matches of the pattern `pre(grp)`, scanning the
text from left to right as `regexp.FindAll*Index` does. A result is
`(start, groupStart, end)`: the whole match is `[start, end)`, capture group 1 is
`[groupStart, end)`. `prev` is the end of the previous match (no attempt is made
before it, and an empty match right at it is not reported). -/
def scan (pre grp : RE) : Option Nat → Nat → List Char → List (Nat × Nat × Nat)
  | prev, pos, s =>
    let blocked : Bool :=
      match prev with
      | some q => decide (pos < q)
      | none => false
    let here : Option (Nat × Nat) :=
      if blocked then none
      else pre.run (fun g s1 => grp.run (fun e _ => some (g, e)) g s1) pos s
    match s with
    | [] =>
      match here with
      | some (g, e) => if e = pos ∧ prev = some pos then [] else [(pos, g, e)]
      | none => []
    | c :: t =>
      match here with
      | some (g, e) =>
        if e = pos ∧ prev = some pos then scan pre grp prev (pos + c.utf8Size) t
        else (pos, g, e) :: scan pre grp (some e) (pos + c.utf8Size) t
      | none => scan pre grp prev (pos + c.utf8Size) t

/-- Go's `re.FindAllStringIndex(text, -1)` for the pattern `re`: the `[start, end)`
pairs of the whole matches. -/
def FindAllStringIndex (re : RE) (text : String) : List (Nat × Nat) :=
  (scan .eps re none 0 text.toList).map (fun m => (m.1, m.2.2))

/-- Go's `re.FindAllStringSubmatchIndex(text, -1)` for a pattern `pre(grp)` with
one capture group: `(m[0], m[1], m[2], m[3])` for every match. -/
def FindAllStringSubmatchIndex (pre grp : RE) (text : String) : List (Nat × Nat × Nat × Nat) :=
  (scan pre grp none 0 text.toList).map (fun m => (m.1, m.2.2, m.2.1, m.2.2))

/-! ## The patterns of posts.go -/

/-- The class `[a-zA-Z0-9]`. -/
def isAlnum (c : Char) : Bool :=
  ('a' ≤ c && c ≤ 'z') || ('A' ≤ c && c ≤ 'Z') || ('0' ≤ c && c ≤ '9')

/-- The class `[a-zA-Z]`. -/
def isAlpha (c : Char) : Bool :=
  ('a' ≤ c && c ≤ 'z') || ('A' ≤ c && c ≤ 'Z')

/-- The class `\d`. -/
def isDigit (c : Char) : Bool := '0' ≤ c && c ≤ '9'

/-- The class `\s` of Go's regexp: `[\t\n\f\r ]`. -/
def isReSpace (c : Char) : Bool :=
  c.toNat = 9 || c.toNat = 10 || c.toNat = 12 || c.toNat = 13 || c.toNat = 32

/-- One label of a domain name: `[a-zA-Z0-9](?:[a-zA-Z0-9-]{0,61}[a-zA-Z0-9])?`. -/
def labelRE : RE :=
  .cat (.cls isAlnum)
    (RE.opt (.cat (RE.rep (.cls (fun c => isAlnum c || c == '-')) 0 61) (.cls isAlnum)))

/-- posts.go `domainRegex`. -/
def domainRegex : RE :=
  .cat labelRE
    (.cat (.star (.cat (.cls (fun c => c == '.')) labelRE))
      (.cat (.cls (fun c => c == '.')) (RE.rep (.cls isAlpha) 2 10)))

/-- The part of `mentionRegex` before its capture group: `[^a-zA-Z0-9]`. -/
def mentionPre : RE := .cls (fun c => !isAlnum c)

/-- The capture group of `mentionRegex`: `@` followed by `domainRegex`. -/
def mentionGroup : RE := .cat (.cls (fun c => c == '@')) domainRegex

/-- posts.go `urlRegex`: `https?:\/\/` domainRegex `(\/(` domainRegex `)+)*\/?`. -/
def urlRegex : RE :=
  .cat (RE.lit "http".toList)
    (.cat (RE.opt (.cls (fun c => c == 's')))
      (.cat (RE.lit "://".toList)
        (.cat domainRegex
          (.cat (.star (.cat (.cls (fun c => c == '/')) (RE.plus domainRegex)))
            (RE.opt (.cls (fun c => c == '/')))))))

/-- The part of `hashtagRegex` before its capture group: `(?:^|\s)`. -/
def hashtagPre : RE := .alt .bot (.cls isReSpace)

/-- The capture group of `hashtagRegex`: `#[^\d\s]\S*`. -/
def hashtagGroup : RE :=
  .cat (.cls (fun c => c == '#'))
    (.cat (.cls (fun c => !(isDigit c || isReSpace c))) (.star (.cls (fun c => !isReSpace c))))

/-- posts.go `hashtagRegex`: `(?:^|\s)(#[^\d\s]\S*)`. -/
def hashtagRegex : RE := .cat hashtagPre hashtagGroup

/-- A match as `findRegexMatches` returns it. -/
structure RegexMatch where
  Value : String
  Start : Nat
  End : Nat
  deriving DecidableEq, Repr

/-- utils.go `findRegexMatches`: the whole matches of `pattern`, each with its text. -/
def findRegexMatches (text : String) (pattern : RE) : List RegexMatch :=
  (FindAllStringIndex pattern text).map (fun m =>
    { Value := String.mk (sliceBytes text.toList m.1 m.2), Start := m.1, End := m.2 })

/-! ## Unicode classes used by `stripHashtag` -/

/-- Go's `unicode.IsSpace`. -/
def unicodeIsSpace (c : Char) : Bool :=
  let n := c.toNat
  (9 ≤ n && n ≤ 13) || n = 0x20 || n = 0x85 || n = 0xA0 || n = 0x1680 ||
    (0x2000 ≤ n && n ≤ 0x200A) || n = 0x2028 || n = 0x2029 || n = 0x202F || n = 0x205F ||
    n = 0x3000

/-- Go's `unicode.IsPunct`: category P. The Latin-1 part is written out; above
U+00FF the range table of the Unicode library is the parameter `punctTable`. -/
def unicodeIsPunct (punctTable : Char → Bool) (c : Char) : Bool :=
  let n := c.toNat
  if n ≤ 0xFF then
    decide (n ∈ [0x21, 0x22, 0x23, 0x25, 0x26, 0x27, 0x28, 0x29, 0x2A, 0x2C, 0x2D, 0x2E, 0x2F,
      0x3A, 0x3B, 0x3F, 0x40, 0x5B, 0x5C, 0x5D, 0x5F, 0x7B, 0x7D,
      0xA1, 0xA7, 0xAB, 0xB6, 0xB7, 0xBB, 0xBF])
  else punctTable c

/-- Drop the characters satisfying `f` from the end: `strings.TrimRightFunc`. -/
def trimRightFunc (f : Char → Bool) (s : List Char) : List Char :=
  (s.reverse.dropWhile f).reverse

/-- Go's `strings.TrimSpace`. -/
def trimSpace (s : List Char) : List Char :=
  trimRightFunc unicodeIsSpace (s.dropWhile unicodeIsSpace)

/-- Go's `strings.TrimPrefix(s, "#")`. -/
def trimHash (s : List Char) : List Char :=
  match s with
  | '#' :: t => t
  | _ => s

/-- utils.go `stripHashtag`. -/
def stripHashtag (punctTable : Char → Bool) (hashtag : String) : String :=
  let s := trimSpace hashtag.toList
  let s := trimHash s
  let s := trimRightFunc (unicodeIsPunct punctTable) s
  String.mk s

/-! ## Records -/

/-- Go's `url.URL`, kept as the text it was parsed from in normal form; the zero
value is the empty one. -/
structure URL where
  text : String
  deriving DecidableEq, Repr

/-- `lexutil.LexBlob`: reference, MIME type and size of an uploaded blob. -/
structure LexBlob where
  Ref : String
  MimeType : String
  Size : Int
  deriving DecidableEq, Repr

structure InlineLink where
  Text : String
  Url : String
  deriving DecidableEq, Repr

structure RecordRef where
  Cid : String
  Uri : String
  deriving DecidableEq, Repr

structure Link where
  Title : String
  Uri : URL
  Description : String
  Thumb : LexBlob
  deriving DecidableEq, Repr

structure ImageSource where
  Alt : String
  Uri : String
  deriving DecidableEq, Repr

structure ImageSourceParsed where
  Alt : String
  Uri : URL
  deriving DecidableEq, Repr

structure Embed where
  Link : Link
  Images : List ImageSourceParsed
  UploadedImages : List LexBlob
  Record : RecordRef
  deriving DecidableEq, Repr

structure ReplyReference where
  Uri : String
  Cid : String
  RootUri : String
  RootCid : String
  deriving DecidableEq, Repr

/-- The zero value `Link{}`. -/
def Link.zero : Link :=
  { Title := "", Uri := ⟨""⟩, Description := "", Thumb := ⟨"", "", 0⟩ }

/-- The zero value `RecordRef{}`. -/
def RecordRef.zero : RecordRef := { Cid := "", Uri := "" }

/-- The zero value of `Embed` (`var embed Embed`). -/
def Embed.zero : Embed :=
  { Link := Link.zero, Images := [], UploadedImages := [], Record := RecordRef.zero }

/-- The zero value `ReplyReference{}`. -/
def ReplyReference.zero : ReplyReference := { Uri := "", Cid := "", RootUri := "", RootCid := "" }

/-- The draft. `EmbedImages` is a slice: `none` is the nil slice. -/
structure PostBuilder where
  Text : String
  AdditionalTags : List String
  InlineLinks : List InlineLink
  Languages : List String
  ReplyUri : String
  EmbedLink : String
  EmbedImages : Option (List ImageSource)
  EmbedPostQuote : String
  deriving DecidableEq, Repr

/-- posts.go `NewPostBuilder`. -/
def NewPostBuilder (text : String) : PostBuilder :=
  { Text := text, AdditionalTags := [], InlineLinks := [], Languages := [], ReplyUri := "",
    EmbedLink := "", EmbedImages := none, EmbedPostQuote := "" }

/-- `atproto.RepoStrongRef`. -/
structure RepoStrongRef where
  LexiconTypeID : String
  Cid : String
  Uri : String
  deriving DecidableEq, Repr

/-- `bsky.FeedPost_ReplyRef`: two pointers, either of which may be nil. -/
structure FeedPost_ReplyRef where
  Parent : Option RepoStrongRef
  Root : Option RepoStrongRef
  deriving DecidableEq, Repr

structure RichtextFacet_ByteSlice where
  ByteStart : Nat
  ByteEnd : Nat
  deriving DecidableEq, Repr

structure RichtextFacet_Link where
  LexiconTypeID : String
  Uri : String
  deriving DecidableEq, Repr

structure RichtextFacet_Mention where
  LexiconTypeID : String
  Did : String
  deriving DecidableEq, Repr

structure RichtextFacet_Tag where
  LexiconTypeID : String
  Tag : String
  deriving DecidableEq, Repr

/-- `bsky.RichtextFacet_Features_Elem`: a union given as one pointer per variant. -/
structure RichtextFacet_Features_Elem where
  RichtextFacet_Link : Option RichtextFacet_Link
  RichtextFacet_Mention : Option RichtextFacet_Mention
  RichtextFacet_Tag : Option RichtextFacet_Tag
  deriving DecidableEq, Repr

structure RichtextFacet where
  Features : List RichtextFacet_Features_Elem
  Index : RichtextFacet_ByteSlice
  deriving DecidableEq, Repr

structure EmbedExternal_External where
  Title : String
  Uri : String
  Description : String
  Thumb : LexBlob
  deriving DecidableEq, Repr

structure EmbedExternal where
  LexiconTypeID : String
  External : EmbedExternal_External
  deriving DecidableEq, Repr

structure EmbedImages_Image where
  Alt : String
  Image : LexBlob
  deriving DecidableEq, Repr

structure EmbedImages where
  LexiconTypeID : String
  Images : List EmbedImages_Image
  deriving DecidableEq, Repr

structure EmbedRecord where
  LexiconTypeID : String
  Record : RepoStrongRef
  deriving DecidableEq, Repr

/-- `bsky.FeedPost_Embed`: a union given as one pointer per variant. -/
structure FeedPost_Embed where
  EmbedExternal : Option EmbedExternal
  EmbedImages : Option EmbedImages
  EmbedRecord : Option EmbedRecord
  deriving DecidableEq, Repr

/-- `bsky.FeedPost`, the composed record. -/
structure FeedPost where
  LexiconTypeID : String
  CreatedAt : String
  Text : String
  Langs : List String
  Tags : List String
  Facets : List RichtextFacet
  Embed : Option FeedPost_Embed
  Reply : Option FeedPost_ReplyRef
  deriving DecidableEq, Repr

/-- The element type of `mentionMatches` in posts.go. -/
structure MentionMatch where
  Value : String
  Start : Nat
  End : Nat
  Did : String
  deriving DecidableEq, Repr

inductive Facet_Type where
  | Facet_Link
  | Facet_Mention
  | Facet_Tag
  deriving DecidableEq, Repr

/-- posts.go `Facet_Type.String`. -/
def Facet_Type.String : Facet_Type → String
  | .Facet_Link => "app.bsky.richtext.facet#link"
  | .Facet_Mention => "app.bsky.richtext.facet#mention"
  | .Facet_Tag => "app.bsky.richtext.facet#tag"

/-! ## Library functions and the outside world -/

/-- `util.ParseAtUri` result. -/
structure AtUri where
  Did : String
  Collection : String
  Rkey : String
  deriving DecidableEq, Repr

/-- `lexutil.LexiconTypeDecoder`: a record value as the repository returns it. -/
structure LexiconTypeDecoder where
  Val : List Nat
  deriving DecidableEq, Repr

/-- `atproto.RepoGetRecord_Output`; `Cid` is a pointer. -/
structure RepoGetRecord_Output where
  Cid : Option String
  Uri : String
  Value : LexiconTypeDecoder
  deriving DecidableEq, Repr

/-- `http.Response`, with the outcome of reading its body to the end. -/
structure HttpResponse where
  StatusCode : Nat
  Status : String
  Body : Except String (List Nat)

inductive NodeType where
  | ErrorNode
  | TextNode
  | DocumentNode
  | ElementNode
  | CommentNode
  | DoctypeNode
  | RawNode
  deriving DecidableEq, Repr

/-- `html.Attribute`. -/
structure Attribute where
  Namespace : String
  Key : String
  Val : String
  deriving DecidableEq, Repr

/-- `html.Node` with its `FirstChild` and `NextSibling` pointers; `nil` is the
nil pointer. -/
inductive Node where
  | nil : Node
  | node (Type_ : NodeType) (Data : String) (Attr : List Attribute)
      (FirstChild NextSibling : Node) : Node
  deriving DecidableEq, Repr

/-- Pure functions of the libraries botsky calls. -/
structure Lib where
  /-- Go `url.Parse`. -/
  urlParse : String → Except String URL
  /-- Go `URL.String`. -/
  urlString : URL → String
  /-- Function `util.ParseAtUri`. -/
  parseAtUri : String → Except String AtUri
  /-- Method `MarshalCBOR` of a record value. -/
  marshalCBOR : List Nat → Except String (List Nat)
  /-- Method `UnmarshalCBOR` of `bsky.FeedPost`. -/
  unmarshalPost : List Nat → Except String FeedPost
  /-- Go `html.Parse`. -/
  htmlParse : List Nat → Except String Node
  /-- The range table of `unicode.Punct` above U+00FF. -/
  punctTable : Char → Bool

/-- One call to the outside world, with whether it succeeded. -/
inductive Event where
  | httpGet (url : String) (ok : Bool)
  | readFile (path : String) (ok : Bool)
  | uploadBlob (data : List Nat) (ok : Bool)
  | getRecord (collection did rkey : String) (ok : Bool)
  | resolveHandle (handle : String) (ok : Bool)
  | createRecord (collection repo : String) (post : FeedPost) (ok : Bool)
  deriving DecidableEq, Repr

/-- The client and everything it talks to: the authenticated account, the
clock, and the answers of the network and the file system, which may depend on
a state `σ` that every call may change. -/
structure Env (σ : Type) where
  lib : Lib
  /-- Field `c.XrpcClient.Auth.Did`. -/
  authDid : String
  /-- Expression `time.Now().Format(time.RFC3339)`. -/
  now : σ → String
  /-- Go `http.Get`. -/
  httpGet : String → σ → Except String HttpResponse × σ
  /-- Go `os.ReadFile`. -/
  readFile : String → σ → Except String (List Nat) × σ
  /-- Call `atproto.RepoUploadBlob`. -/
  uploadBlob : List Nat → σ → Except String LexBlob × σ
  /-- Call `atproto.RepoGetRecord` (collection, did, rkey). -/
  getRecord : String → String → String → σ → Except String RepoGetRecord_Output × σ
  /-- Call `atproto.IdentityResolveHandle`, returning the DID. -/
  resolveHandle : String → σ → Except String String × σ
  /-- Call `atproto.RepoCreateRecord` (collection, repo, record), returning cid and uri. -/
  createRecord : String → String → FeedPost → σ → Except String (String × String) × σ

/-- The state of the outside world and the calls made so far. -/
structure World (σ : Type) where
  st : σ
  log : List Event

/-- What a botsky function that may fault returns. -/
inductive Outcome (α : Type) where
  | ok : α → Outcome α
  | error : String → Outcome α
  | fault : Outcome α
  deriving DecidableEq, Repr

/-- Whether a library call returned a nil error. -/
def isOk {α : Type} : Except String α → Bool
  | .ok _ => true
  | .error _ => false

def Env.callHttpGet {σ : Type} (env : Env σ) (url : String) (w : World σ) :
    Except String HttpResponse × World σ :=
  let r := env.httpGet url w.st
  (r.1, { st := r.2, log := w.log ++ [Event.httpGet url (isOk r.1)] })

def Env.callReadFile {σ : Type} (env : Env σ) (path : String) (w : World σ) :
    Except String (List Nat) × World σ :=
  let r := env.readFile path w.st
  (r.1, { st := r.2, log := w.log ++ [Event.readFile path (isOk r.1)] })

def Env.callUploadBlob {σ : Type} (env : Env σ) (data : List Nat) (w : World σ) :
    Except String LexBlob × World σ :=
  let r := env.uploadBlob data w.st
  (r.1, { st := r.2, log := w.log ++ [Event.uploadBlob data (isOk r.1)] })

def Env.callGetRecord {σ : Type} (env : Env σ) (collection did rkey : String) (w : World σ) :
    Except String RepoGetRecord_Output × World σ :=
  let r := env.getRecord collection did rkey w.st
  (r.1, { st := r.2, log := w.log ++ [Event.getRecord collection did rkey (isOk r.1)] })

def Env.callResolveHandle {σ : Type} (env : Env σ) (handle : String) (w : World σ) :
    Except String String × World σ :=
  let r := env.resolveHandle handle w.st
  (r.1, { st := r.2, log := w.log ++ [Event.resolveHandle handle (isOk r.1)] })

def Env.callCreateRecord {σ : Type} (env : Env σ) (collection repo : String) (post : FeedPost)
    (w : World σ) : Except String (String × String) × World σ :=
  let r := env.createRecord collection repo post w.st
  (r.1, { st := r.2, log := w.log ++ [Event.createRecord collection repo post (isOk r.1)] })

/-! ## utils.go: fetching bytes and page metadata -/

/-- Go's `strings.HasPrefix`. -/
def stringsHasPrefix (s p : String) : Bool := p.toList.isPrefixOf s.toList

/-- Go's `strings.TrimPrefix`. -/
def stringsTrimPrefix (s p : String) : String :=
  if stringsHasPrefix s p then String.mk (s.toList.drop p.toList.length) else s

/-- utils.go `getImageAsBuffer`. -/
def getImageAsBuffer {σ : Type} (env : Env σ) (imageLocation : String) (w : World σ) :
    Except String (List Nat) × World σ :=
  if stringsHasPrefix imageLocation "http://" || stringsHasPrefix imageLocation "https://" then
    match env.callHttpGet imageLocation w with
    | (.error err, w1) => (.error err, w1)
    | (.ok response, w1) =>
      if response.StatusCode ≠ 200 then
        (.error ("failed to fetch image: " ++ response.Status), w1)
      else
        match response.Body with
        | .error err => (.error err, w1)
        | .ok imageData => (.ok imageData, w1)
  else
    match env.callReadFile imageLocation w with
    | (.error err, w1) => (.error err, w1)
    | (.ok imageData, w1) => (.ok imageData, w1)

/-- The Go map `tags` of `fetchOpenGraphTwitterTags`: `none` for an absent key. -/
abbrev Tags := String → Option String

/-- The assignment `tags[key] = val`. -/
def Tags.set (tags : Tags) (key val : String) : Tags :=
  fun k => if k = key then some val else tags k

/-- One round of the attribute loop of `traverse`, on the pair (property, content). -/
def metaAttr (acc : String × String) (attr : Attribute) : String × String :=
  if attr.Key = "property" then
    if stringsHasPrefix attr.Val "og:" then (stringsTrimPrefix attr.Val "og:", acc.2) else acc
  else if attr.Key = "name" then
    if stringsHasPrefix attr.Val "twitter:" then (stringsTrimPrefix attr.Val "twitter:", acc.2)
    else acc
  else if attr.Key = "content" then (acc.1, attr.Val)
  else acc

/-- What `traverse` does at the node itself, before it descends. -/
def visitNode (ty : NodeType) (data : String) (attrs : List Attribute) (tags : Tags) : Tags :=
  if ty = NodeType.ElementNode ∧ data = "meta" then
    let pc := attrs.foldl metaAttr ("", "")
    if pc.1 ≠ "" ∧ pc.2 ≠ "" then tags.set pc.1 pc.2 else tags
  else tags

/-- The loop `for c := n.FirstChild; c != nil; c = c.NextSibling` with the body
`traverse(c)`, started at `c`: `c` is traversed, then its siblings. -/
def traverseFrom : Node → Tags → Tags
  | .nil, tags => tags
  | .node ty data attrs fc ns, tags =>
    traverseFrom ns (traverseFrom fc (visitNode ty data attrs tags))

/-- The closure `traverse` of `fetchOpenGraphTwitterTags` (`html.Parse` returns
a non-nil document, so the nil case is not reached from there). -/
def traverse : Node → Tags → Tags
  | .nil, tags => tags
  | .node ty data attrs fc _, tags => traverseFrom fc (visitNode ty data attrs tags)

/-- utils.go `fetchOpenGraphTwitterTags`. -/
def fetchOpenGraphTwitterTags {σ : Type} (env : Env σ) (url : String) (w : World σ) :
    Except String Tags × World σ :=
  match env.callHttpGet url w with
  | (.error err, w1) => (.error ("failed to fetch URL: " ++ err), w1)
  | (.ok resp, w1) =>
    match resp.Body with
    | .error err => (.error ("failed to read response body: " ++ err), w1)
    | .ok body =>
      match env.lib.htmlParse body with
      | .error err => (.error ("failed to parse HTML: " ++ err), w1)
      | .ok doc => (.ok (traverse doc (fun _ => none)), w1)

/-! ## repo.go -/

/-- utils.go `DecodeRecordAsLexicon`, at `bsky.FeedPost`. -/
def DecodeRecordAsLexicon (lib : Lib) (recordDecoder : LexiconTypeDecoder) :
    Except String FeedPost :=
  match lib.marshalCBOR recordDecoder.Val with
  | .error err => .error err
  | .ok buf => lib.unmarshalPost buf

/-- repo.go `RepoGetPostAndCid`; `*record.Cid` faults on a nil pointer. -/
def RepoGetPostAndCid {σ : Type} (env : Env σ) (postUri : String) (w : World σ) :
    Outcome (FeedPost × String) × World σ :=
  match env.lib.parseAtUri postUri with
  | .error err => (.error ("RepoGetPostAndCid error (ParseAtUri): " ++ err), w)
  | .ok parsedUri =>
    match env.callGetRecord parsedUri.Collection parsedUri.Did parsedUri.Rkey w with
    | (.error err, w1) => (.error ("RepoGetPostAndCid error (RepoGetRecord): " ++ err), w1)
    | (.ok record, w1) =>
      match DecodeRecordAsLexicon env.lib record.Value with
      | .error err => (.error ("RepoGetPostAndCid error (DecodeRecordAsLexicon): " ++ err), w1)
      | .ok post =>
        match record.Cid with
        | none => (.fault, w1)
        | some cid => (.ok (post, cid), w1)

/-- repo.go `RepoUploadImage`. A failure of `getImageAsBuffer` is logged with
`log.Printf` and the (nil) buffer is uploaded all the same. -/
def RepoUploadImage {σ : Type} (env : Env σ) (image : ImageSourceParsed) (w : World σ) :
    Except String LexBlob × World σ :=
  match getImageAsBuffer env (env.lib.urlString image.Uri) w with
  | (got, w1) =>
    let getImage : List Nat :=
      match got with
      | .ok data => data
      | .error _ => []
    match env.callUploadBlob getImage w1 with
    | (.error err, w2) => (.error ("RepoUploadImage error (RepoUploadBlob): " ++ err), w2)
    | (.ok resp, w2) => (.ok { Ref := resp.Ref, MimeType := resp.MimeType, Size := resp.Size }, w2)

/-- The loop of `RepoUploadImages` over the images still to upload, `blobs`
being those uploaded so far. -/
def uploadLoop {σ : Type} (env : Env σ) : List ImageSourceParsed → List LexBlob → World σ →
    Except String (List LexBlob) × World σ
  | [], blobs, w => (.ok blobs, w)
  | img :: rest, blobs, w =>
    match getImageAsBuffer env (env.lib.urlString img.Uri) w with
    | (got, w1) =>
      let getImage : List Nat :=
        match got with
        | .ok data => data
        | .error _ => []
      match env.callUploadBlob getImage w1 with
      | (.error err, w2) => (.error ("RepoUploadImages error (RepoUploadBlob): " ++ err), w2)
      | (.ok resp, w2) =>
        uploadLoop env rest
          (blobs ++ [{ Ref := resp.Ref, MimeType := resp.MimeType, Size := resp.Size }]) w2

/-- repo.go `RepoUploadImages`. -/
def RepoUploadImages {σ : Type} (env : Env σ) (images : List ImageSourceParsed) (w : World σ) :
    Except String (List LexBlob) × World σ :=
  uploadLoop env images [] w

/-- repo.go `RepoCreatePostRecord`. -/
def RepoCreatePostRecord {σ : Type} (env : Env σ) (post : FeedPost) (w : World σ) :
    Outcome (String × String) × World σ :=
  match env.callCreateRecord "app.bsky.feed.post" env.authDid post w with
  | (.error err, w1) => (.error ("unable to post, " ++ err), w1)
  | (.ok response, w1) => (.ok (response.1, response.2), w1)

/-! ## posts.go: `buildPost` -/

/-- The facet `buildPost` appends for one resolved mention. -/
def mentionFacet (m : MentionMatch) : RichtextFacet :=
  { Features := [{ RichtextFacet_Link := none,
                   RichtextFacet_Mention :=
                     some { LexiconTypeID := Facet_Type.Facet_Mention.String, Did := m.Did },
                   RichtextFacet_Tag := none }],
    Index := { ByteStart := m.Start, ByteEnd := m.End } }

/-- A facet with the single feature `Link` for `uri`. -/
def linkFacet (uri : String) (byteStart byteEnd : Nat) : RichtextFacet :=
  { Features := [{ RichtextFacet_Link :=
                     some { LexiconTypeID := Facet_Type.Facet_Link.String, Uri := uri },
                   RichtextFacet_Mention := none,
                   RichtextFacet_Tag := none }],
    Index := { ByteStart := byteStart, ByteEnd := byteEnd } }

/-- The facet `buildPost` appends for one hashtag match. -/
def tagFacet (punctTable : Char → Bool) (m : RegexMatch) : RichtextFacet :=
  { Features := [{ RichtextFacet_Link := none,
                   RichtextFacet_Mention := none,
                   RichtextFacet_Tag :=
                     some { LexiconTypeID := Facet_Type.Facet_Tag.String,
                            Tag := stripHashtag punctTable m.Value } }],
    Index := { ByteStart := m.Start, ByteEnd := m.End } }

/-- The loop of `buildPost` over the caller's inline links: the first display
text that is not found ends it with an error. -/
def inlineLinkFacets (text : String) : List InlineLink → Except String (List RichtextFacet)
  | [] => .ok []
  | link :: rest =>
    match findSubstring text link.Text with
    | .error err =>
      .error ("Unable to find the substring: " ++ Facet_Type.Facet_Link.String ++ " , " ++ err)
    | .ok (byteStart, byteEnd) =>
      match inlineLinkFacets text rest with
      | .error err => .error err
      | .ok facets => .ok (linkFacet link.Url byteStart byteEnd :: facets)

/-- The embed section of `buildPost`: `none` when `embedFlag` ends up false. -/
def buildEmbed (lib : Lib) (embed : Embed) : Option FeedPost_Embed :=
  if embed.Link ≠ Link.zero then
    some { EmbedExternal :=
             some { LexiconTypeID := "app.bsky.embed.external",
                    External := { Title := embed.Link.Title,
                                  Uri := lib.urlString embed.Link.Uri,
                                  Description := embed.Link.Description,
                                  Thumb := embed.Link.Thumb } },
           EmbedImages := none,
           EmbedRecord := none }
  else if embed.Images.length ≠ 0 ∧ embed.Images.length = embed.UploadedImages.length then
    some { EmbedExternal := none,
           EmbedImages :=
             some { LexiconTypeID := "app.bsky.embed.images",
                    Images := List.zipWith (fun img blob => { Alt := img.Alt, Image := blob })
                      embed.Images embed.UploadedImages },
           EmbedRecord := none }
  else if embed.Record ≠ RecordRef.zero then
    some { EmbedExternal := none,
           EmbedImages := none,
           EmbedRecord :=
             some { LexiconTypeID := "app.bsky.embed.record",
                    Record := { LexiconTypeID := "com.atproto.repo.strongRef",
                                Cid := embed.Record.Cid,
                                Uri := embed.Record.Uri } } }
  else none

/-- The reply section of `buildPost`. -/
def buildReply (replyReference : ReplyReference) : Option FeedPost_ReplyRef :=
  if replyReference ≠ ReplyReference.zero then
    some { Parent := some { LexiconTypeID := "", Uri := replyReference.Uri,
                            Cid := replyReference.Cid },
           Root := some { LexiconTypeID := "", Uri := replyReference.RootUri,
                          Cid := replyReference.RootCid } }
  else none

/-- posts.go `buildPost`; `now` is `time.Now().Format(time.RFC3339)`. -/
def buildPost (lib : Lib) (now : String) (pb : PostBuilder) (embed : Embed)
    (replyReference : ReplyReference) (mentionMatches : List MentionMatch) :
    Except String FeedPost :=
  match inlineLinkFacets pb.Text pb.InlineLinks with
  | .error err => .error err
  | .ok inlineFacets =>
    .ok { LexiconTypeID := "app.bsky.feed.post",
          CreatedAt := now,
          Text := pb.Text,
          Langs := pb.Languages,
          Tags := pb.AdditionalTags,
          Facets := mentionMatches.map mentionFacet ++ inlineFacets ++
            (findRegexMatches pb.Text urlRegex).map (fun m => linkFacet m.Value m.Start m.End) ++
            (findRegexMatches pb.Text hashtagRegex).map (tagFacet lib.punctTable),
          Embed := buildEmbed lib embed,
          Reply := buildReply replyReference }

/-! ## posts.go: `Client.Post` -/

/-- The count `nEmbeds` at the head of `Post`. -/
def nEmbeds (pb : PostBuilder) : Nat :=
  (if pb.EmbedImages ≠ none then 1 else 0) + (if pb.EmbedLink ≠ "" then 1 else 0) +
    (if pb.EmbedPostQuote ≠ "" then 1 else 0)

/-- The loop of `Post` that parses the image locations. -/
def parseImages (lib : Lib) : List ImageSource → List ImageSourceParsed →
    Except String (List ImageSourceParsed)
  | [], parsedImages => .ok parsedImages
  | img :: rest, parsedImages =>
    match lib.urlParse img.Uri with
    | .error _ => .error ("Unable to parse image source uri: " ++ img.Uri)
    | .ok parsedUrl => parseImages lib rest (parsedImages ++ [{ Alt := img.Alt, Uri := parsedUrl }])

/-- The image stage of `Post` (`if pb.EmbedImages != nil`). -/
def embedImagesStage {σ : Type} (env : Env σ) (pb : PostBuilder) (embed : Embed) (w : World σ) :
    Outcome Embed × World σ :=
  match pb.EmbedImages with
  | none => (.ok embed, w)
  | some images =>
    match parseImages env.lib images [] with
    | .error err => (.error err, w)
    | .ok parsedImages =>
      if parsedImages.length > 0 then
        match RepoUploadImages env parsedImages w with
        | (.error err, w1) => (.error ("Error when uploading images: " ++ err), w1)
        | (.ok blobs, w1) =>
          (.ok { embed with Images := parsedImages, UploadedImages := blobs }, w1)
      else (.ok embed, w)

/-- The external-link stage of `Post` (`if pb.EmbedLink != ""`). -/
def embedLinkStage {σ : Type} (env : Env σ) (pb : PostBuilder) (embed : Embed) (w : World σ) :
    Outcome Embed × World σ :=
  if pb.EmbedLink ≠ "" then
    match env.lib.urlParse pb.EmbedLink with
    | .error err => (.error ("Error when parsing link: " ++ err), w)
    | .ok parsedLink =>
      match fetchOpenGraphTwitterTags env pb.EmbedLink w with
      | (.error err, w1) => (.error ("Error when fetching og/twitter tags from link: " ++ err), w1)
      | (.ok siteTags, w1) =>
        let title := (siteTags "title").getD ""
        let description := (siteTags "description").getD ""
        let alt := (siteTags "image:alt").getD ""
        match siteTags "image" with
        | some imageUrl =>
          match env.lib.urlParse imageUrl with
          | .error err => (.error ("Error when parsing image url: " ++ err), w1)
          | .ok parsedImageUrl =>
            match RepoUploadImage env { Uri := parsedImageUrl, Alt := alt } w1 with
            | (.error err, w2) => (.error ("Error when trying to upload image: " ++ err), w2)
            | (.ok blob, w2) =>
              (.ok { embed with Link := { Title := title, Uri := parsedLink,
                                          Description := description, Thumb := blob } }, w2)
        | none =>
          (.ok { embed with Link := { Title := title, Uri := parsedLink,
                                      Description := description, Thumb := ⟨"", "", 0⟩ } }, w1)
  else (.ok embed, w)

/-- The quoted-post stage of `Post` (`if pb.EmbedPostQuote != ""`). -/
def embedQuoteStage {σ : Type} (env : Env σ) (pb : PostBuilder) (embed : Embed) (w : World σ) :
    Outcome Embed × World σ :=
  if pb.EmbedPostQuote ≠ "" then
    match RepoGetPostAndCid env pb.EmbedPostQuote w with
    | (.error err, w1) => (.error ("Error when getting quoted post: " ++ err), w1)
    | (.fault, w1) => (.fault, w1)
    | (.ok (_, cid), w1) =>
      (.ok { embed with Record := { Cid := cid, Uri := pb.EmbedPostQuote } }, w1)
  else (.ok embed, w)

/-- Root of the thread of a reply to `replyPost`: `none` is the nil-pointer
fault of `replyPost.Reply.Root.Cid`. -/
def replyRoot (replyPost : FeedPost) (replyUri cid : String) : Option (String × String) :=
  match replyPost.Reply with
  | some reply =>
    if reply ≠ { Parent := none, Root := none } then
      match reply.Root with
      | some root => some (root.Uri, root.Cid)
      | none => none
    else some (replyUri, cid)
  | none => some (replyUri, cid)

/-- The reply stage of `Post` (`if pb.ReplyUri != ""`). -/
def replyStage {σ : Type} (env : Env σ) (pb : PostBuilder) (w : World σ) :
    Outcome ReplyReference × World σ :=
  if pb.ReplyUri ≠ "" then
    match RepoGetPostAndCid env pb.ReplyUri w with
    | (.error err, w1) => (.error ("Error when getting reply post: " ++ err), w1)
    | (.fault, w1) => (.fault, w1)
    | (.ok (replyPost, cid), w1) =>
      match replyRoot replyPost pb.ReplyUri cid with
      | none => (.fault, w1)
      | some (rootUri, rootCid) =>
        (.ok { Uri := pb.ReplyUri, Cid := cid, RootUri := rootUri, RootCid := rootCid }, w1)
  else (.ok ReplyReference.zero, w)

/-- The mention loop of `Post` over the regexp matches `(m[0], m[1], m[2], m[3])`:
a handle that does not resolve is skipped. -/
def mentionLoop {σ : Type} (env : Env σ) (text : String) :
    List (Nat × Nat × Nat × Nat) → List MentionMatch → World σ → List MentionMatch × World σ
  | [], mentionMatches, w => (mentionMatches, w)
  | m :: rest, mentionMatches, w =>
    let start := m.2.2.1
    let end_ := m.2.2.2
    let value := sliceBytes text.toList start end_
    let handle := String.mk (dropBytes value 1)
    match env.callResolveHandle handle w with
    | (.error _, w1) => mentionLoop env text rest mentionMatches w1
    | (.ok did, w1) =>
      mentionLoop env text rest
        (mentionMatches ++ [{ Value := handle, Start := start, End := end_, Did := did }]) w1

/-- The mention stage of `Post`. -/
def mentionStage {σ : Type} (env : Env σ) (text : String) (w : World σ) : List MentionMatch × World σ :=
  mentionLoop env text (FindAllStringSubmatchIndex mentionPre mentionGroup text) [] w

/-- The default language of `Post` (`if len(pb.Languages) == 0`). -/
def withDefaultLanguage (pb : PostBuilder) : PostBuilder :=
  if pb.Languages.length = 0 then { pb with Languages := ["en"] } else pb

/-- Sequencing of two stages: an error or a fault of the first one is returned. -/
def Outcome.andThen {σ : Type} {α β : Type} (x : Outcome α × World σ)
    (f : α → World σ → Outcome β × World σ) : Outcome β × World σ :=
  match x with
  | (.ok a, w) => f a w
  | (.error err, w) => (.error err, w)
  | (.fault, w) => (.fault, w)

/-- Everything `Post` does between the embed check and the mention scan: the
resolved embed and reply reference. -/
def resolveStages {σ : Type} (env : Env σ) (pb : PostBuilder) (w : World σ) :
    Outcome (Embed × ReplyReference) × World σ :=
  Outcome.andThen (embedImagesStage env pb Embed.zero w) fun embed w1 =>
  Outcome.andThen (embedLinkStage env pb embed w1) fun embed w2 =>
  Outcome.andThen (embedQuoteStage env pb embed w2) fun embed w3 =>
  Outcome.andThen (replyStage env pb w3) fun replyReference w4 =>
  (.ok (embed, replyReference), w4)

/-- posts.go `Client.Post`. -/
def Post {σ : Type} (env : Env σ) (pb : PostBuilder) (w : World σ) : Outcome (String × String) × World σ :=
  if nEmbeds pb > 1 then
    (.error "Can only include one type of Embed (images, embedded link, quoted post) in posts.", w)
  else
    let pb := withDefaultLanguage pb
    Outcome.andThen (resolveStages env pb w) fun er w4 =>
    match mentionStage env pb.Text w4 with
    | (mentionMatches, w5) =>
      match buildPost env.lib (env.now w5.st) pb er.1 er.2 mentionMatches with
      | .error err => (.error ("Error when building post: " ++ err), w5)
      | .ok post => RepoCreatePostRecord env post w5

/-! ## Concrete worlds, used to run the embedding on examples -/

/-- Go's `strings.Split(s, "/")` on the characters of `s`: the parts between the
slashes, one part (the empty one) for the empty text. -/
def splitSlash : List Char → List (List Char)
  | [] => [[]]
  | c :: rest =>
    match splitSlash rest with
    | [] => [[]]
    | p :: ps => if c = '/' then [] :: p :: ps else (c :: p) :: ps

/-- An at-uri parser in the way of `util.ParseAtUri`: the text must start with
`at://`, and what follows must have exactly three parts separated by `/`, the
DID, the collection and the record key. -/
def sampleParseAtUri (uri : String) : Except String AtUri :=
  if stringsHasPrefix uri "at://" then
    match splitSlash (stringsTrimPrefix uri "at://").toList with
    | [did, collection, rkey] =>
      .ok { Did := String.mk did, Collection := String.mk collection, Rkey := String.mk rkey }
    | _ => .error "AT uris must have three parts: did, collection, tid"
  else .error "AT uris must be prefixed with at://"

/-- A library for the examples: URLs parse to themselves, at-uris are parsed by
`sampleParseAtUri`, every page parses to `doc` and every record decodes to
`replyPost`. -/
def sampleLib (doc : Node) (replyPost : FeedPost) : Lib :=
  { urlParse := fun s => .ok ⟨s⟩,
    urlString := fun u => u.text,
    parseAtUri := sampleParseAtUri,
    marshalCBOR := fun v => .ok v,
    unmarshalPost := fun _ => .ok replyPost,
    htmlParse := fun _ => .ok doc,
    punctTable := fun _ => false }

/-- A stateless world: pages are served, image bytes are served when `imageOk`
(else the server answers 404), every upload and record call succeeds, and the
directory knows the handles in `known`. -/
def sampleEnv (lib : Lib) (imageOk : Bool) (known : List String) : Env Unit :=
  { lib := lib,
    authDid := "did:plc:me",
    now := fun _ => "2024-01-01T00:00:00Z",
    httpGet := fun url _ =>
      if stringsHasPrefix url "http://img." then
        if imageOk then (.ok { StatusCode := 200, Status := "200 OK", Body := .ok [1, 2, 3] }, ())
        else (.ok { StatusCode := 404, Status := "404 Not Found", Body := .ok [] }, ())
      else (.ok { StatusCode := 200, Status := "200 OK", Body := .ok [60, 62] }, ()),
    readFile := fun _ _ => (.error "no such file", ()),
    uploadBlob := fun data _ => (.ok { Ref := "blob", MimeType := "image/png", Size := data.length }, ()),
    getRecord := fun collection did rkey _ =>
      (.ok { Cid := some "cid-of-target", Uri := "at://" ++ did ++ "/" ++ collection ++ "/" ++ rkey,
             Value := ⟨[]⟩ }, ()),
    resolveHandle := fun handle _ =>
      if handle ∈ known then (.ok ("did:plc:" ++ handle), ()) else (.error "not found", ()),
    createRecord := fun _ _ _ _ => (.ok ("cid-new", "at://me/app.bsky.feed.post/new"), ()) }

/-- A record without embed, reply or annotations. -/
def plainPost (text : String) : FeedPost :=
  { LexiconTypeID := "app.bsky.feed.post", CreatedAt := "", Text := text, Langs := [], Tags := [],
    Facets := [], Embed := none, Reply := none }

/-- The world before any call. -/
def World.start : World Unit := { st := (), log := [] }

/-! ## C2: the reply reference -/

/-- A fetched reply target whose reply reference names its parent and has a nil root. -/
def rootlessReply : FeedPost :=
  { plainPost "a reply" with
    Reply := some { Parent := some { LexiconTypeID := "", Cid := "cid-p",
                                     Uri := "at://did:plc:carol/app.bsky.feed.post/3kparent" },
                    Root := none } }

/-! ## What the stages of `Post` may append to the log -/

/-- Whether the event is a `createRecord` call. -/
def Event.isCreate : Event → Bool
  | .createRecord _ _ _ _ => true
  | _ => false

/-- Whether the event is a blob upload that failed. -/
def Event.isFailedUpload : Event → Bool
  | .uploadBlob _ false => true
  | _ => false

/-- Whether the outcome is an ordinary Go error. -/
def Outcome.isError {α : Type} : Outcome α → Bool
  | .error _ => true
  | _ => false

/-- The world `w1` continues `w`: its log is the log of `w` followed by calls
none of which is a `createRecord`, and, when `strict` holds, none of which is a
failed upload. -/
def Quiet {σ : Type} (strict : Prop) (w w1 : World σ) : Prop :=
  ∃ evs, w1.log = w.log ++ evs ∧ (∀ e ∈ evs, e.isCreate = false) ∧
    (strict → ∀ e ∈ evs, e.isFailedUpload = false)

/-! ## Inline links: what `inlineLinkFacets` returns -/

/-- The facet of an inline link whose display text is found in `text`. -/
def inlineLinkFacet (text : String) (link : InlineLink) : RichtextFacet :=
  linkFacet link.Url ((stringsIndex text link.Text).getD 0)
    ((stringsIndex text link.Text).getD 0 + byteLen link.Text.toList)

/-! ## C3: mentions and the directory resolver -/

/-- A mention candidate of the scan: the span of `@handle` in the body and the
handle handed to the resolver. -/
structure MentionCandidate where
  handle : String
  Start : Nat
  End : Nat
  deriving DecidableEq, Repr

/-- The mention candidates of a body, in scan order. -/
def mentionCandidates (text : String) : List MentionCandidate :=
  (FindAllStringSubmatchIndex mentionPre mentionGroup text).map fun m =>
    { handle := String.mk (dropBytes (sliceBytes text.toList m.2.2.1 m.2.2.2) 1),
      Start := m.2.2.1, End := m.2.2.2 }

/-- The answers of the directory resolver when it is asked for the handles one
after the other, and the world after the last answer. -/
def resolveAll {σ : Type} (env : Env σ) : List String → World σ → List (Except String String) × World σ
  | [], w => ([], w)
  | handle :: rest, w =>
    ((env.callResolveHandle handle w).1 :: (resolveAll env rest (env.callResolveHandle handle w).2).1,
      (resolveAll env rest (env.callResolveHandle handle w).2).2)

/-- The candidates whose answer is a success, in order, each with the identifier
of the answer and its own span. -/
def resolvedMentions (cands : List MentionCandidate) (answers : List (Except String String)) :
    List MentionMatch :=
  (cands.zip answers).filterMap fun p =>
    match p.2 with
    | .ok did => some { Value := p.1.handle, Start := p.1.Start, End := p.1.End, Did := did }
    | .error _ => none

/-- Whether a facet carries a Mention feature. -/
def isMentionFacet (f : RichtextFacet) : Bool :=
  f.Features.any fun x => x.RichtextFacet_Mention.isSome

/-! ## C4: the image set -/

/-- A draft with two images and nothing else. -/
def twoImages : PostBuilder :=
  { NewPostBuilder "look" with
    EmbedImages := some [⟨"a cat", "http://img.example/cat.png"⟩,
                         ⟨"a dog", "http://img.example/dog.png"⟩] }

/-! ## C5: an inline link whose display text is not in the body -/

/-- A draft with an inline link whose display text is not in the body. -/
def missingLink : PostBuilder :=
  { NewPostBuilder "hello world" with InlineLinks := [⟨"xyzzy", "https://example.com"⟩] }

/-! ## C7: spans lie in the body -/

/-- Where a successful run of the matcher hands over to its continuation: at a
later position of the same text, strictly later when the expression is not
nullable. -/
def Reaches {α : Type} (k : Nat → List Char → Option α) (strict : Bool) (pos : Nat)
    (s : List Char) (x : α) : Prop :=
  ∃ pos1 s1, k pos1 s1 = some x ∧ pos ≤ pos1 ∧ pos1 + byteLen s1 = pos + byteLen s ∧
    (strict = true → pos < pos1)

/-! ## C9: the preview image of an external link -/

/-- A page whose only element is `<meta property="og:image" content=...>`. -/
def pageWithImage : Node :=
  .node .DocumentNode "" []
    (.node .ElementNode "meta"
      [⟨"", "property", "og:image"⟩, ⟨"", "content", "http://img.example/pic.png"⟩] .nil .nil)
    .nil

/-- A draft with an external link and nothing else. -/
def linkDraft : PostBuilder :=
  { NewPostBuilder "read this" with EmbedLink := "http://example.com/page" }

/-! ## C10: the tag map of a page -/

/-- The value of `f` at the last element of the list on which `f` is defined. -/
def lastSome {α β : Type} (f : α → Option β) : List α → Option β
  | [] => none
  | a :: rest =>
    match lastSome f rest with
    | some b => some b
    | none => f a

/-- The key an attribute gives its element: the rest of a `property` value after
"og:", or of a `name` value after "twitter:". -/
def attrKey (attr : Attribute) : Option String :=
  if attr.Key = "property" ∧ stringsHasPrefix attr.Val "og:" = true then
    some (stringsTrimPrefix attr.Val "og:")
  else if attr.Key = "name" ∧ stringsHasPrefix attr.Val "twitter:" = true then
    some (stringsTrimPrefix attr.Val "twitter:")
  else none

/-- The content an attribute gives its element: the value of a `content` attribute. -/
def attrContent (attr : Attribute) : Option String :=
  if attr.Key = "content" then some attr.Val else none

/-- The key of an element: that of the last attribute that gives one, else empty. -/
def metaKey (attrs : List Attribute) : String := (lastSome attrKey attrs).getD ""

/-- The content of an element: that of its last `content` attribute, else empty. -/
def metaContent (attrs : List Attribute) : String := (lastSome attrContent attrs).getD ""

/-- The nodes from `c` on in document order: `c` with its descendants, then its
later siblings with theirs. -/
def docOrderFrom : Node → List (NodeType × String × List Attribute)
  | .nil => []
  | .node ty data attrs fc ns => (ty, data, attrs) :: (docOrderFrom fc ++ docOrderFrom ns)

/-- The nodes of a document in document order. -/
def docOrder : Node → List (NodeType × String × List Attribute)
  | .nil => []
  | .node ty data attrs fc _ => (ty, data, attrs) :: docOrderFrom fc

/-- What a node says about the key `k`: its content, when it is a `<meta>`
element with key `k` and both key and content are non-empty. -/
def metaEntry (k : String) (n : NodeType × String × List Attribute) : Option String :=
  if n.1 = NodeType.ElementNode ∧ n.2.1 = "meta" ∧ metaKey n.2.2 = k ∧ k ≠ "" ∧
      metaContent n.2.2 ≠ "" then
    some (metaContent n.2.2)
  else none

/-- A page whose one `<meta>` element has `property="og:title"`, then
`name="twitter:card"`, then a content. -/
def pageTwoKeys : Node :=
  .node .DocumentNode "" []
    (.node .ElementNode "meta"
      [⟨"", "property", "og:title"⟩, ⟨"", "name", "twitter:card"⟩, ⟨"", "content", "X"⟩] .nil .nil)
    .nil

/-! ## C11: the number of facets -/

/-- Whether a facet carries a Link feature. -/
def isLinkFacet (f : RichtextFacet) : Bool :=
  f.Features.any fun x => x.RichtextFacet_Link.isSome

/-- Whether a facet carries a Tag feature. -/
def isTagFacet (f : RichtextFacet) : Bool :=
  f.Features.any fun x => x.RichtextFacet_Tag.isSome

/-- A draft whose inline link has the very span of an auto-detected URL, next to
a hashtag. -/
def overlappingDraft : PostBuilder :=
  { NewPostBuilder "#a http://b.co" with InlineLinks := [⟨"http://b.co", "http://b.co"⟩] }

/-! ## C12: the embed and reply fields -/

/-- The number of variants that are set in an embed union. -/
def FeedPost_Embed.variants (e : FeedPost_Embed) : Nat :=
  (if e.EmbedExternal.isSome then 1 else 0) + (if e.EmbedImages.isSome then 1 else 0) +
    (if e.EmbedRecord.isSome then 1 else 0)

/-- A draft that quotes a post and has nothing else. -/
def quoteDraft : PostBuilder :=
  { NewPostBuilder "look at this" with EmbedPostQuote := "at://did:plc:bob/app.bsky.feed.post/3kquoted" }

/-- The embed value that the quote stage resolves for `quoteDraft`. -/
def quotedEmbed : Embed :=
  { Embed.zero with Record := { Cid := "cid-of-target", Uri := "at://did:plc:bob/app.bsky.feed.post/3kquoted" } }

/-- The record that `buildPost` composes for `quoteDraft`. -/
def quotePost : FeedPost :=
  { plainPost "look at this" with
    Embed := some { EmbedExternal := none, EmbedImages := none,
                    EmbedRecord :=
                      some { LexiconTypeID := "app.bsky.embed.record",
                             Record := { LexiconTypeID := "com.atproto.repo.strongRef",
                                         Cid := "cid-of-target", Uri := "at://did:plc:bob/app.bsky.feed.post/3kquoted" } } } }

/-! ## C13: the first occurrence of a display text -/

/-- The text `sub` occurs in `s` at byte offset `i`. -/
def OccursAt (s sub : List Char) (i : Nat) : Prop :=
  ∃ pre post, s = pre ++ sub ++ post ∧ byteLen pre = i

/-- A draft whose inline link has a display text that occurs three times. -/
def repeatedLink : PostBuilder :=
  { NewPostBuilder "ab ab ab" with InlineLinks := [⟨"ab", "https://example.com"⟩] }

/-! ## What a match of a regular expression looks like -/

/-- The texts an expression matches: `Matches r pos w` says that `r` matches
the text `w` when `w` starts at byte offset `pos` of the whole text. -/
inductive Matches : RE → Nat → List Char → Prop
  | eps (pos : Nat) : Matches .eps pos []
  | bot : Matches .bot 0 []
  | cls (p : Char → Bool) (c : Char) (pos : Nat) : p c = true → Matches (.cls p) pos [c]
  | cat (a b : RE) (pos : Nat) (u v : List Char) :
      Matches a pos u → Matches b (pos + byteLen u) v → Matches (.cat a b) pos (u ++ v)
  | altL (a b : RE) (pos : Nat) (u : List Char) : Matches a pos u → Matches (.alt a b) pos u
  | altR (a b : RE) (pos : Nat) (u : List Char) : Matches b pos u → Matches (.alt a b) pos u
  | starNil (a : RE) (pos : Nat) : Matches (.star a) pos []
  | starCons (a : RE) (pos : Nat) (u v : List Char) :
      Matches a pos u → Matches (.star a) (pos + byteLen u) v → Matches (.star a) pos (u ++ v)

/-- A successful run of the matcher consumes a text `u` that the expression
matches and hands the rest to its continuation. -/
def Consumes {α : Type} (r : RE) (k : Nat → List Char → Option α) (pos : Nat) (s : List Char)
    (x : α) : Prop :=
  ∃ u s1, s = u ++ s1 ∧ Matches r pos u ∧ k (pos + byteLen u) s1 = some x

/-! ## repo.go, botsky.go, notification.go: listing records, post views, notifications -/

/-- `atproto.RepoListRecords_Record`. -/
structure RepoListRecords_Record where
  Cid : String
  Uri : String
  Value : LexiconTypeDecoder
  deriving DecidableEq, Repr

/-- `atproto.RepoListRecords_Output`; `Cursor` is a pointer. -/
structure RepoListRecords_Output where
  Cursor : Option String
  Records : List RepoListRecords_Record
  deriving DecidableEq, Repr

/-- `bsky.FeedDefs_PostView`, as far as it is used here. -/
structure FeedDefs_PostView where
  Uri : String
  Cid : String
  deriving DecidableEq, Repr

/-- `bsky.NotificationListNotifications_Notification`, as far as it is used here. -/
structure NotificationListNotifications_Notification where
  Uri : String
  Reason : String
  deriving DecidableEq, Repr

/-- One request to the server, with its arguments; for `feedGetPosts` also the
posts it returned (`none` when it failed). -/
inductive Call where
  | listRecords (collection cursor : String) (limit : Int) (repo : String)
  | feedGetPosts (uris : List String) (posts : Option (List FeedDefs_PostView))
  | listNotifications (limit : Int)
  deriving DecidableEq, Repr

/-- The answers of the server to the three listing requests, which may depend
on a state `σ` that every request may change. -/
structure Server (σ : Type) where
  /-- Call `atproto.RepoListRecords` (collection, cursor, limit, repo). -/
  listRecords : String → String → Int → String → σ → Except String RepoListRecords_Output × σ
  /-- Call `bsky.FeedGetPosts`, returning `results.Posts`. -/
  feedGetPosts : List String → σ → Except String (List FeedDefs_PostView) × σ
  /-- Call `bsky.NotificationListNotifications` (limit), returning `output.Notifications`. -/
  listNotifications : Int → σ →
    Except String (List NotificationListNotifications_Notification) × σ

/-- The state of the server and the requests made so far. -/
structure Session (σ : Type) where
  st : σ
  calls : List Call

def Server.callListRecords {σ : Type} (srv : Server σ) (collection cursor : String) (limit : Int)
    (repo : String) (w : Session σ) : Except String RepoListRecords_Output × Session σ :=
  let r := srv.listRecords collection cursor limit repo w.st
  (r.1, { st := r.2, calls := w.calls ++ [Call.listRecords collection cursor limit repo] })

/-- The posts of a successful answer, `none` for an error. -/
def postsOf (r : Except String (List FeedDefs_PostView)) : Option (List FeedDefs_PostView) :=
  match r with
  | .ok posts => some posts
  | .error _ => none

def Server.callFeedGetPosts {σ : Type} (srv : Server σ) (uris : List String) (w : Session σ) :
    Except String (List FeedDefs_PostView) × Session σ :=
  let r := srv.feedGetPosts uris w.st
  (r.1, { st := r.2, calls := w.calls ++ [Call.feedGetPosts uris (postsOf r.1)] })

def Server.callListNotifications {σ : Type} (srv : Server σ) (limit : Int) (w : Session σ) :
    Except String (List NotificationListNotifications_Notification) × Session σ :=
  let r := srv.listNotifications limit w.st
  (r.1, { st := r.2, calls := w.calls ++ [Call.listNotifications limit] })

/-- The `for` loop of `RepoGetRecords`, with the variables `records`, `cursor`
and `lastCid` (which the loop never assigns); the result is the value of
`records` at the `break`. `none` stands for a loop that is still running when
the fuel is used up. -/
def recordsLoop {σ : Type} (srv : Server σ) (handleOrDid collection : String) (limit : Int) :
    Nat → List RepoListRecords_Record → String → String → Session σ →
      Option (Outcome (List RepoListRecords_Record) × Session σ)
  | 0, _, _, _, _ => none
  | fuel + 1, records, cursor, lastCid, w =>
    match srv.callListRecords collection cursor 100 handleOrDid w with
    | (.error err, w1) => some (.error ("RepoGetRecords error (RepoListRecords): " ++ err), w1)
    | (.ok output, w1) =>
      if output.Records.length = 0 ∨
          some lastCid = output.Records.getLast?.map (fun r => r.Cid) then
        some (.ok records, w1)
      else if limit ≠ -1 ∧ ((records ++ output.Records).length : Int) ≥ limit then
        some (.ok (records ++ output.Records), w1)
      else
        match output.Cursor with
        | none => some (.fault, w1)
        | some next =>
          recordsLoop srv handleOrDid collection limit fuel (records ++ output.Records) next
            lastCid w1

/-- repo.go `RepoGetRecords`; the slice `records[:end]` faults for a negative `end`. -/
def RepoGetRecords {σ : Type} (srv : Server σ) (handleOrDid collection : String) (limit : Int)
    (fuel : Nat) (w : Session σ) :
    Option (Outcome (List RepoListRecords_Record) × Session σ) :=
  match recordsLoop srv handleOrDid collection limit fuel [] "" "" w with
  | none => none
  | some (.ok records, w1) =>
    let end_ : Int := if limit = -1 then (records.length : Int) else min (records.length : Int) limit
    if end_ < 0 then some (.fault, w1) else some (.ok (records.take end_.toNat), w1)
  | some (.error err, w1) => some (.error err, w1)
  | some (.fault, w1) => some (.fault, w1)

/-- repo.go `RepoGetRecordUris`. -/
def RepoGetRecordUris {σ : Type} (srv : Server σ) (handleOrDid collection : String) (limit : Int)
    (fuel : Nat) (w : Session σ) : Option (Outcome (List String) × Session σ) :=
  match RepoGetRecords srv handleOrDid collection limit fuel w with
  | none => none
  | some (.ok records, w1) => some (.ok (records.map fun r => r.Uri), w1)
  | some (.error err, w1) =>
    some (.error ("RepoGetRecordUris error (RepoGetRecords): " ++ err), w1)
  | some (.fault, w1) => some (.fault, w1)

/-- The hydration loop of `GetPostViews`, `for i := 0; i < len(postUris); i += 25`,
from the index `i` on, with the variable `postViews`. -/
def hydrateLoop {σ : Type} (srv : Server σ) (postUris : List String) :
    Nat → Nat → List FeedDefs_PostView → Session σ →
      Option (Except String (List FeedDefs_PostView) × Session σ)
  | 0, i, postViews, w => if i < postUris.length then none else some (.ok postViews, w)
  | fuel + 1, i, postViews, w =>
    if i < postUris.length then
      let j := if i + 25 > postUris.length then postUris.length else i + 25
      match srv.callFeedGetPosts ((postUris.drop i).take (j - i)) w with
      | (.error err, w1) => some (.error ("GetPostViews error (FeedGetPosts): " ++ err), w1)
      | (.ok results, w1) => hydrateLoop srv postUris fuel (i + 25) (postViews ++ results) w1
    else some (.ok postViews, w)

/-- botsky.go `GetPostViews`; `fuel` bounds the loop of `RepoGetRecords`, the
hydration loop gets one round per URI, which is more than it needs. -/
def GetPostViews {σ : Type} (srv : Server σ) (handleOrDid : String) (limit : Int) (fuel : Nat)
    (w : Session σ) : Option (Outcome (List FeedDefs_PostView) × Session σ) :=
  match RepoGetRecordUris srv handleOrDid "app.bsky.feed.post" limit fuel w with
  | none => none
  | some (.error err, w1) =>
    some (.error ("GetPostViews error (RepoGetRecordUris): " ++ err), w1)
  | some (.fault, w1) => some (.fault, w1)
  | some (.ok postUris, w1) =>
    match hydrateLoop srv postUris postUris.length 0 [] w1 with
    | none => none
    | some (.error err, w2) => some (.error err, w2)
    | some (.ok postViews, w2) => some (.ok postViews, w2)

set_option linter.unusedVariables false in
/-- notification.go `NotifGetNotifications`, with its three assignments to `limit`. -/
def NotifGetNotifications {σ : Type} (srv : Server σ) (limit : Int) (w : Session σ) :
    Except String (List NotificationListNotifications_Notification) × Session σ :=
  let limit : Int := min 100 limit
  let limit : Int := max 1 limit
  let limit : Int := 10
  match srv.callListNotifications limit w with
  | (.error err, w1) => (.error ("Error when calling ListNotifications: " ++ err), w1)
  | (.ok notifications, w1) => (.ok notifications, w1)

/-- A server that ignores the cursor: every page is the same one record, with a
cursor for a next page. Posts and notifications are served as asked. -/
def repeatingServer : Server Unit :=
  { listRecords := fun _ _ _ _ _ =>
      (.ok { Cursor := some "next",
             Records := [{ Cid := "cid-1", Uri := "at://alice/app.bsky.feed.post/1",
                           Value := ⟨[]⟩ }] }, ()),
    feedGetPosts := fun uris _ => (.ok (uris.map fun u => { Uri := u, Cid := "cid" }), ()),
    listNotifications := fun limit _ =>
      (.ok (List.replicate limit.toNat { Uri := "at://n", Reason := "like" }), ()) }

/-- A server whose repository is empty. -/
def emptyServer : Server Unit :=
  { repeatingServer with
    listRecords := fun _ _ _ _ _ => (.ok { Cursor := none, Records := [] }, ()) }

/-- The session before any request. -/
def Session.start : Session Unit := { st := (), calls := [] }

/-- The `k`-th batch of 25 URIs. -/
def batchAt (uris : List String) (k : Nat) : List String := (uris.drop (25 * k)).take 25

/-- The URIs cut into consecutive batches of 25, the last one possibly shorter:
`ceil(n/25)` batches. -/
def batches (uris : List String) : List (List String) :=
  (List.range ((uris.length + 24) / 25)).map (batchAt uris)

/-- Requesting the batches one after the other: the results are appended to
`postViews` in order, and the first failing request ends the run with its error. -/
def runBatches {σ : Type} (srv : Server σ) :
    List (List String) → List FeedDefs_PostView → Session σ →
      Except String (List FeedDefs_PostView) × Session σ
  | [], postViews, w => (.ok postViews, w)
  | b :: rest, postViews, w =>
    match srv.callFeedGetPosts b w with
    | (.error err, w1) => (.error ("GetPostViews error (FeedGetPosts): " ++ err), w1)
    | (.ok results, w1) => runBatches srv rest (postViews ++ results) w1

/-! ## C17: the batches of `GetPostViews` -/

/-- The 27 URIs that `RepoGetRecordUris` collects from `repeatingServer` with limit 27. -/
def sampleUris : List String := List.replicate 27 "at://alice/app.bsky.feed.post/1"

/-- The session after these 27 URIs have been collected, one page per request. -/
def afterListing : Session Unit :=
  { st := (),
    calls := Call.listRecords "app.bsky.feed.post" "" 100 "alice" ::
      List.replicate 26 (Call.listRecords "app.bsky.feed.post" "next" 100 "alice") }

/-! # Theorems -/

/-! ## C1: more than one embed directive -/

/-- C1: a draft in which more than one of the three embed directives (image
list, embed-link URL, quoted-post reference) is set makes `Post` return an error
and leaves the world as it was: no call of any kind is made or logged. -/
theorem Post_rejects_several_embeds {σ : Type} (env : Env σ) (pb : PostBuilder) (w : World σ)
    (h : (pb.EmbedImages ≠ none ∧ pb.EmbedLink ≠ "") ∨
         (pb.EmbedImages ≠ none ∧ pb.EmbedPostQuote ≠ "") ∨
         (pb.EmbedLink ≠ "" ∧ pb.EmbedPostQuote ≠ "")) :
    Post env pb w =
      (.error "Can only include one type of Embed (images, embedded link, quoted post) in posts.",
        w) := by
  have hn : nEmbeds pb > 1 := by
    unfold nEmbeds
    rcases h with ⟨h1, h2⟩ | ⟨h1, h2⟩ | ⟨h1, h2⟩ <;> simp only [h1, h2, ne_eq, not_false_eq_true, if_true] <;>
      split <;> omega
  simp [Post, hn]

/-- C1 at a draft with an image list and an external-link URL. -/
theorem Post_rejects_several_embeds_witness :
    Post (sampleEnv (sampleLib .nil (plainPost "")) true [])
        { NewPostBuilder "hi" with EmbedImages := some [⟨"alt", "a.png"⟩],
                                   EmbedLink := "http://example.com" } World.start =
      (.error "Can only include one type of Embed (images, embedded link, quoted post) in posts.",
        World.start) :=
  Post_rejects_several_embeds _ _ _ (Or.inl ⟨by decide, by decide⟩)

/-! ## C2: the reply reference -/

/-- The reply stage on a target that carries no reply reference, or an all-nil
one: the root of the new reply is its parent. -/
theorem replyStage_root_is_parent {σ : Type} (env : Env σ) (pb : PostBuilder) (w w1 : World σ)
    (r : FeedPost) (c : String) (hu : pb.ReplyUri ≠ "")
    (hf : RepoGetPostAndCid env pb.ReplyUri w = (.ok (r, c), w1))
    (hr : r.Reply = none ∨ r.Reply = some { Parent := none, Root := none }) :
    replyStage env pb w =
      (.ok { Uri := pb.ReplyUri, Cid := c, RootUri := pb.ReplyUri, RootCid := c }, w1) := by
  rcases hr with hr | hr <;> simp [replyStage, hu, hf, replyRoot, hr]

/-- The reply stage on a target whose reply reference has a root: that root is
taken over. -/
theorem replyStage_root_inherited {σ : Type} (env : Env σ) (pb : PostBuilder) (w w1 : World σ)
    (r : FeedPost) (c : String) (parent : Option RepoStrongRef) (root : RepoStrongRef)
    (hu : pb.ReplyUri ≠ "")
    (hf : RepoGetPostAndCid env pb.ReplyUri w = (.ok (r, c), w1))
    (hr : r.Reply = some { Parent := parent, Root := some root }) :
    replyStage env pb w =
      (.ok { Uri := pb.ReplyUri, Cid := c, RootUri := root.Uri, RootCid := root.Cid }, w1) := by
  simp [replyStage, hu, hf, replyRoot, hr]

/-- The reply stage on a target whose reply reference has a parent and no root:
the dereference of the nil root faults. -/
theorem replyStage_missing_root {σ : Type} (env : Env σ) (pb : PostBuilder) (w w1 : World σ)
    (r : FeedPost) (c : String) (parent : RepoStrongRef) (hu : pb.ReplyUri ≠ "")
    (hf : RepoGetPostAndCid env pb.ReplyUri w = (.ok (r, c), w1))
    (hr : r.Reply = some { Parent := some parent, Root := none }) :
    replyStage env pb w = (.fault, w1) := by
  simp [replyStage, hu, hf, replyRoot, hr]

/-- C2, at a reply target with a well-formed at-uri whose stored reply
reference has a parent and no root: the at-uri parses into its three parts, the
fetch of the target succeeds, and `Post` faults on `replyPost.Reply.Root.Cid`
instead of composing a reply reference whose root equals the parent; the only
call made is the fetch of the target. -/
theorem Post_reply_to_rootless_target_faults :
    sampleParseAtUri "at://did:plc:alice/app.bsky.feed.post/3ktarget" =
      .ok { Did := "did:plc:alice", Collection := "app.bsky.feed.post", Rkey := "3ktarget" } ∧
    RepoGetPostAndCid (sampleEnv (sampleLib .nil rootlessReply) true [])
        "at://did:plc:alice/app.bsky.feed.post/3ktarget" World.start =
      (.ok (rootlessReply, "cid-of-target"),
        { st := (), log := [Event.getRecord "app.bsky.feed.post" "did:plc:alice" "3ktarget" true] }) ∧
    rootlessReply.Reply =
      some { Parent := some { LexiconTypeID := "", Cid := "cid-p",
                              Uri := "at://did:plc:carol/app.bsky.feed.post/3kparent" },
             Root := none } ∧
    (Post (sampleEnv (sampleLib .nil rootlessReply) true [])
        { NewPostBuilder "me too" with
          ReplyUri := "at://did:plc:alice/app.bsky.feed.post/3ktarget" } World.start).1 = .fault ∧
    (Post (sampleEnv (sampleLib .nil rootlessReply) true [])
        { NewPostBuilder "me too" with
          ReplyUri := "at://did:plc:alice/app.bsky.feed.post/3ktarget" } World.start).2.log =
      [Event.getRecord "app.bsky.feed.post" "did:plc:alice" "3ktarget" true] := by
  refine ⟨by rfl, by rfl, rfl, by decide, by decide⟩

/-! ## What the stages of `Post` may append to the log -/

theorem Quiet.refl {σ : Type} (strict : Prop) (w : World σ) : Quiet strict w w :=
  ⟨[], by simp, by simp, by simp⟩

theorem Quiet.trans {σ : Type} {s1 s2 s : Prop} {w w1 w2 : World σ} (h1 : Quiet s1 w w1)
    (h2 : Quiet s2 w1 w2) (hs : s → s1 ∧ s2) : Quiet s w w2 := by
  obtain ⟨e1, hl1, hc1, hu1⟩ := h1
  obtain ⟨e2, hl2, hc2, hu2⟩ := h2
  refine ⟨e1 ++ e2, by rw [hl2, hl1, List.append_assoc], ?_, ?_⟩
  · intro e he
    rcases List.mem_append.mp he with he | he
    · exact hc1 e he
    · exact hc2 e he
  · intro hst e he
    rcases List.mem_append.mp he with he | he
    · exact hu1 (hs hst).1 e he
    · exact hu2 (hs hst).2 e he

theorem Quiet.weaken {σ : Type} {s1 s : Prop} {w w1 : World σ} (h : Quiet s1 w w1) (hs : s → s1) :
    Quiet s w w1 := by
  obtain ⟨e1, hl1, hc1, hu1⟩ := h
  exact ⟨e1, hl1, hc1, fun hst => hu1 (hs hst)⟩

theorem callHttpGet_quiet {σ : Type} (env : Env σ) (url : String) (w : World σ) :
    Quiet True w (env.callHttpGet url w).2 :=
  ⟨[Event.httpGet url (isOk (env.httpGet url w.st).1)], rfl, by simp [Event.isCreate],
    by simp [Event.isFailedUpload]⟩

theorem callReadFile_quiet {σ : Type} (env : Env σ) (path : String) (w : World σ) :
    Quiet True w (env.callReadFile path w).2 :=
  ⟨[Event.readFile path (isOk (env.readFile path w.st).1)], rfl, by simp [Event.isCreate],
    by simp [Event.isFailedUpload]⟩

theorem callGetRecord_quiet {σ : Type} (env : Env σ) (c d r : String) (w : World σ) :
    Quiet True w (env.callGetRecord c d r w).2 :=
  ⟨[Event.getRecord c d r (isOk (env.getRecord c d r w.st).1)], rfl, by simp [Event.isCreate],
    by simp [Event.isFailedUpload]⟩

theorem callResolveHandle_quiet {σ : Type} (env : Env σ) (handle : String) (w : World σ) :
    Quiet True w (env.callResolveHandle handle w).2 :=
  ⟨[Event.resolveHandle handle (isOk (env.resolveHandle handle w.st).1)], rfl,
    by simp [Event.isCreate], by simp [Event.isFailedUpload]⟩

theorem callUploadBlob_quiet {σ : Type} (env : Env σ) (data : List Nat) (w : World σ) :
    Quiet (isOk (env.callUploadBlob data w).1 = true) w (env.callUploadBlob data w).2 := by
  refine ⟨[Event.uploadBlob data (isOk (env.uploadBlob data w.st).1)], rfl,
    by simp [Event.isCreate], ?_⟩
  intro h e he
  have h1 : isOk (env.uploadBlob data w.st).1 = true := h
  simp only [List.mem_singleton] at he
  subst he
  simp [Event.isFailedUpload, h1]

theorem getImageAsBuffer_quiet {σ : Type} (env : Env σ) (loc : String) (w : World σ) :
    Quiet True w (getImageAsBuffer env loc w).2 := by
  unfold getImageAsBuffer
  split
  · have hq := callHttpGet_quiet env loc w
    split
    · rename_i h; rw [h] at hq; exact hq
    · rename_i h; rw [h] at hq
      split
      · exact hq
      · split <;> exact hq
  · have hq := callReadFile_quiet env loc w
    split <;> · rename_i h; rw [h] at hq; exact hq

theorem uploadLoop_quiet {σ : Type} (env : Env σ) (images : List ImageSourceParsed) :
    ∀ (blobs : List LexBlob) (w : World σ),
      Quiet (isOk (uploadLoop env images blobs w).1 = true) w (uploadLoop env images blobs w).2 := by
  induction images with
  | nil => intro blobs w; exact Quiet.refl _ w
  | cons img rest ih =>
    intro blobs w
    unfold uploadLoop
    have hg := getImageAsBuffer_quiet env (env.lib.urlString img.Uri) w
    rcases hgot : getImageAsBuffer env (env.lib.urlString img.Uri) w with ⟨got, w1⟩
    rw [hgot] at hg
    simp only
    generalize (match got with | .ok data => data | .error _ => ([] : List Nat)) = bytes
    have hu := callUploadBlob_quiet env bytes w1
    rcases hup : env.callUploadBlob bytes w1 with ⟨r, w2⟩
    rw [hup] at hu
    cases r with
    | error err =>
      simp only
      exact Quiet.trans hg hu (by simp [isOk])
    | ok resp =>
      simp only
      have h3 := ih (blobs ++ [{ Ref := resp.Ref, MimeType := resp.MimeType, Size := resp.Size }]) w2
      exact Quiet.trans (Quiet.trans hg hu (s := True) (by simp [isOk])) h3 (by simp)

theorem RepoUploadImage_quiet {σ : Type} (env : Env σ) (image : ImageSourceParsed) (w : World σ) :
    Quiet (isOk (RepoUploadImage env image w).1 = true) w (RepoUploadImage env image w).2 := by
  unfold RepoUploadImage
  have hg := getImageAsBuffer_quiet env (env.lib.urlString image.Uri) w
  rcases hgot : getImageAsBuffer env (env.lib.urlString image.Uri) w with ⟨got, w1⟩
  rw [hgot] at hg
  simp only
  generalize (match got with | .ok data => data | .error _ => ([] : List Nat)) = bytes
  have hu := callUploadBlob_quiet env bytes w1
  rcases hup : env.callUploadBlob bytes w1 with ⟨r, w2⟩
  rw [hup] at hu
  cases r with
  | error err => exact Quiet.trans hg hu (by simp [isOk])
  | ok resp => exact Quiet.trans hg hu (by simp [isOk])

theorem fetchOpenGraphTwitterTags_quiet {σ : Type} (env : Env σ) (url : String) (w : World σ) :
    Quiet True w (fetchOpenGraphTwitterTags env url w).2 := by
  unfold fetchOpenGraphTwitterTags
  have hq := callHttpGet_quiet env url w
  rcases hget : env.callHttpGet url w with ⟨r, w1⟩
  rw [hget] at hq
  cases r with
  | error err => exact hq
  | ok resp =>
    simp only
    split
    · exact hq
    · split <;> exact hq

theorem RepoGetPostAndCid_quiet {σ : Type} (env : Env σ) (postUri : String) (w : World σ) :
    Quiet True w (RepoGetPostAndCid env postUri w).2 := by
  unfold RepoGetPostAndCid
  split
  · exact Quiet.refl _ w
  · rename_i parsedUri _
    have hq := callGetRecord_quiet env parsedUri.Collection parsedUri.Did parsedUri.Rkey w
    rcases hget : env.callGetRecord parsedUri.Collection parsedUri.Did parsedUri.Rkey w with ⟨r, w1⟩
    rw [hget] at hq
    cases r with
    | error err => exact hq
    | ok record =>
      simp only
      split
      · exact hq
      · split <;> exact hq

theorem embedImagesStage_quiet {σ : Type} (env : Env σ) (pb : PostBuilder) (embed : Embed) (w : World σ) :
    Quiet ((embedImagesStage env pb embed w).1.isError = false) w
      (embedImagesStage env pb embed w).2 := by
  unfold embedImagesStage
  split
  · exact Quiet.refl _ w
  · split
    · exact Quiet.refl _ w
    · rename_i parsedImages _
      split
      · have hq := uploadLoop_quiet env parsedImages [] w
        rcases hup : RepoUploadImages env parsedImages w with ⟨r, w1⟩
        have hup2 : uploadLoop env parsedImages [] w = (r, w1) := hup
        rw [hup2] at hq
        cases r with
        | error err => exact Quiet.weaken hq (by simp [Outcome.isError])
        | ok blobs => exact Quiet.weaken hq (by simp [isOk])
      · exact Quiet.refl _ w

theorem embedLinkStage_quiet {σ : Type} (env : Env σ) (pb : PostBuilder) (embed : Embed) (w : World σ) :
    Quiet ((embedLinkStage env pb embed w).1.isError = false) w
      (embedLinkStage env pb embed w).2 := by
  unfold embedLinkStage
  split
  · split
    · exact Quiet.refl _ w
    · have hq := fetchOpenGraphTwitterTags_quiet env pb.EmbedLink w
      rcases hft : fetchOpenGraphTwitterTags env pb.EmbedLink w with ⟨r, w1⟩
      rw [hft] at hq
      cases r with
      | error err => exact Quiet.weaken hq (by simp)
      | ok siteTags =>
        simp only
        split
        · split
          · exact Quiet.weaken hq (by simp)
          · rename_i parsedImageUrl _
            have hu := RepoUploadImage_quiet env
              { Uri := parsedImageUrl, Alt := (siteTags "image:alt").getD "" } w1
            rcases hup : RepoUploadImage env
              { Uri := parsedImageUrl, Alt := (siteTags "image:alt").getD "" } w1 with ⟨r2, w2⟩
            rw [hup] at hu
            cases r2 with
            | error err => exact Quiet.trans hq hu (by simp [Outcome.isError])
            | ok blob => exact Quiet.trans hq hu (by simp [isOk])
        · exact Quiet.weaken hq (by simp)
  · exact Quiet.refl _ w

theorem embedQuoteStage_quiet {σ : Type} (env : Env σ) (pb : PostBuilder) (embed : Embed) (w : World σ) :
    Quiet ((embedQuoteStage env pb embed w).1.isError = false) w
      (embedQuoteStage env pb embed w).2 := by
  unfold embedQuoteStage
  split
  · have hq := RepoGetPostAndCid_quiet env pb.EmbedPostQuote w
    split <;> · rename_i h; rw [h] at hq; exact Quiet.weaken hq (by simp)
  · exact Quiet.refl _ w

theorem replyStage_quiet {σ : Type} (env : Env σ) (pb : PostBuilder) (w : World σ) :
    Quiet ((replyStage env pb w).1.isError = false) w (replyStage env pb w).2 := by
  unfold replyStage
  split
  · have hq := RepoGetPostAndCid_quiet env pb.ReplyUri w
    split
    · rename_i h; rw [h] at hq; exact Quiet.weaken hq (by simp)
    · rename_i h; rw [h] at hq; exact Quiet.weaken hq (by simp)
    · rename_i h; rw [h] at hq
      split <;> exact Quiet.weaken hq (by simp)
  · exact Quiet.refl _ w

theorem andThen_quiet {σ : Type} {α β : Type} (x : Outcome α × World σ)
    (f : α → World σ → Outcome β × World σ) (w : World σ)
    (hx : Quiet (x.1.isError = false) w x.2)
    (hf : ∀ a w1, Quiet ((f a w1).1.isError = false) w1 (f a w1).2) :
    Quiet ((Outcome.andThen x f).1.isError = false) w (Outcome.andThen x f).2 := by
  rcases x with ⟨r, w1⟩
  cases r with
  | ok a => exact Quiet.trans hx (hf a w1) (by simp [Outcome.andThen, Outcome.isError])
  | error err => exact Quiet.weaken hx (by simp [Outcome.andThen, Outcome.isError])
  | fault => exact Quiet.weaken hx (by simp [Outcome.andThen, Outcome.isError])

theorem resolveStages_quiet {σ : Type} (env : Env σ) (pb : PostBuilder) (w : World σ) :
    Quiet ((resolveStages env pb w).1.isError = false) w (resolveStages env pb w).2 := by
  unfold resolveStages
  refine andThen_quiet _ _ w (embedImagesStage_quiet env pb _ w) ?_
  intro embed w1
  refine andThen_quiet _ _ w1 (embedLinkStage_quiet env pb _ w1) ?_
  intro embed2 w2
  refine andThen_quiet _ _ w2 (embedQuoteStage_quiet env pb _ w2) ?_
  intro embed3 w3
  refine andThen_quiet _ _ w3 (replyStage_quiet env pb w3) ?_
  intro rr w4
  exact Quiet.refl _ w4

theorem mentionLoop_quiet {σ : Type} (env : Env σ) (text : String) (ms : List (Nat × Nat × Nat × Nat)) :
    ∀ (acc : List MentionMatch) (w : World σ),
      Quiet True w (mentionLoop env text ms acc w).2 := by
  induction ms with
  | nil => intro acc w; exact Quiet.refl _ w
  | cons m rest ih =>
    intro acc w
    unfold mentionLoop
    simp only
    generalize (String.mk (dropBytes (sliceBytes text.toList m.2.2.1 m.2.2.2) 1)) = handle
    have hq := callResolveHandle_quiet env handle w
    rcases hr : env.callResolveHandle handle w with ⟨r, w1⟩
    rw [hr] at hq
    cases r with
    | error err => exact Quiet.trans hq (ih acc w1) (by simp)
    | ok did => exact Quiet.trans hq (ih _ w1) (by simp)

theorem RepoCreatePostRecord_run {σ : Type} (env : Env σ) (post : FeedPost) (w : World σ) :
    (RepoCreatePostRecord env post w).2.log =
        w.log ++ [Event.createRecord "app.bsky.feed.post" env.authDid post
          (isOk (env.createRecord "app.bsky.feed.post" env.authDid post w.st).1)] ∧
      (RepoCreatePostRecord env post w).1.isError =
        !(isOk (env.createRecord "app.bsky.feed.post" env.authDid post w.st).1) := by
  unfold RepoCreatePostRecord Env.callCreateRecord
  rcases h : env.createRecord "app.bsky.feed.post" env.authDid post w.st with ⟨r, st1⟩
  cases r <;> simp [Outcome.isError, isOk]

/-- The three ways a run of `Post` can go, with the calls `evs` it made:
it returns an error without any `createRecord` (and if an upload has failed,
the error is that of embed resolution, before `buildPost`); or it faults, again
without a `createRecord` and without a failed upload; or embed and reply
resolution succeed, `buildPost` composes `post`, no upload has failed, and the
last call is the one `createRecord` for `post`. -/
theorem Post_run {σ : Type} (env : Env σ) (pb : PostBuilder) (w : World σ) :
    ∃ evs, (Post env pb w).2.log = w.log ++ evs ∧
      (((Post env pb w).1.isError = true ∧ (∀ e ∈ evs, e.isCreate = false) ∧
          ((∃ e ∈ evs, e.isFailedUpload = true) →
            (resolveStages env (withDefaultLanguage pb) w).1.isError = true)) ∨
       ((Post env pb w).1 = .fault ∧ (∀ e ∈ evs, e.isCreate = false) ∧
          ∀ e ∈ evs, e.isFailedUpload = false) ∨
       (∃ er w4 post ok ev0,
          nEmbeds pb ≤ 1 ∧
          resolveStages env (withDefaultLanguage pb) w = (.ok er, w4) ∧
          buildPost env.lib (env.now (mentionStage env pb.Text w4).2.st) (withDefaultLanguage pb)
            er.1 er.2 (mentionStage env pb.Text w4).1 = .ok post ∧
          evs = ev0 ++ [Event.createRecord "app.bsky.feed.post" env.authDid post ok] ∧
          (∀ e ∈ ev0, e.isCreate = false) ∧ (∀ e ∈ ev0, e.isFailedUpload = false) ∧
          (Post env pb w).1.isError = !ok)) := by
  have htext : (withDefaultLanguage pb).Text = pb.Text := by
    unfold withDefaultLanguage; split <;> rfl
  by_cases hn : nEmbeds pb > 1
  · refine ⟨[], by simp [Post, hn], Or.inl ?_⟩
    simp [Post, hn, Outcome.isError]
  · have hq := resolveStages_quiet env (withDefaultLanguage pb) w
    rcases hres : resolveStages env (withDefaultLanguage pb) w with ⟨r, w4⟩
    rw [hres] at hq
    cases r with
    | error err =>
      obtain ⟨evs, hl, hc, -⟩ := hq
      have hl : w4.log = w.log ++ evs := hl
      refine ⟨evs, by simp [Post, hn, hres, Outcome.andThen, hl], Or.inl ?_⟩
      simp only [Post, hn, hres, Outcome.andThen, if_false, Outcome.isError, true_and,
        implies_true, and_true]
      exact hc
    | fault =>
      obtain ⟨evs, hl, hc, hu⟩ := hq
      have hl : w4.log = w.log ++ evs := hl
      refine ⟨evs, by simp [Post, hn, hres, Outcome.andThen, hl], Or.inr (Or.inl ?_)⟩
      simp only [Post, hn, hres, Outcome.andThen, if_false, true_and]
      exact ⟨hc, hu (by simp [Outcome.isError])⟩
    | ok er =>
      obtain ⟨evs, hl, hc, hu⟩ := hq
      have hl : w4.log = w.log ++ evs := hl
      have hu2 := hu (by simp [Outcome.isError])
      have hm := mentionLoop_quiet env pb.Text
        (FindAllStringSubmatchIndex mentionPre mentionGroup pb.Text) [] w4
      obtain ⟨evm, hlm, hcm, hum⟩ := hm
      have hum2 := hum trivial
      have hms : mentionStage env pb.Text w4 =
          mentionLoop env pb.Text (FindAllStringSubmatchIndex mentionPre mentionGroup pb.Text)
            [] w4 := rfl
      rcases hb : buildPost env.lib (env.now (mentionStage env pb.Text w4).2.st)
          (withDefaultLanguage pb) er.1 er.2 (mentionStage env pb.Text w4).1 with err | post
      · refine ⟨evs ++ evm, ?_, Or.inl ?_⟩
        · simp only [Post, hn, hres, Outcome.andThen, if_false, htext, hb]
          rw [hms, hlm, hl, List.append_assoc]
        · simp only [Post, hn, hres, Outcome.andThen, if_false, htext, hb, Outcome.isError,
            true_and]
          constructor
          · intro e he
            rcases List.mem_append.mp he with he | he
            · exact hc e he
            · exact hcm e he
          · rintro ⟨e, he, hfail⟩
            rcases List.mem_append.mp he with he | he
            · rw [hu2 e he] at hfail; cases hfail
            · rw [hum2 e he] at hfail; cases hfail
      · have hev0 : ∀ e ∈ evs ++ evm, e.isCreate = false ∧ e.isFailedUpload = false := by
          intro e he
          rcases List.mem_append.mp he with he | he
          · exact ⟨hc e he, hu2 e he⟩
          · exact ⟨hcm e he, hum2 e he⟩
        refine ⟨(evs ++ evm) ++ [Event.createRecord "app.bsky.feed.post" env.authDid post
            (isOk (env.createRecord "app.bsky.feed.post" env.authDid post
              (mentionStage env pb.Text w4).2.st).1)], ?_, Or.inr (Or.inr ?_)⟩
        · simp only [Post, hn, hres, Outcome.andThen, if_false, htext, hb]
          rw [(RepoCreatePostRecord_run env post _).1, hms, hlm, hl]
          simp only [List.append_assoc]
        · refine ⟨er, w4, post, _, evs ++ evm, Nat.le_of_not_gt hn, rfl, hb, rfl,
            fun e he => (hev0 e he).1, fun e he => (hev0 e he).2, ?_⟩
          simp only [Post, hn, hres, Outcome.andThen, if_false, htext, hb]
          exact (RepoCreatePostRecord_run env post _).2

/-! ## Inline links: what `inlineLinkFacets` returns -/

theorem inlineLinkFacets_ok (text : String) (links : List InlineLink)
    (h : ∀ l ∈ links, stringsIndex text l.Text ≠ none) :
    inlineLinkFacets text links = .ok (links.map (inlineLinkFacet text)) := by
  induction links with
  | nil => rfl
  | cons l rest ih =>
    have hl := h l (List.mem_cons_self _ _)
    have hrest := ih (fun x hx => h x (List.mem_cons_of_mem _ hx))
    obtain ⟨i, hi⟩ := Option.ne_none_iff_exists'.mp hl
    simp [inlineLinkFacets, findSubstring, hi, hrest, inlineLinkFacet]

theorem inlineLinkFacets_error (text : String) (links : List InlineLink)
    (h : ∃ l ∈ links, stringsIndex text l.Text = none) :
    inlineLinkFacets text links =
      .error "Unable to find the substring: app.bsky.richtext.facet#link , substring not found" := by
  induction links with
  | nil => simp at h
  | cons l rest ih =>
    cases hi : stringsIndex text l.Text with
    | none => simp [inlineLinkFacets, findSubstring, hi, Facet_Type.String]
    | some i =>
      have hrest : ∃ x ∈ rest, stringsIndex text x.Text = none := by
        obtain ⟨x, hx, hnone⟩ := h
        rcases List.mem_cons.mp hx with rfl | hx
        · rw [hi] at hnone; cases hnone
        · exact ⟨x, hx, hnone⟩
      simp [inlineLinkFacets, findSubstring, hi, ih hrest]

/-- The function `inlineLinkFacets` succeeds exactly when every display text is found. -/
theorem inlineLinkFacets_isOk (text : String) (links : List InlineLink) :
    isOk (inlineLinkFacets text links) = true ↔ ∀ l ∈ links, stringsIndex text l.Text ≠ none := by
  constructor
  · intro hok
    by_contra hne
    push_neg at hne
    rw [inlineLinkFacets_error text links hne] at hok
    simp [isOk] at hok
  · intro h
    rw [inlineLinkFacets_ok text links h]
    rfl

/-! ## C3: mentions and the directory resolver -/

theorem mentionLoop_eq {σ : Type} (env : Env σ) (text : String)
    (ms : List (Nat × Nat × Nat × Nat)) :
    ∀ (acc : List MentionMatch) (w : World σ),
      mentionLoop env text ms acc w =
        (acc ++ resolvedMentions
            (ms.map fun m =>
              { handle := String.mk (dropBytes (sliceBytes text.toList m.2.2.1 m.2.2.2) 1),
                Start := m.2.2.1, End := m.2.2.2 })
            (resolveAll env (ms.map fun m =>
              String.mk (dropBytes (sliceBytes text.toList m.2.2.1 m.2.2.2) 1)) w).1,
          (resolveAll env (ms.map fun m =>
              String.mk (dropBytes (sliceBytes text.toList m.2.2.1 m.2.2.2) 1)) w).2) := by
  induction ms with
  | nil => intro acc w; simp [mentionLoop, resolveAll, resolvedMentions]
  | cons m rest ih =>
    intro acc w
    unfold mentionLoop
    simp only [List.map_cons, resolveAll]
    rcases hr : env.callResolveHandle
      (String.mk (dropBytes (sliceBytes text.toList m.2.2.1 m.2.2.2) 1)) w with ⟨r, w1⟩
    cases r with
    | error err =>
      simp only [ih]
      simp [resolvedMentions]
    | ok did =>
      simp only [ih]
      simp [resolvedMentions]

theorem mentionStage_eq {σ : Type} (env : Env σ) (text : String) (w : World σ) :
    mentionStage env text w =
      (resolvedMentions (mentionCandidates text)
          (resolveAll env ((mentionCandidates text).map fun c => c.handle) w).1,
        (resolveAll env ((mentionCandidates text).map fun c => c.handle) w).2) := by
  unfold mentionStage mentionCandidates
  rw [mentionLoop_eq]
  simp [List.map_map, Function.comp_def]

theorem isMentionFacet_mentionFacet (m : MentionMatch) : isMentionFacet (mentionFacet m) = true := by
  simp [isMentionFacet, mentionFacet]

theorem isMentionFacet_linkFacet (uri : String) (a b : Nat) :
    isMentionFacet (linkFacet uri a b) = false := by
  simp [isMentionFacet, linkFacet]

theorem isMentionFacet_tagFacet (t : Char → Bool) (m : RegexMatch) :
    isMentionFacet (tagFacet t m) = false := by
  simp [isMentionFacet, tagFacet]

/-- The facets of a record built by `buildPost`, given as one list per kind. -/
theorem buildPost_ok (lib : Lib) (now : String) (pb : PostBuilder) (embed : Embed)
    (replyReference : ReplyReference) (mentionMatches : List MentionMatch) (post : FeedPost)
    (h : buildPost lib now pb embed replyReference mentionMatches = .ok post) :
    (∀ l ∈ pb.InlineLinks, stringsIndex pb.Text l.Text ≠ none) ∧
    post =
      { LexiconTypeID := "app.bsky.feed.post", CreatedAt := now, Text := pb.Text,
        Langs := pb.Languages, Tags := pb.AdditionalTags,
        Facets := mentionMatches.map mentionFacet ++ pb.InlineLinks.map (inlineLinkFacet pb.Text) ++
          (findRegexMatches pb.Text urlRegex).map (fun m => linkFacet m.Value m.Start m.End) ++
          (findRegexMatches pb.Text hashtagRegex).map (tagFacet lib.punctTable),
        Embed := buildEmbed lib embed, Reply := buildReply replyReference } := by
  have hfound : ∀ l ∈ pb.InlineLinks, stringsIndex pb.Text l.Text ≠ none := by
    by_contra hne
    push_neg at hne
    simp [buildPost, inlineLinkFacets_error pb.Text pb.InlineLinks hne] at h
  refine ⟨hfound, ?_⟩
  simp only [buildPost, inlineLinkFacets_ok pb.Text pb.InlineLinks hfound, Except.ok.injEq] at h
  exact h.symm

/-- The resolver is asked once for every handle. -/
theorem resolveAll_length {σ : Type} (env : Env σ) (handles : List String) :
    ∀ w : World σ, (resolveAll env handles w).1.length = handles.length := by
  induction handles with
  | nil => intro w; rfl
  | cons h rest ih => intro w; simp [resolveAll, ih]

/-- C3: once embed and reply resolution have succeeded (that is, whenever `Post`
gets to the mention scan), the resolver cannot make `Post` fail: `Post` goes on
to `buildPost` with the mentions `resolvedMentions`, which are the candidates
of the scan whose resolution succeeded, in scan order, each with the
identifier the resolver answered and the span of the candidate; whether
`buildPost` succeeds depends on the inline links alone; the resolver gives one
answer per candidate; and the Mention facets of the composed record are, in scan
order, one facet for every candidate whose answer is a success, with the single
feature Mention carrying the answered identifier and with the index
`[Start, End)` of the candidate, and no facet for a candidate whose answer is a
failure. -/
theorem Post_mentions {σ : Type} (env : Env σ) (pb : PostBuilder) (w w4 : World σ)
    (er : Embed × ReplyReference) (hn : nEmbeds pb ≤ 1)
    (hres : resolveStages env (withDefaultLanguage pb) w = (.ok er, w4)) :
    Post env pb w =
      (match buildPost env.lib
          (env.now (resolveAll env ((mentionCandidates pb.Text).map fun c => c.handle) w4).2.st)
          (withDefaultLanguage pb) er.1 er.2
          (resolvedMentions (mentionCandidates pb.Text)
            (resolveAll env ((mentionCandidates pb.Text).map fun c => c.handle) w4).1) with
        | .error err =>
          (.error ("Error when building post: " ++ err),
            (resolveAll env ((mentionCandidates pb.Text).map fun c => c.handle) w4).2)
        | .ok post =>
          RepoCreatePostRecord env post
            (resolveAll env ((mentionCandidates pb.Text).map fun c => c.handle) w4).2) ∧
    (∀ (now : String) (ms : List MentionMatch),
      isOk (buildPost env.lib now (withDefaultLanguage pb) er.1 er.2 ms) =
        isOk (inlineLinkFacets pb.Text pb.InlineLinks)) ∧
    (resolveAll env ((mentionCandidates pb.Text).map fun c => c.handle) w4).1.length =
      (mentionCandidates pb.Text).length ∧
    (∀ (now : String) (post : FeedPost),
      buildPost env.lib now (withDefaultLanguage pb) er.1 er.2
          (resolvedMentions (mentionCandidates pb.Text)
            (resolveAll env ((mentionCandidates pb.Text).map fun c => c.handle) w4).1) = .ok post →
        post.Facets.filter isMentionFacet =
          ((mentionCandidates pb.Text).zip
              (resolveAll env ((mentionCandidates pb.Text).map fun c => c.handle) w4).1).filterMap
            fun p =>
              match p.2 with
              | .ok did =>
                some { Features := [{ RichtextFacet_Link := none,
                                      RichtextFacet_Mention :=
                                        some { LexiconTypeID := "app.bsky.richtext.facet#mention",
                                               Did := did },
                                      RichtextFacet_Tag := none }],
                       Index := { ByteStart := p.1.Start, ByteEnd := p.1.End } }
              | .error _ => none) := by
  have htext : (withDefaultLanguage pb).Text = pb.Text := by
    unfold withDefaultLanguage; split <;> rfl
  have hlinks : (withDefaultLanguage pb).InlineLinks = pb.InlineLinks := by
    unfold withDefaultLanguage; split <;> rfl
  refine ⟨?_, ?_, ?_, ?_⟩
  · have h1 : ¬ nEmbeds pb > 1 := Nat.not_lt.mpr hn
    simp only [Post, h1, if_false, hres, Outcome.andThen, htext, mentionStage_eq]
  · intro now ms
    unfold buildPost
    rw [htext, hlinks]
    cases inlineLinkFacets pb.Text pb.InlineLinks <;> rfl
  · rw [resolveAll_length, List.length_map]
  · intro now post hb
    have hfac : ∀ (cands : List MentionCandidate) (answers : List (Except String String)),
        (resolvedMentions cands answers).map mentionFacet =
          (cands.zip answers).filterMap fun p =>
            match p.2 with
            | .ok did =>
              some { Features := [{ RichtextFacet_Link := none,
                                    RichtextFacet_Mention :=
                                      some { LexiconTypeID := "app.bsky.richtext.facet#mention",
                                             Did := did },
                                    RichtextFacet_Tag := none }],
                     Index := { ByteStart := p.1.Start, ByteEnd := p.1.End } }
            | .error _ => none := by
      intro cands answers
      unfold resolvedMentions
      rw [List.map_filterMap]
      congr 1
      funext p
      cases p.2 <;> rfl
    rw [← hfac]
    obtain ⟨-, hpost⟩ := buildPost_ok _ _ _ _ _ _ _ hb
    subst hpost
    simp only [List.filter_append, List.filter_map, htext, hlinks]
    have e1 : ∀ l : List MentionMatch,
        List.filter (isMentionFacet ∘ mentionFacet) l = l := by
      intro l
      apply List.filter_eq_self.mpr
      intro a _
      exact isMentionFacet_mentionFacet a
    have e2 : ∀ l : List InlineLink,
        List.filter (isMentionFacet ∘ inlineLinkFacet pb.Text) l = [] := by
      intro l
      apply List.filter_eq_nil_iff.mpr
      intro a _
      simp [inlineLinkFacet, isMentionFacet_linkFacet]
    have e3 : ∀ l : List RegexMatch,
        List.filter (isMentionFacet ∘ fun m => linkFacet m.Value m.Start m.End) l = [] := by
      intro l
      apply List.filter_eq_nil_iff.mpr
      intro a _
      simp [isMentionFacet_linkFacet]
    have e4 : ∀ l : List RegexMatch,
        List.filter (isMentionFacet ∘ tagFacet env.lib.punctTable) l = [] := by
      intro l
      apply List.filter_eq_nil_iff.mpr
      intro a _
      simp [isMentionFacet_tagFacet]
    rw [e1, e2, e3, e4]
    simp

/-- C3 at a body with two mention candidates, of which the directory knows the
first only: `Post` succeeds, and the record has one Mention facet, with the
identifier answered for the first candidate and its span [3,19). -/
theorem Post_mentions_witness :
    resolvedMentions (mentionCandidates "hi @bob.bsky.social and @eve.example.com")
        (resolveAll (sampleEnv (sampleLib .nil (plainPost "")) true ["bob.bsky.social"])
          ((mentionCandidates "hi @bob.bsky.social and @eve.example.com").map fun c => c.handle)
          World.start).1 =
      [{ Value := "bob.bsky.social", Start := 3, End := 19, Did := "did:plc:bob.bsky.social" }] ∧
    (Post (sampleEnv (sampleLib .nil (plainPost "")) true ["bob.bsky.social"])
        (NewPostBuilder "hi @bob.bsky.social and @eve.example.com") World.start).1 =
      .ok ("cid-new", "at://me/app.bsky.feed.post/new") ∧
    (buildPost (sampleLib .nil (plainPost "")) ""
        (withDefaultLanguage (NewPostBuilder "hi @bob.bsky.social and @eve.example.com"))
        Embed.zero ReplyReference.zero
        (mentionStage (sampleEnv (sampleLib .nil (plainPost "")) true ["bob.bsky.social"])
          "hi @bob.bsky.social and @eve.example.com" World.start).1).map
        (fun post => post.Facets) =
      .ok [{ Features := [{ RichtextFacet_Link := none,
                            RichtextFacet_Mention :=
                              some { LexiconTypeID := "app.bsky.richtext.facet#mention",
                                     Did := "did:plc:bob.bsky.social" },
                            RichtextFacet_Tag := none }],
             Index := { ByteStart := 3, ByteEnd := 19 } }] ∧
    (∀ (now : String) (post : FeedPost),
      buildPost (sampleLib .nil (plainPost "")) now
          (withDefaultLanguage (NewPostBuilder "hi @bob.bsky.social and @eve.example.com"))
          Embed.zero ReplyReference.zero
          (resolvedMentions (mentionCandidates "hi @bob.bsky.social and @eve.example.com")
            (resolveAll (sampleEnv (sampleLib .nil (plainPost "")) true ["bob.bsky.social"])
              ((mentionCandidates "hi @bob.bsky.social and @eve.example.com").map
                fun c => c.handle) World.start).1) = .ok post →
        post.Facets.filter isMentionFacet =
          [{ Features := [{ RichtextFacet_Link := none,
                            RichtextFacet_Mention :=
                              some { LexiconTypeID := "app.bsky.richtext.facet#mention",
                                     Did := "did:plc:bob.bsky.social" },
                            RichtextFacet_Tag := none }],
             Index := { ByteStart := 3, ByteEnd := 19 } }]) :=
  ⟨by decide, by decide, by rfl, fun now post hb =>
    ((Post_mentions (sampleEnv (sampleLib .nil (plainPost "")) true ["bob.bsky.social"])
      (NewPostBuilder "hi @bob.bsky.social and @eve.example.com") World.start World.start
      (Embed.zero, ReplyReference.zero) (by decide) rfl).2.2.2 now post hb).trans (by decide)⟩

/-! ## C4: the image set -/

theorem parseImages_ok (lib : Lib) (imgs : List ImageSource) :
    ∀ (acc parsed : List ImageSourceParsed), parseImages lib imgs acc = .ok parsed →
      parsed.map (fun i => i.Alt) = acc.map (fun i => i.Alt) ++ imgs.map (fun i => i.Alt) := by
  induction imgs with
  | nil => intro acc parsed h; simp [parseImages] at h; simp [h]
  | cons img rest ih =>
    intro acc parsed h
    unfold parseImages at h
    split at h
    · cases h
    · rw [ih _ _ h]; simp

theorem uploadLoop_length {σ : Type} (env : Env σ) (images : List ImageSourceParsed) :
    ∀ (blobs out : List LexBlob) (w w1 : World σ),
      uploadLoop env images blobs w = (.ok out, w1) → out.length = blobs.length + images.length := by
  induction images with
  | nil => intro blobs out w w1 h; simp [uploadLoop] at h; simp [h.1]
  | cons img rest ih =>
    intro blobs out w w1 h
    unfold uploadLoop at h
    rcases hgot : getImageAsBuffer env (env.lib.urlString img.Uri) w with ⟨got, w2⟩
    rw [hgot] at h
    simp only at h
    split at h
    · cases h
    · have := ih _ _ _ _ h
      simp at this
      simp [this]
      omega

/-- What the stages before the mention scan resolve for a draft whose only embed
directive is a non-empty image list: the parsed images carry the alt texts of
the caller's images, and there is one blob per image. -/
theorem resolveStages_images {σ : Type} (env : Env σ) (pb : PostBuilder) (w w4 : World σ)
    (imgs : List ImageSource) (er : Embed × ReplyReference)
    (hi : pb.EmbedImages = some imgs) (hl : pb.EmbedLink = "") (hq : pb.EmbedPostQuote = "")
    (hres : resolveStages env pb w = (.ok er, w4)) :
    er.1.Link = Link.zero ∧ er.1.Record = RecordRef.zero ∧
      er.1.Images.map (fun i => i.Alt) = imgs.map (fun i => i.Alt) ∧
      (imgs ≠ [] → er.1.UploadedImages.length = imgs.length) := by
  unfold resolveStages at hres
  have hlink : ∀ e (w1 : World σ), embedLinkStage env pb e w1 = (.ok e, w1) := by
    intro e w1; simp [embedLinkStage, hl]
  have hquote : ∀ e (w1 : World σ), embedQuoteStage env pb e w1 = (.ok e, w1) := by
    intro e w1; simp [embedQuoteStage, hq]
  rcases him : embedImagesStage env pb Embed.zero w with ⟨r, w1⟩
  rw [him] at hres
  cases r with
  | error err => simp [Outcome.andThen] at hres
  | fault => simp [Outcome.andThen] at hres
  | ok embed =>
    simp only [Outcome.andThen, hlink, hquote] at hres
    have her : er.1 = embed := by
      rcases hrep : replyStage env pb w1 with ⟨r2, w2⟩
      rw [hrep] at hres
      cases r2 with
      | error err => simp at hres
      | fault => simp at hres
      | ok rr => simp only [Prod.mk.injEq, Outcome.ok.injEq] at hres; rw [← hres.1]
    rw [her]
    unfold embedImagesStage at him
    rw [hi] at him
    simp only at him
    rcases hp : parseImages env.lib imgs [] with err | parsed
    · rw [hp] at him; simp at him
    · rw [hp] at him
      have halt := parseImages_ok env.lib imgs [] parsed hp
      simp only [List.map_nil, List.nil_append] at halt
      have hlen : parsed.length = imgs.length := by
        have := congrArg List.length halt
        simpa using this
      simp only at him
      by_cases hpos : parsed.length > 0
      · simp only [hpos, if_true] at him
        rcases hup : RepoUploadImages env parsed w with ⟨r3, w3⟩
        rw [hup] at him
        cases r3 with
        | error err => simp at him
        | ok blobs =>
          simp only [Prod.mk.injEq, Outcome.ok.injEq] at him
          have hb := uploadLoop_length env parsed [] blobs w w3 hup
          rw [← him.1]
          refine ⟨rfl, rfl, halt, fun _ => ?_⟩
          simp [hb, hlen]
      · simp only [hpos, if_false, Prod.mk.injEq, Outcome.ok.injEq] at him
        rw [← him.1]
        have hnil : imgs = [] := by
          cases imgs with
          | nil => rfl
          | cons a b => simp at hlen; omega
        have hpn : parsed = [] := by
          cases parsed with
          | nil => rfl
          | cons a b => simp at hpos
        subst hnil
        refine ⟨rfl, rfl, ?_, fun h => absurd rfl h⟩
        simp [Embed.zero]

/-- C4: for a draft with a non-empty image list, (1) if any blob upload of the
run fails, `Post` returns an error, no `createRecord` call is made, and the
error is that of embed resolution, so that `buildPost` is not reached; (2) if
`Post` gets as far as `buildPost` (embed and reply resolution succeeded), there
are as many uploaded blobs as caller images, and the embed of the record is the
image set with one entry per caller image, in order, with that image's alt
text and its blob. -/
theorem Post_image_set {σ : Type} (env : Env σ) (pb : PostBuilder) (w : World σ)
    (imgs : List ImageSource) (hi : pb.EmbedImages = some imgs) (hne : imgs ≠ []) :
    (∃ evs, (Post env pb w).2.log = w.log ++ evs ∧
      ((∃ e ∈ evs, e.isFailedUpload = true) →
        (Post env pb w).1.isError = true ∧ (∀ e ∈ evs, e.isCreate = false) ∧
          (resolveStages env (withDefaultLanguage pb) w).1.isError = true)) ∧
    (∀ (er : Embed × ReplyReference) (w4 : World σ), nEmbeds pb ≤ 1 →
      resolveStages env (withDefaultLanguage pb) w = (.ok er, w4) →
        er.1.UploadedImages.length = imgs.length ∧
        buildEmbed env.lib er.1 =
          some { EmbedExternal := none,
                 EmbedImages :=
                   some { LexiconTypeID := "app.bsky.embed.images",
                          Images := List.zipWith (fun img blob => { Alt := img.Alt, Image := blob })
                            imgs er.1.UploadedImages },
                 EmbedRecord := none }) := by
  constructor
  · obtain ⟨evs, hl, hcase⟩ := Post_run env pb w
    refine ⟨evs, hl, ?_⟩
    rintro ⟨e, he, hfail⟩
    rcases hcase with ⟨h1, h2, h3⟩ | ⟨-, -, hu⟩ | ⟨er, w4, post, ok, ev0, -, -, -, hev, -, hu, -⟩
    · exact ⟨h1, h2, h3 ⟨e, he, hfail⟩⟩
    · rw [hu e he] at hfail; cases hfail
    · subst hev
      rcases List.mem_append.mp he with he | he
      · rw [hu e he] at hfail; cases hfail
      · simp only [List.mem_singleton] at he
        subst he
        simp [Event.isFailedUpload] at hfail
  · intro er w4 hn hres
    have hi2 : (withDefaultLanguage pb).EmbedImages = some imgs := by
      unfold withDefaultLanguage; split <;> exact hi
    have hl2 : (withDefaultLanguage pb).EmbedLink = "" := by
      have : pb.EmbedLink = "" := by
        by_contra hc
        unfold nEmbeds at hn
        simp only [hi, hc, ne_eq, not_false_eq_true, if_true, reduceCtorEq] at hn
        split at hn <;> omega
      unfold withDefaultLanguage; split <;> exact this
    have hq2 : (withDefaultLanguage pb).EmbedPostQuote = "" := by
      have : pb.EmbedPostQuote = "" := by
        by_contra hc
        unfold nEmbeds at hn
        simp only [hi, hc, ne_eq, not_false_eq_true, if_true, reduceCtorEq] at hn
        split at hn <;> omega
      unfold withDefaultLanguage; split <;> exact this
    obtain ⟨h1, h2, h3, h4⟩ := resolveStages_images env _ w w4 imgs er hi2 hl2 hq2 hres
    have hlen := h4 hne
    have hlen2 : er.1.Images.length = imgs.length := by
      have := congrArg List.length h3
      simpa using this
    have hpos : imgs.length ≠ 0 := by
      intro h0; exact hne (List.length_eq_zero.mp h0)
    refine ⟨hlen, ?_⟩
    unfold buildEmbed
    simp only [h1, ne_eq, not_true_eq_false, if_false, hlen2, hlen, hpos, not_false_eq_true,
      and_self, if_true]
    have hz : List.zipWith (fun (img : ImageSourceParsed) blob =>
          ({ Alt := img.Alt, Image := blob } : EmbedImages_Image)) er.1.Images er.1.UploadedImages =
        List.zipWith (fun (img : ImageSource) blob =>
          ({ Alt := img.Alt, Image := blob } : EmbedImages_Image)) imgs er.1.UploadedImages := by
      have e1 := List.zipWith_map_left er.1.Images er.1.UploadedImages (fun i => i.Alt)
        (fun a blob => ({ Alt := a, Image := blob } : EmbedImages_Image))
      have e2 := List.zipWith_map_left imgs er.1.UploadedImages (fun i => i.Alt)
        (fun a blob => ({ Alt := a, Image := blob } : EmbedImages_Image))
      rw [h3] at e1
      rw [← e1, ← e2]
    rw [hz]

/-- C4 at a draft with two images in a world where every upload succeeds: two
blobs, and an image set with the two alt texts in order. -/
theorem Post_image_set_witness :
    (∃ evs, (Post (sampleEnv (sampleLib .nil (plainPost "")) true []) twoImages World.start).2.log =
        World.start.log ++ evs ∧
      ((∃ e ∈ evs, e.isFailedUpload = true) →
        (Post (sampleEnv (sampleLib .nil (plainPost "")) true []) twoImages World.start).1.isError =
            true ∧
          (∀ e ∈ evs, e.isCreate = false) ∧
          (resolveStages (sampleEnv (sampleLib .nil (plainPost "")) true [])
            (withDefaultLanguage twoImages) World.start).1.isError = true)) ∧
    buildEmbed (sampleLib .nil (plainPost ""))
        { Embed.zero with
          Images := [⟨"a cat", ⟨"http://img.example/cat.png"⟩⟩,
                     ⟨"a dog", ⟨"http://img.example/dog.png"⟩⟩],
          UploadedImages := [⟨"blob", "image/png", 3⟩, ⟨"blob", "image/png", 3⟩] } =
      some { EmbedExternal := none,
             EmbedImages :=
               some { LexiconTypeID := "app.bsky.embed.images",
                      Images := [⟨"a cat", ⟨"blob", "image/png", 3⟩⟩,
                                 ⟨"a dog", ⟨"blob", "image/png", 3⟩⟩] },
             EmbedRecord := none } :=
  ⟨(Post_image_set (sampleEnv (sampleLib .nil (plainPost "")) true []) twoImages World.start
      _ rfl (by decide)).1,
   ((Post_image_set (sampleEnv (sampleLib .nil (plainPost "")) true []) twoImages World.start
      _ rfl (by decide)).2
      ({ Embed.zero with
          Images := [⟨"a cat", ⟨"http://img.example/cat.png"⟩⟩,
                     ⟨"a dog", ⟨"http://img.example/dog.png"⟩⟩],
          UploadedImages := [⟨"blob", "image/png", 3⟩, ⟨"blob", "image/png", 3⟩] },
        ReplyReference.zero)
      (resolveStages (sampleEnv (sampleLib .nil (plainPost "")) true [])
        (withDefaultLanguage twoImages) World.start).2
      (by decide) (Prod.ext (by decide) rfl)).2⟩

/-! ## C5: an inline link whose display text is not in the body -/

theorem indexFrom_eq_none_iff (sub : List Char) (s : List Char) :
    ∀ pos, indexFrom sub pos s = none ↔ ¬ sub <:+: s := by
  induction s with
  | nil =>
    intro pos
    simp only [indexFrom, List.isPrefixOf_iff_prefix, List.infix_nil, List.prefix_nil]
    split <;> simp_all
  | cons c t ih =>
    intro pos
    simp only [indexFrom, List.isPrefixOf_iff_prefix, List.infix_cons_iff]
    split
    · rename_i h; simp [h]
    · rename_i h; simp [h, ih]

theorem stringsIndex_eq_none_iff (s substr : String) :
    stringsIndex s substr = none ↔ ¬ substr.toList <:+: s.toList :=
  indexFrom_eq_none_iff _ _ 0

/-- C5, as the code has it: when some inline link has a display text that does
not occur in the body, `buildPost` fails with one fixed message, which names
the facet kind and not the display text; `Post` then makes no `createRecord`
call and does not return success, and whenever embed and reply resolution
succeed it returns that message after "Error when building post: ". -/
theorem Post_missing_inline_link {σ : Type} (env : Env σ) (pb : PostBuilder) (w : World σ)
    (h : ∃ l ∈ pb.InlineLinks, ¬ l.Text.toList <:+: pb.Text.toList) :
    (∀ (lib : Lib) (now : String) (embed : Embed) (rr : ReplyReference) (ms : List MentionMatch),
      buildPost lib now pb embed rr ms =
        .error "Unable to find the substring: app.bsky.richtext.facet#link , substring not found") ∧
    (∃ evs, (Post env pb w).2.log = w.log ++ evs ∧ (∀ e ∈ evs, e.isCreate = false)) ∧
    (∀ r, (Post env pb w).1 ≠ .ok r) ∧
    (∀ (er : Embed × ReplyReference) (w4 : World σ), nEmbeds pb ≤ 1 →
      resolveStages env (withDefaultLanguage pb) w = (.ok er, w4) →
        (Post env pb w).1 =
          .error ("Error when building post: " ++
            "Unable to find the substring: app.bsky.richtext.facet#link , substring not found")) := by
  have hidx : ∀ p : PostBuilder, p.Text = pb.Text → p.InlineLinks = pb.InlineLinks →
      ∀ (lib : Lib) (now : String) (embed : Embed) (rr : ReplyReference) (ms : List MentionMatch),
      buildPost lib now p embed rr ms =
        .error "Unable to find the substring: app.bsky.richtext.facet#link , substring not found" := by
    intro p hp1 hp2 lib now embed rr ms
    have hex : ∃ l ∈ p.InlineLinks, stringsIndex p.Text l.Text = none := by
      obtain ⟨l, hl, hno⟩ := h
      exact ⟨l, hp2 ▸ hl, (stringsIndex_eq_none_iff _ _).mpr (hp1 ▸ hno)⟩
    simp [buildPost, inlineLinkFacets_error p.Text p.InlineLinks hex]
  have htext : (withDefaultLanguage pb).Text = pb.Text := by
    unfold withDefaultLanguage; split <;> rfl
  have hlinks : (withDefaultLanguage pb).InlineLinks = pb.InlineLinks := by
    unfold withDefaultLanguage; split <;> rfl
  have hrun := Post_run env pb w
  refine ⟨hidx pb rfl rfl, ?_, ?_, ?_⟩
  · obtain ⟨evs, hl, hcase⟩ := hrun
    refine ⟨evs, hl, ?_⟩
    rcases hcase with ⟨-, hc, -⟩ | ⟨-, hc, -⟩ | ⟨er, w4, post, ok, ev0, -, -, hb, -⟩
    · exact hc
    · exact hc
    · rw [hidx _ htext hlinks] at hb; cases hb
  · intro r hr
    obtain ⟨evs, hl, hcase⟩ := hrun
    rcases hcase with ⟨he, -, -⟩ | ⟨hf, -, -⟩ | ⟨er, w4, post, ok, ev0, -, -, hb, -⟩
    · rw [hr] at he; simp [Outcome.isError] at he
    · rw [hr] at hf; cases hf
    · rw [hidx _ htext hlinks] at hb; cases hb
  · intro er w4 hn hres
    have h1 : ¬ nEmbeds pb > 1 := Nat.not_lt.mpr hn
    simp only [Post, h1, if_false, hres, Outcome.andThen, hidx _ htext hlinks]

/-- C5 at a draft whose one inline link has the display text "xyzzy", absent
from the body "hello world". -/
theorem Post_missing_inline_link_witness :
    (¬ "xyzzy".toList <:+: "hello world".toList) ∧
    (Post (sampleEnv (sampleLib .nil (plainPost "")) true []) missingLink World.start).1 =
      .error ("Error when building post: " ++
        "Unable to find the substring: app.bsky.richtext.facet#link , substring not found") :=
  ⟨by decide,
   (Post_missing_inline_link (sampleEnv (sampleLib .nil (plainPost "")) true []) missingLink
      World.start ⟨⟨"xyzzy", "https://example.com"⟩, by decide, by decide⟩).2.2.2
      (Embed.zero, ReplyReference.zero) World.start (by decide) rfl⟩

/-- C5 as stated fails: the error returned for the missing display text "xyzzy"
does not contain that text, neither from `buildPost` nor from `Post`. -/
theorem Post_missing_inline_link_error_omits_text :
    stringsIndex "hello world" "xyzzy" = none ∧
    buildPost (sampleLib .nil (plainPost "")) "" missingLink Embed.zero ReplyReference.zero [] =
      .error "Unable to find the substring: app.bsky.richtext.facet#link , substring not found" ∧
    stringsIndex "Unable to find the substring: app.bsky.richtext.facet#link , substring not found"
      "xyzzy" = none ∧
    (Post (sampleEnv (sampleLib .nil (plainPost "")) true []) missingLink World.start).1 =
      .error "Error when building post: Unable to find the substring: app.bsky.richtext.facet#link , substring not found" ∧
    stringsIndex "Error when building post: Unable to find the substring: app.bsky.richtext.facet#link , substring not found"
      "xyzzy" = none := by
  refine ⟨by decide, rfl, by decide, by decide, by decide⟩

/-! ## C6: spans of the auto-detected links and of the hashtags -/

/-- C6 at the body "hello #world and http://example.com": `buildPost` yields one
Link facet, with span [17,35), the bytes of "http://example.com", and one Tag
facet named "world" whose span is [5,12), the bytes of " #world": it starts at
the blank before the '#' (the whole match of `hashtagRegex`), not at the '#' at
offset 6. -/
theorem buildPost_hashtag_span_includes_blank :
    (buildPost (sampleLib .nil (plainPost "")) "" (NewPostBuilder "hello #world and http://example.com")
        Embed.zero ReplyReference.zero []).map (fun post => post.Facets) =
      .ok [linkFacet "http://example.com" 17 35,
           { Features := [{ RichtextFacet_Link := none, RichtextFacet_Mention := none,
                            RichtextFacet_Tag :=
                              some { LexiconTypeID := "app.bsky.richtext.facet#tag", Tag := "world" } }],
             Index := { ByteStart := 5, ByteEnd := 12 } }] ∧
    sliceBytes "hello #world and http://example.com".toList 17 35 = "http://example.com".toList ∧
    sliceBytes "hello #world and http://example.com".toList 5 12 = " #world".toList ∧
    sliceBytes "hello #world and http://example.com".toList 6 12 = "#world".toList := by
  refine ⟨by rfl, by decide, by decide, by decide⟩

/-! ## C7: spans lie in the body -/

theorem byteLen_append (a b : List Char) : byteLen (a ++ b) = byteLen a + byteLen b := by
  induction a with
  | nil => simp [byteLen]
  | cons c t ih => simp [byteLen, ih]; omega

theorem byteLen_pos_of_ne_nil (a : List Char) (h : a ≠ []) : 0 < byteLen a := by
  cases a with
  | nil => exact absurd rfl h
  | cons c t => have := Char.utf8Size_pos c; simp [byteLen]; omega

theorem Reaches.mono {α : Type} {k : Nat → List Char → Option α} {b1 b2 : Bool} {pos : Nat}
    {s : List Char} {x : α} (h : Reaches k b1 pos s x) (hb : b2 = true → b1 = true) :
    Reaches k b2 pos s x := by
  obtain ⟨p1, s1, hk, hle, hs, hst⟩ := h
  exact ⟨p1, s1, hk, hle, hs, fun h2 => hst (hb h2)⟩

theorem starRun_sound {α : Type}
    (step : (Nat → List Char → Option α) → Nat → List Char → Option α)
    (hstep : ∀ (k : Nat → List Char → Option α) pos s x, step k pos s = some x →
      Reaches k false pos s x)
    (k : Nat → List Char → Option α) :
    ∀ fuel pos s x, starRun step k fuel pos s = some x → Reaches k false pos s x := by
  intro fuel
  induction fuel with
  | zero =>
    intro pos s x h
    exact ⟨pos, s, h, le_refl _, rfl, by simp⟩
  | succ n ih =>
    intro pos s x h
    unfold starRun at h
    rcases hs : step (fun pos1 s1 =>
        if s1.length < s.length then starRun step k n pos1 s1 else none) pos s with _ | y
    · rw [hs] at h
      simp only [Option.orElse] at h
      exact ⟨pos, s, h, le_refl _, rfl, by simp⟩
    · rw [hs] at h
      simp only [Option.orElse, Option.some.injEq] at h
      subst h
      obtain ⟨p1, s1, hk, hle, hsum, -⟩ := hstep _ pos s y hs
      simp only at hk
      split at hk
      · obtain ⟨p2, s2, hk2, hle2, hsum2, -⟩ := ih p1 s1 y hk
        exact ⟨p2, s2, hk2, le_trans hle hle2, by omega, by simp⟩
      · cases hk

theorem RE.run_sound {α : Type} (r : RE) :
    ∀ (k : Nat → List Char → Option α) pos s x, r.run k pos s = some x →
      Reaches k (!r.nullable) pos s x := by
  induction r with
  | eps =>
    intro k pos s x h
    exact ⟨pos, s, h, le_refl _, rfl, by simp [RE.nullable]⟩
  | bot =>
    intro k pos s x h
    simp only [RE.run] at h
    split at h
    · exact ⟨pos, s, h, le_refl _, rfl, by simp [RE.nullable]⟩
    · cases h
  | cls p =>
    intro k pos s x h
    cases s with
    | nil => simp [RE.run] at h
    | cons c t =>
      simp only [RE.run] at h
      split at h
      · have := Char.utf8Size_pos c
        exact ⟨pos + c.utf8Size, t, h, by omega, by simp [byteLen]; omega, fun _ => by omega⟩
      · cases h
  | cat a b iha ihb =>
    intro k pos s x h
    simp only [RE.run] at h
    obtain ⟨p1, s1, hk1, hle1, hsum1, hst1⟩ := iha _ pos s x h
    obtain ⟨p2, s2, hk2, hle2, hsum2, hst2⟩ := ihb _ p1 s1 x hk1
    refine ⟨p2, s2, hk2, le_trans hle1 hle2, by omega, ?_⟩
    intro hn
    simp only [RE.nullable, Bool.not_and, Bool.or_eq_true, Bool.not_eq_true'] at hn
    rcases hn with hn | hn
    · have := hst1 (by simp [hn]); omega
    · have := hst2 (by simp [hn]); omega
  | alt a b iha ihb =>
    intro k pos s x h
    simp only [RE.run] at h
    rcases ha : a.run k pos s with _ | y
    · rw [ha] at h
      simp only [Option.orElse] at h
      exact (ihb _ pos s x h).mono (by simp [RE.nullable])
    · rw [ha] at h
      simp only [Option.orElse, Option.some.injEq] at h
      subst h
      exact (iha _ pos s y ha).mono (by simp [RE.nullable]; intro h1 _; exact h1)
  | star a iha =>
    intro k pos s x h
    simp only [RE.run] at h
    have := starRun_sound (fun k1 pos1 s1 => a.run k1 pos1 s1)
      (fun k1 pos1 s1 y hy => (iha k1 pos1 s1 y hy).mono (by simp)) k s.length pos s x h
    exact this.mono (by simp [RE.nullable])

theorem attempt_bounds (pre grp : RE) (pos : Nat) (s : List Char) (g e : Nat)
    (h : pre.run (fun g s1 => grp.run (fun e _ => some (g, e)) g s1) pos s = some (g, e)) :
    pos ≤ g ∧ g ≤ e ∧ e ≤ pos + byteLen s ∧ (pre.nullable = false → pos < g) ∧
      (grp.nullable = false → g < e) := by
  obtain ⟨p1, s1, hk1, hle1, hsum1, hst1⟩ := RE.run_sound pre _ pos s (g, e) h
  obtain ⟨p2, s2, hk2, hle2, hsum2, hst2⟩ := RE.run_sound grp _ p1 s1 (g, e) hk1
  simp only [Option.some.injEq, Prod.mk.injEq] at hk2
  obtain ⟨rfl, rfl⟩ := hk2
  refine ⟨hle1, hle2, by omega, ?_, ?_⟩
  · intro hn; exact hst1 (by simp [hn])
  · intro hn; exact hst2 (by simp [hn])

/-- Every match reported by `scan` lies in the text still to be scanned, the
group after the start of the match, and neither part is empty unless its
expression is nullable. -/
theorem scan_bounds (pre grp : RE) (s : List Char) :
    ∀ (prev : Option Nat) (pos : Nat), ∀ m ∈ scan pre grp prev pos s,
      pos ≤ m.1 ∧ m.1 ≤ m.2.1 ∧ m.2.1 ≤ m.2.2 ∧ m.2.2 ≤ pos + byteLen s ∧
        (pre.nullable = false → m.1 < m.2.1) ∧ (grp.nullable = false → m.2.1 < m.2.2) := by
  induction s with
  | nil =>
    intro prev pos m hm
    unfold scan at hm
    simp only at hm
    split at hm
    · rename_i g e hhere
      split at hm
      · cases hm
      · simp only [List.mem_singleton] at hm
        subst hm
        split at hhere
        · cases hhere
        · obtain ⟨h1, h2, h3, h4, h5⟩ := attempt_bounds pre grp pos [] g e hhere
          exact ⟨le_refl _, h1, h2, h3, h4, h5⟩
    · cases hm
  | cons c t ih =>
    intro prev pos m hm
    have hc := Char.utf8Size_pos c
    have hrest : ∀ (prev1 : Option Nat), m ∈ scan pre grp prev1 (pos + c.utf8Size) t →
        pos ≤ m.1 ∧ m.1 ≤ m.2.1 ∧ m.2.1 ≤ m.2.2 ∧ m.2.2 ≤ pos + byteLen (c :: t) ∧
          (pre.nullable = false → m.1 < m.2.1) ∧ (grp.nullable = false → m.2.1 < m.2.2) := by
      intro prev1 h1
      obtain ⟨h2, h3, h4, h5, h6, h7⟩ := ih prev1 (pos + c.utf8Size) m h1
      simp only [byteLen]
      exact ⟨by omega, h3, h4, by omega, h6, h7⟩
    unfold scan at hm
    simp only at hm
    split at hm
    · rename_i g e hhere
      split at hm
      · exact hrest _ hm
      · rcases List.mem_cons.mp hm with hm | hm
        · subst hm
          split at hhere
          · cases hhere
          · obtain ⟨h1, h2, h3, h4, h5⟩ := attempt_bounds pre grp pos (c :: t) g e hhere
            exact ⟨le_refl _, h1, h2, h3, h4, h5⟩
        · exact hrest _ hm
    · exact hrest _ hm

theorem urlRegex_not_nullable : urlRegex.nullable = false := by rfl

theorem hashtagRegex_not_nullable : hashtagRegex.nullable = false := by rfl

theorem mentionGroup_not_nullable : mentionGroup.nullable = false := by rfl

theorem findRegexMatches_bounds (text : String) (re : RE) (hre : re.nullable = false) :
    ∀ m ∈ findRegexMatches text re, m.Start < m.End ∧ m.End ≤ byteLen text.toList := by
  intro m hm
  simp only [findRegexMatches, FindAllStringIndex, List.map_map, List.mem_map,
    Function.comp_apply] at hm
  obtain ⟨x, hx, rfl⟩ := hm
  obtain ⟨-, h2, h3, h4, -, h6⟩ := scan_bounds .eps re text.toList none 0 x hx
  have := h6 hre
  simp only
  omega

theorem mentionCandidates_bounds (text : String) :
    ∀ c ∈ mentionCandidates text, c.Start < c.End ∧ c.End ≤ byteLen text.toList := by
  intro c hc
  simp only [mentionCandidates, FindAllStringSubmatchIndex, List.map_map, List.mem_map,
    Function.comp_apply] at hc
  obtain ⟨x, hx, rfl⟩ := hc
  obtain ⟨-, h2, h3, h4, -, h6⟩ := scan_bounds mentionPre mentionGroup text.toList none 0 x hx
  have := h6 mentionGroup_not_nullable
  simp only
  omega

theorem resolvedMentions_span (cands : List MentionCandidate)
    (answers : List (Except String String)) :
    ∀ m ∈ resolvedMentions cands answers, ∃ c ∈ cands, m.Start = c.Start ∧ m.End = c.End := by
  intro m hm
  simp only [resolvedMentions, List.mem_filterMap] at hm
  obtain ⟨p, hp, hsome⟩ := hm
  have hc := (List.of_mem_zip hp).1
  split at hsome
  · simp only [Option.some.injEq] at hsome
    subst hsome
    exact ⟨p.1, hc, rfl, rfl⟩
  · cases hsome

theorem mentionStage_bounds {σ : Type} (env : Env σ) (text : String) (w : World σ) :
    ∀ m ∈ (mentionStage env text w).1, m.Start < m.End ∧ m.End ≤ byteLen text.toList := by
  intro m hm
  rw [mentionStage_eq] at hm
  obtain ⟨c, hc, h1, h2⟩ := resolvedMentions_span _ _ m hm
  have := mentionCandidates_bounds text c hc
  omega

theorem indexFrom_bounds (sub : List Char) (s : List Char) :
    ∀ pos i, indexFrom sub pos s = some i → pos ≤ i ∧ i + byteLen sub ≤ pos + byteLen s := by
  induction s with
  | nil =>
    intro pos i h
    simp only [indexFrom, List.isPrefixOf_iff_prefix, List.prefix_nil] at h
    split at h
    · rename_i hs
      simp only [Option.some.injEq] at h
      subst hs
      simp [byteLen]
      omega
    · cases h
  | cons c t ih =>
    intro pos i h
    simp only [indexFrom, List.isPrefixOf_iff_prefix] at h
    split at h
    · rename_i hs
      simp only [Option.some.injEq] at h
      obtain ⟨r, hr⟩ := hs
      have := congrArg byteLen hr
      rw [byteLen_append] at this
      omega
    · have := ih _ _ h
      simp only [byteLen]
      omega

theorem stringsIndex_empty (text : String) : stringsIndex text "" = some 0 := by
  unfold stringsIndex
  cases text.toList <;> simp [indexFrom]

/-- The span of the facet of an inline link whose display text is found. -/
theorem inlineLinkFacet_bounds (text : String) (l : InlineLink)
    (h : stringsIndex text l.Text ≠ none) :
    (inlineLinkFacet text l).Index.ByteStart ≤ (inlineLinkFacet text l).Index.ByteEnd ∧
      (inlineLinkFacet text l).Index.ByteEnd ≤ byteLen text.toList ∧
      ((inlineLinkFacet text l).Index.ByteStart < (inlineLinkFacet text l).Index.ByteEnd ∨
        (l.Text = "" ∧ inlineLinkFacet text l = linkFacet l.Url 0 0)) := by
  obtain ⟨i, hi⟩ := Option.ne_none_iff_exists'.mp h
  have hb := indexFrom_bounds l.Text.toList text.toList 0 i hi
  by_cases hne : l.Text = ""
  · refine ⟨?_, ?_, Or.inr ⟨hne, ?_⟩⟩
    · simp only [inlineLinkFacet, linkFacet, hi, Option.getD_some]; omega
    · simp only [inlineLinkFacet, linkFacet, hi, Option.getD_some]; omega
    · simp [inlineLinkFacet, hne, stringsIndex_empty, byteLen]
  · simp only [inlineLinkFacet, linkFacet, hi, Option.getD_some]
    refine ⟨by omega, by omega, Or.inl ?_⟩
    have hnil : l.Text.toList ≠ [] := by
      intro h0
      apply hne
      cases hlt : l.Text with
      | mk data =>
        rw [hlt] at h0
        simp only [String.toList] at h0
        subst h0
        rfl
    have := byteLen_pos_of_ne_nil _ hnil
    omega

/-- The spans of the facets of a record that `buildPost` composes from the
mentions of the mention stage. -/
theorem buildPost_facet_spans {σ : Type} (env : Env σ) (w : World σ) (lib : Lib) (now : String)
    (pb : PostBuilder) (embed : Embed) (rr : ReplyReference) (post : FeedPost)
    (h : buildPost lib now pb embed rr (mentionStage env pb.Text w).1 = .ok post) :
    ∀ f ∈ post.Facets, f.Index.ByteStart ≤ f.Index.ByteEnd ∧
      f.Index.ByteEnd ≤ byteLen pb.Text.toList ∧
      (f.Index.ByteStart < f.Index.ByteEnd ∨
        ∃ l ∈ pb.InlineLinks, l.Text = "" ∧ f = linkFacet l.Url 0 0) := by
  obtain ⟨hfound, hpost⟩ := buildPost_ok _ _ _ _ _ _ _ h
  subst hpost
  intro f hf
  simp only [List.mem_append, List.mem_map] at hf
  rcases hf with ((⟨m, hm, rfl⟩ | ⟨l, hl, rfl⟩) | ⟨m, hm, rfl⟩) | ⟨m, hm, rfl⟩
  · have := mentionStage_bounds env pb.Text w m hm
    simp only [mentionFacet]
    refine ⟨by omega, by omega, Or.inl (by omega)⟩
  · obtain ⟨h1, h2, h3⟩ := inlineLinkFacet_bounds pb.Text l (hfound l hl)
    refine ⟨h1, h2, ?_⟩
    rcases h3 with h3 | ⟨h3, h4⟩
    · exact Or.inl h3
    · exact Or.inr ⟨l, hl, h3, h4⟩
  · have := findRegexMatches_bounds pb.Text urlRegex urlRegex_not_nullable m hm
    simp only [linkFacet]
    refine ⟨by omega, by omega, Or.inl (by omega)⟩
  · have := findRegexMatches_bounds pb.Text hashtagRegex hashtagRegex_not_nullable m hm
    simp only [tagFacet]
    refine ⟨by omega, by omega, Or.inl (by omega)⟩

/-- C7, as the code has it: every record that `Post` submits has the body as
its text, and every facet of it has a span inside the body,
`byteStart ≤ byteEnd ≤ len(body)`; the span is non-empty, `byteStart < byteEnd`,
unless the facet is the one of an inline link with an empty display text, whose
span is [0,0). -/
theorem Post_facet_spans {σ : Type} (env : Env σ) (pb : PostBuilder) (w : World σ) :
    ∃ evs, (Post env pb w).2.log = w.log ++ evs ∧
      ∀ c r post ok, Event.createRecord c r post ok ∈ evs →
        post.Text = pb.Text ∧
        ∀ f ∈ post.Facets, f.Index.ByteStart ≤ f.Index.ByteEnd ∧
          f.Index.ByteEnd ≤ byteLen pb.Text.toList ∧
          (f.Index.ByteStart < f.Index.ByteEnd ∨
            ∃ l ∈ pb.InlineLinks, l.Text = "" ∧ f = linkFacet l.Url 0 0) := by
  have htext : (withDefaultLanguage pb).Text = pb.Text := by
    unfold withDefaultLanguage; split <;> rfl
  have hlinks : (withDefaultLanguage pb).InlineLinks = pb.InlineLinks := by
    unfold withDefaultLanguage; split <;> rfl
  obtain ⟨evs, hl, hcase⟩ := Post_run env pb w
  refine ⟨evs, hl, ?_⟩
  intro c r post ok hmem
  rcases hcase with ⟨-, hc, -⟩ | ⟨-, hc, -⟩ | ⟨er, w4, post1, ok1, ev0, -, -, hb, hev, hc, -, -⟩
  · have := hc _ hmem; simp [Event.isCreate] at this
  · have := hc _ hmem; simp [Event.isCreate] at this
  · subst hev
    rcases List.mem_append.mp hmem with hmem | hmem
    · have := hc _ hmem; simp [Event.isCreate] at this
    · simp only [List.mem_singleton, Event.createRecord.injEq] at hmem
      obtain ⟨-, -, rfl, -⟩ := hmem
      rw [← htext] at hb
      have hspans := buildPost_facet_spans env w4 _ _ _ _ _ _ hb
      rw [htext, hlinks] at hspans
      refine ⟨?_, hspans⟩
      obtain ⟨-, hpost⟩ := buildPost_ok _ _ _ _ _ _ _ hb
      rw [hpost, htext]

/-- C7 as stated fails: the empty display text occurs in the body "abc", and the
facet `buildPost` builds for it has the empty span [0,0). -/
theorem buildPost_empty_inline_link_span :
    "".toList <:+: "abc".toList ∧
    (buildPost (sampleLib .nil (plainPost "")) ""
        { NewPostBuilder "abc" with InlineLinks := [⟨"", "https://example.com"⟩] }
        Embed.zero ReplyReference.zero []).map (fun post => post.Facets) =
      .ok [linkFacet "https://example.com" 0 0] ∧
    (Post (sampleEnv (sampleLib .nil (plainPost "")) true [])
        { NewPostBuilder "abc" with InlineLinks := [⟨"", "https://example.com"⟩] }
        World.start).2.log =
      [Event.createRecord "app.bsky.feed.post" "did:plc:me"
        { plainPost "abc" with CreatedAt := "2024-01-01T00:00:00Z", Langs := ["en"],
                               Facets := [linkFacet "https://example.com" 0 0] } true] ∧
    ¬ ((linkFacet "https://example.com" 0 0).Index.ByteStart <
        (linkFacet "https://example.com" 0 0).Index.ByteEnd) := by
  refine ⟨by decide, by rfl, by decide, by decide⟩

/-! ## C8: a draft with body text only -/

/-- C8: for a draft that carries body text only (`NewPostBuilder body`) and
whose body has no mention, URL or hashtag candidate, `Post` makes no call before
`createRecord` and submits the record with the body as text, `langs = ["en"]`,
no tags, no facets, no embed and no reply. -/
theorem Post_plain_body {σ : Type} (env : Env σ) (body : String) (w : World σ)
    (hm : FindAllStringSubmatchIndex mentionPre mentionGroup body = [])
    (hu : findRegexMatches body urlRegex = [])
    (hh : findRegexMatches body hashtagRegex = []) :
    Post env (NewPostBuilder body) w =
      RepoCreatePostRecord env
        { LexiconTypeID := "app.bsky.feed.post", CreatedAt := env.now w.st, Text := body,
          Langs := ["en"], Tags := [], Facets := [], Embed := none, Reply := none } w := by
  have hn : ¬ nEmbeds (NewPostBuilder body) > 1 := by simp [nEmbeds, NewPostBuilder]
  have hres : resolveStages env (withDefaultLanguage (NewPostBuilder body)) w =
      (.ok (Embed.zero, ReplyReference.zero), w) := by
    simp [resolveStages, withDefaultLanguage, NewPostBuilder, embedImagesStage, embedLinkStage,
      embedQuoteStage, replyStage, Outcome.andThen]
  have hms : mentionStage env body w = ([], w) := by
    simp [mentionStage, hm, mentionLoop]
  have hb : buildPost env.lib (env.now w.st) (withDefaultLanguage (NewPostBuilder body))
      Embed.zero ReplyReference.zero [] =
      .ok { LexiconTypeID := "app.bsky.feed.post", CreatedAt := env.now w.st, Text := body,
            Langs := ["en"], Tags := [], Facets := [], Embed := none, Reply := none } := by
    simp [buildPost, withDefaultLanguage, NewPostBuilder, inlineLinkFacets, hu, hh, buildEmbed,
      buildReply, Embed.zero]
  have htext : (withDefaultLanguage (NewPostBuilder body)).Text = body := rfl
  simp only [Post, hn, if_false, hres, Outcome.andThen, htext, hms, hb]

/-- C8 at the body "hello world". -/
theorem Post_plain_body_witness :
    Post (sampleEnv (sampleLib .nil (plainPost "")) true []) (NewPostBuilder "hello world")
        World.start =
      RepoCreatePostRecord (sampleEnv (sampleLib .nil (plainPost "")) true [])
        { LexiconTypeID := "app.bsky.feed.post", CreatedAt := "2024-01-01T00:00:00Z",
          Text := "hello world", Langs := ["en"], Tags := [], Facets := [], Embed := none,
          Reply := none } World.start :=
  Post_plain_body (sampleEnv (sampleLib .nil (plainPost "")) true []) "hello world" World.start
    (by decide) (by decide) (by decide)

/-! ## C9: the preview image of an external link -/

/-- C9 at a page with an image tag whose image cannot be fetched (the server
answers 404) while uploads succeed: `getImageAsBuffer` fails, `RepoUploadImage`
uploads the empty buffer all the same, and `Post` succeeds and submits a record
with an external-link embed whose preview is the blob of that empty upload. -/
theorem Post_link_preview_fetch_failure_ignored :
    (getImageAsBuffer (sampleEnv (sampleLib pageWithImage (plainPost "")) false [])
        "http://img.example/pic.png" World.start).1 =
      .error "failed to fetch image: 404 Not Found" ∧
    (Post (sampleEnv (sampleLib pageWithImage (plainPost "")) false []) linkDraft World.start).1 =
      .ok ("cid-new", "at://me/app.bsky.feed.post/new") ∧
    (Post (sampleEnv (sampleLib pageWithImage (plainPost "")) false []) linkDraft World.start).2.log =
      [Event.httpGet "http://example.com/page" true,
       Event.httpGet "http://img.example/pic.png" true,
       Event.uploadBlob [] true,
       Event.createRecord "app.bsky.feed.post" "did:plc:me"
         { plainPost "read this" with
           CreatedAt := "2024-01-01T00:00:00Z", Langs := ["en"],
           Embed := some { EmbedExternal :=
                             some { LexiconTypeID := "app.bsky.embed.external",
                                    External := { Title := "", Uri := "http://example.com/page",
                                                  Description := "",
                                                  Thumb := ⟨"blob", "image/png", 0⟩ } },
                           EmbedImages := none, EmbedRecord := none } } true] := by
  refine ⟨by rfl, by decide, by decide⟩

/-! ## C10: the tag map of a page -/

theorem lastSome_append {α β : Type} (f : α → Option β) (a b : List α) :
    lastSome f (a ++ b) =
      (match lastSome f b with
        | some v => some v
        | none => lastSome f a) := by
  induction a with
  | nil => rcases h : lastSome f b with _ | v <;> simp [lastSome, h]
  | cons x t ih =>
    rw [List.cons_append]
    show (match lastSome f (t ++ b) with
      | some v => some v
      | none => f x) = _
    rw [ih]
    simp only [lastSome]
    rcases h : lastSome f b with _ | v <;> simp

theorem foldl_metaAttr (attrs : List Attribute) :
    ∀ p c : String, attrs.foldl metaAttr (p, c) =
      ((lastSome attrKey attrs).getD p, (lastSome attrContent attrs).getD c) := by
  induction attrs with
  | nil => intro p c; simp [lastSome]
  | cons a rest ih =>
    intro p c
    simp only [List.foldl_cons, lastSome]
    by_cases h1 : a.Key = "property"
    · have hc : attrContent a = none := by simp [attrContent, h1]
      by_cases h2 : stringsHasPrefix a.Val "og:" = true
      · simp only [metaAttr, h1, h2, if_true, ih, hc, attrKey, and_self]
        cases lastSome attrKey rest <;> cases lastSome attrContent rest <;> simp
      · simp only [metaAttr, h1, h2, if_true, if_false, ih, hc, attrKey, and_false]
        have : ¬ ("property" = "name") := by decide
        simp only [this, false_and, if_false]
        cases lastSome attrKey rest <;> cases lastSome attrContent rest <;> simp
    · by_cases h3 : a.Key = "name"
      · have hc : attrContent a = none := by simp [attrContent, h3]
        by_cases h2 : stringsHasPrefix a.Val "twitter:" = true
        · simp only [metaAttr, h1, h3, h2, if_true, if_false, ih, hc, attrKey, false_and,
            and_self]
          cases lastSome attrKey rest <;> cases lastSome attrContent rest <;> simp
        · simp only [metaAttr, h1, h3, h2, if_true, if_false, ih, hc, attrKey, false_and,
            and_false]
          cases lastSome attrKey rest <;> cases lastSome attrContent rest <;> simp
      · have hk : attrKey a = none := by simp [attrKey, h1, h3]
        by_cases h4 : a.Key = "content"
        · simp only [metaAttr, h1, h3, h4, if_true, if_false, ih, hk, attrContent]
          cases lastSome attrKey rest <;> cases lastSome attrContent rest <;> simp
        · simp only [metaAttr, h1, h3, h4, if_false, ih, hk, attrContent]
          cases lastSome attrKey rest <;> cases lastSome attrContent rest <;> simp

theorem visitNode_apply (ty : NodeType) (data : String) (attrs : List Attribute) (tags : Tags)
    (k : String) :
    visitNode ty data attrs tags k =
      (match metaEntry k (ty, data, attrs) with
        | some v => some v
        | none => tags k) := by
  unfold visitNode metaEntry
  rw [foldl_metaAttr]
  simp only [metaKey, metaContent]
  by_cases h1 : ty = NodeType.ElementNode ∧ data = "meta"
  · simp only [h1, and_self, if_true, true_and, ne_eq]
    by_cases h2 : (lastSome attrKey attrs).getD "" ≠ "" ∧ (lastSome attrContent attrs).getD "" ≠ ""
    · simp only [h2, ne_eq, not_false_eq_true, and_self, if_true, Tags.set]
      by_cases h3 : k = (lastSome attrKey attrs).getD ""
      · have h4 : ¬ k = "" := by rw [h3]; exact h2.1
        simp [h3, h2.1, h2.2]
      · have h4 : ¬ (lastSome attrKey attrs).getD "" = k := fun h => h3 h.symm
        simp [h3, h4]
    · have h5 : ¬ ((lastSome attrKey attrs).getD "" = k ∧ ¬ k = "" ∧
          ¬ (lastSome attrContent attrs).getD "" = "") := by
        rintro ⟨rfl, hk, hcn⟩
        exact h2 ⟨hk, hcn⟩
      simp only [ne_eq] at h2
      simp [h2, h5]
  · have h6 : ¬ (ty = NodeType.ElementNode ∧ data = "meta" ∧
        (lastSome attrKey attrs).getD "" = k ∧ k ≠ "" ∧
          (lastSome attrContent attrs).getD "" ≠ "") := by
      rintro ⟨a, b, -⟩
      exact h1 ⟨a, b⟩
    simp [h1, h6]

theorem traverseFrom_apply (n : Node) :
    ∀ (tags : Tags) (k : String), traverseFrom n tags k =
      (match lastSome (metaEntry k) (docOrderFrom n) with
        | some v => some v
        | none => tags k) := by
  induction n with
  | nil => intro tags k; simp [traverseFrom, docOrderFrom, lastSome]
  | node ty data attrs fc ns ihfc ihns =>
    intro tags k
    simp only [traverseFrom, docOrderFrom, lastSome, lastSome_append, ihns, ihfc, visitNode_apply]
    cases lastSome (metaEntry k) (docOrderFrom ns) <;>
      cases lastSome (metaEntry k) (docOrderFrom fc) <;> simp

/-- C10, as the code has it: the tag map of a parsed document maps a key `k` to
the content of the last `<meta>` element, in document order, whose key is `k`,
for a non-empty `k` and a non-empty content; the key of an element is given by
the last of its attributes that is a `property` attribute starting "og:" or a
`name` attribute starting "twitter:" (the rest of the value), its content by its
last `content` attribute; a key with no such element is absent. -/
theorem traverse_last_meta_wins (doc : Node) (k : String) :
    traverse doc (fun _ => none) k = lastSome (metaEntry k) (docOrder doc) := by
  cases doc with
  | nil => simp [traverse, docOrder, lastSome]
  | node ty data attrs fc ns =>
    simp only [traverse, docOrder, lastSome, traverseFrom_apply, visitNode_apply]
    cases lastSome (metaEntry k) (docOrderFrom fc) <;>
      cases metaEntry k (ty, data, attrs) <;> simp

/-- C10 as stated fails: a `<meta>` element with a non-empty content and both a
property "og:title" and a name "twitter:card" is entered under "card" only; the
key "title" is absent from the map. -/
theorem traverse_meta_with_two_keys :
    traverse pageTwoKeys (fun _ => none) "title" = none ∧
    traverse pageTwoKeys (fun _ => none) "card" = some "X" := by
  refine ⟨by decide, by decide⟩

/-! ## What holds of C6 and C9 for every input -/

/-- Every match of `findRegexMatches` carries the bytes of its span as its
value: in particular the URI of an auto-detected Link facet is `body[start:end]`. -/
theorem findRegexMatches_value (text : String) (re : RE) :
    ∀ m ∈ findRegexMatches text re, m.Value = String.mk (sliceBytes text.toList m.Start m.End) := by
  intro m hm
  simp only [findRegexMatches, List.mem_map] at hm
  obtain ⟨x, -, rfl⟩ := hm
  rfl

/-- For every draft: a failed blob upload anywhere in the run makes `Post`
return an error without a `createRecord` call. -/
theorem Post_failed_upload_aborts {σ : Type} (env : Env σ) (pb : PostBuilder) (w : World σ) :
    ∃ evs, (Post env pb w).2.log = w.log ++ evs ∧
      ((∃ e ∈ evs, e.isFailedUpload = true) →
        (Post env pb w).1.isError = true ∧ ∀ e ∈ evs, e.isCreate = false) := by
  obtain ⟨evs, hl, hcase⟩ := Post_run env pb w
  refine ⟨evs, hl, ?_⟩
  rintro ⟨e, he, hfail⟩
  rcases hcase with ⟨h1, h2, -⟩ | ⟨-, -, hu⟩ | ⟨er, w4, post, ok, ev0, -, -, -, hev, -, hu, -⟩
  · exact ⟨h1, h2⟩
  · rw [hu e he] at hfail; cases hfail
  · subst hev
    rcases List.mem_append.mp he with he | he
    · rw [hu e he] at hfail; cases hfail
    · simp only [List.mem_singleton] at he
      subst he
      simp [Event.isFailedUpload] at hfail

/-! ## The fuel of `starRun` is enough -/

theorem starRun_congr {α : Type}
    (step : (Nat → List Char → Option α) → Nat → List Char → Option α)
    (hstep : ∀ (k1 k2 : Nat → List Char → Option α) pos s,
      (∀ p1 s1, s1.length ≤ s.length → k1 p1 s1 = k2 p1 s1) → step k1 pos s = step k2 pos s)
    (k1 k2 : Nat → List Char → Option α) :
    ∀ fuel pos s, (∀ p1 s1, s1.length ≤ s.length → k1 p1 s1 = k2 p1 s1) →
      starRun step k1 fuel pos s = starRun step k2 fuel pos s := by
  intro fuel
  induction fuel with
  | zero => intro pos s h; exact h pos s (le_refl _)
  | succ n ih =>
    intro pos s h
    unfold starRun
    rw [hstep _ (fun pos1 s1 =>
      if s1.length < s.length then starRun step k2 n pos1 s1 else none) pos s, h pos s (le_refl _)]
    intro p1 s1 hle
    split
    · exact ih p1 s1 (fun p2 s2 h2 => h p2 s2 (le_trans h2 hle))
    · rfl

theorem RE.run_congr {α : Type} (r : RE) :
    ∀ (k1 k2 : Nat → List Char → Option α) pos s,
      (∀ p1 s1, s1.length ≤ s.length → k1 p1 s1 = k2 p1 s1) → r.run k1 pos s = r.run k2 pos s := by
  induction r with
  | eps => intro k1 k2 pos s h; exact h pos s (le_refl _)
  | bot =>
    intro k1 k2 pos s h
    simp only [RE.run, h pos s (le_refl _)]
  | cls p =>
    intro k1 k2 pos s h
    cases s with
    | nil => rfl
    | cons c t => simp only [RE.run, h (pos + c.utf8Size) t (by simp)]
  | cat a b iha ihb =>
    intro k1 k2 pos s h
    simp only [RE.run]
    apply iha
    intro p1 s1 hle
    exact ihb k1 k2 p1 s1 (fun p2 s2 h2 => h p2 s2 (le_trans h2 hle))
  | alt a b iha ihb =>
    intro k1 k2 pos s h
    simp only [RE.run, iha k1 k2 pos s h, ihb k1 k2 pos s h]
  | star a iha =>
    intro k1 k2 pos s h
    simp only [RE.run]
    exact starRun_congr _ (fun k1 k2 pos s h => iha k1 k2 pos s h) k1 k2 s.length pos s h

theorem RE.run_none {α : Type} (r : RE) :
    ∀ pos s, r.run (fun _ _ => (none : Option α)) pos s = none := by
  induction r with
  | eps => intro pos s; rfl
  | bot => intro pos s; simp [RE.run]
  | cls p =>
    intro pos s
    cases s with
    | nil => rfl
    | cons c t => simp [RE.run]
  | cat a b iha ihb =>
    intro pos s
    simp only [RE.run]
    have : (fun pos1 s1 => b.run (fun _ _ => (none : Option α)) pos1 s1) = fun _ _ => none := by
      funext p1 s1; exact ihb p1 s1
    rw [this]
    exact iha pos s
  | alt a b iha ihb =>
    intro pos s
    simp [RE.run, iha, ihb]
  | star a iha =>
    intro pos s
    simp only [RE.run]
    generalize s.length = fuel
    induction fuel generalizing pos s with
    | zero => rfl
    | succ n ih =>
      unfold starRun
      have : (fun pos1 s1 => if s1.length < s.length then
          starRun (fun k1 pos1 s1 => a.run k1 pos1 s1) (fun _ _ => (none : Option α)) n pos1 s1
          else none) = fun _ _ => none := by
        funext p1 s1
        split
        · exact ih p1 s1
        · rfl
      rw [this, iha]
      rfl

/-- The iteration `a*` gives the same result with any fuel that is at least the
length of the text: the fuel `s.length` that `RE.run` hands to `starRun` never
runs out before the iteration is over. -/
theorem starRun_fuel {α : Type} (a : RE) (k : Nat → List Char → Option α) :
    ∀ (fuel1 fuel2 pos : Nat) (s : List Char), s.length ≤ fuel1 → s.length ≤ fuel2 →
      starRun (fun k1 pos1 s1 => a.run k1 pos1 s1) k fuel1 pos s =
        starRun (fun k1 pos1 s1 => a.run k1 pos1 s1) k fuel2 pos s := by
  have hnil : ∀ (m pos : Nat),
      starRun (fun k1 pos1 s1 => a.run k1 pos1 s1) k (m + 1) pos [] = k pos [] := by
    intro m pos
    unfold starRun
    have : (fun pos1 (s1 : List Char) => if s1.length < ([] : List Char).length then
        starRun (fun k1 pos1 s1 => a.run k1 pos1 s1) k m pos1 s1 else none) =
        fun _ _ => none := by
      funext p1 s1
      simp
    rw [this, RE.run_none]
    rfl
  intro fuel1
  induction fuel1 with
  | zero =>
    intro fuel2 pos s h1 h2
    have hs : s = [] := List.length_eq_zero.mp (Nat.le_zero.mp h1)
    subst hs
    cases fuel2 with
    | zero => rfl
    | succ m => rw [hnil]; rfl
  | succ n ih =>
    intro fuel2 pos s h1 h2
    cases fuel2 with
    | zero =>
      have hs : s = [] := List.length_eq_zero.mp (Nat.le_zero.mp h2)
      subst hs
      rw [hnil]; rfl
    | succ m =>
      unfold starRun
      rw [RE.run_congr a _ (fun pos1 s1 => if s1.length < s.length then
        starRun (fun k1 pos1 s1 => a.run k1 pos1 s1) k m pos1 s1 else none) pos s]
      intro p1 s1 _
      split
      · rename_i hlt
        exact ih m p1 s1 (by omega) (by omega)
      · rfl

/-! ## C11: the number of facets -/

theorem countP_map_const {α β : Type} (p : β → Bool) (f : α → β) (b : Bool) (l : List α)
    (h : ∀ a, p (f a) = b) : (l.map f).countP p = if b then l.length else 0 := by
  induction l with
  | nil => cases b <;> rfl
  | cons a t ih =>
    simp only [List.map_cons, List.countP_cons, ih, h a, List.length_cons]
    cases b <;> simp

/-- C11: when every display text of the inline links occurs in the body,
`buildPost` succeeds and its facet list is, in this order, one Mention facet per
resolved mention, one Link facet per inline link, one Link facet per URL match
and one Tag facet per hashtag match; so it has
`|m| + |l| + #URL matches + #hashtag matches` facets, of which `|m|` are Mention
facets, `|l| + #URL matches` Link facets and `#hashtag matches` Tag facets, each
with exactly one feature: nothing is merged or dropped. -/
theorem buildPost_facet_count (lib : Lib) (now : String) (pb : PostBuilder) (embed : Embed)
    (rr : ReplyReference) (ms : List MentionMatch)
    (h : ∀ l ∈ pb.InlineLinks, l.Text.toList <:+: pb.Text.toList) :
    ∃ post, buildPost lib now pb embed rr ms = .ok post ∧
      post.Facets =
        ms.map mentionFacet ++ pb.InlineLinks.map (inlineLinkFacet pb.Text) ++
          (findRegexMatches pb.Text urlRegex).map (fun m => linkFacet m.Value m.Start m.End) ++
          (findRegexMatches pb.Text hashtagRegex).map (tagFacet lib.punctTable) ∧
      post.Facets.length =
        ms.length + pb.InlineLinks.length + (findRegexMatches pb.Text urlRegex).length +
          (findRegexMatches pb.Text hashtagRegex).length ∧
      post.Facets.countP isMentionFacet = ms.length ∧
      post.Facets.countP isLinkFacet =
        pb.InlineLinks.length + (findRegexMatches pb.Text urlRegex).length ∧
      post.Facets.countP isTagFacet = (findRegexMatches pb.Text hashtagRegex).length ∧
      ∀ f ∈ post.Facets, f.Features.length = 1 := by
  have hfound : ∀ l ∈ pb.InlineLinks, stringsIndex pb.Text l.Text ≠ none := by
    intro l hl hnone
    exact (stringsIndex_eq_none_iff _ _).mp hnone (h l hl)
  have hb : buildPost lib now pb embed rr ms =
      .ok { LexiconTypeID := "app.bsky.feed.post", CreatedAt := now, Text := pb.Text,
            Langs := pb.Languages, Tags := pb.AdditionalTags,
            Facets := ms.map mentionFacet ++ pb.InlineLinks.map (inlineLinkFacet pb.Text) ++
              (findRegexMatches pb.Text urlRegex).map (fun m => linkFacet m.Value m.Start m.End) ++
              (findRegexMatches pb.Text hashtagRegex).map (tagFacet lib.punctTable),
            Embed := buildEmbed lib embed, Reply := buildReply rr } := by
    simp only [buildPost, inlineLinkFacets_ok pb.Text pb.InlineLinks hfound]
  refine ⟨_, hb, rfl, by simp only [List.length_append, List.length_map], ?_, ?_, ?_, ?_⟩
  · simp only [List.countP_append]
    rw [countP_map_const isMentionFacet mentionFacet true ms (by intro a; rfl),
      countP_map_const isMentionFacet (inlineLinkFacet pb.Text) false _ (by intro a; rfl),
      countP_map_const isMentionFacet (fun (m : RegexMatch) => linkFacet m.Value m.Start m.End) false _
        (by intro a; rfl),
      countP_map_const isMentionFacet (tagFacet lib.punctTable) false _ (by intro a; rfl)]
    simp
  · simp only [List.countP_append]
    rw [countP_map_const isLinkFacet mentionFacet false ms (by intro a; rfl),
      countP_map_const isLinkFacet (inlineLinkFacet pb.Text) true _ (by intro a; rfl),
      countP_map_const isLinkFacet (fun (m : RegexMatch) => linkFacet m.Value m.Start m.End) true _
        (by intro a; rfl),
      countP_map_const isLinkFacet (tagFacet lib.punctTable) false _ (by intro a; rfl)]
    simp
  · simp only [List.countP_append]
    rw [countP_map_const isTagFacet mentionFacet false ms (by intro a; rfl),
      countP_map_const isTagFacet (inlineLinkFacet pb.Text) false _ (by intro a; rfl),
      countP_map_const isTagFacet (fun (m : RegexMatch) => linkFacet m.Value m.Start m.End) false _
        (by intro a; rfl),
      countP_map_const isTagFacet (tagFacet lib.punctTable) true _ (by intro a; rfl)]
    simp
  · intro f hf
    simp only [List.mem_append, List.mem_map] at hf
    rcases hf with ((⟨m, -, rfl⟩ | ⟨l, -, rfl⟩) | ⟨m, -, rfl⟩) | ⟨m, -, rfl⟩ <;> rfl

/-- C11 at a body with a hashtag and a URL, an inline link on the very span of
the URL and one resolved mention: four facets, the two Link facets with the same
span [3,14) both kept. -/
theorem buildPost_facet_count_witness :
    (∀ l ∈ overlappingDraft.InlineLinks, l.Text.toList <:+: overlappingDraft.Text.toList) ∧
    (buildPost (sampleLib .nil (plainPost "")) "" overlappingDraft Embed.zero ReplyReference.zero
        [⟨"x.yz", 0, 2, "did:plc:x"⟩]).map (fun post => post.Facets) =
      .ok [mentionFacet ⟨"x.yz", 0, 2, "did:plc:x"⟩,
           linkFacet "http://b.co" 3 14,
           linkFacet "http://b.co" 3 14,
           tagFacet (fun _ => false) ⟨"#a", 0, 2⟩] ∧
    ∃ post, buildPost (sampleLib .nil (plainPost "")) "" overlappingDraft Embed.zero
        ReplyReference.zero [⟨"x.yz", 0, 2, "did:plc:x"⟩] = .ok post ∧
      post.Facets.length =
        1 + overlappingDraft.InlineLinks.length +
          (findRegexMatches overlappingDraft.Text urlRegex).length +
          (findRegexMatches overlappingDraft.Text hashtagRegex).length :=
  ⟨by decide, by rfl,
    (buildPost_facet_count (sampleLib .nil (plainPost "")) "" overlappingDraft Embed.zero
      ReplyReference.zero [⟨"x.yz", 0, 2, "did:plc:x"⟩] (by decide)).imp
      fun _ hp => ⟨hp.1, hp.2.2.1⟩⟩

/-! ## C12: the embed and reply fields -/

/-- The embed section sets no variant or exactly one, for every embed value. -/
theorem buildEmbed_variants (lib : Lib) (embed : Embed) :
    ∀ e, buildEmbed lib embed = some e → e.variants = 1 := by
  intro e he
  unfold buildEmbed at he
  split at he
  · simp only [Option.some.injEq] at he; subst he; rfl
  · split at he
    · simp only [Option.some.injEq] at he; subst he; rfl
    · split at he
      · simp only [Option.some.injEq] at he; subst he; rfl
      · cases he

theorem embedImagesStage_lengths {σ : Type} (env : Env σ) (pb : PostBuilder) (e e1 : Embed)
    (w w1 : World σ) (h : embedImagesStage env pb e w = (.ok e1, w1))
    (hl : e.Images.length = e.UploadedImages.length) :
    e1.Images.length = e1.UploadedImages.length ∧ e1.Link = e.Link ∧ e1.Record = e.Record := by
  unfold embedImagesStage at h
  split at h
  · simp only [Prod.mk.injEq, Outcome.ok.injEq] at h
    rw [← h.1]; exact ⟨hl, rfl, rfl⟩
  · split at h
    · simp at h
    · rename_i parsedImages _
      split at h
      · rcases hup : RepoUploadImages env parsedImages w with ⟨r, w2⟩
        rw [hup] at h
        cases r with
        | error err => simp at h
        | ok blobs =>
          simp only [Prod.mk.injEq, Outcome.ok.injEq] at h
          have hb := uploadLoop_length env parsedImages [] blobs w w2 hup
          rw [← h.1]
          refine ⟨?_, rfl, rfl⟩
          simp [hb]
      · simp only [Prod.mk.injEq, Outcome.ok.injEq] at h
        rw [← h.1]; exact ⟨hl, rfl, rfl⟩

theorem embedLinkStage_images {σ : Type} (env : Env σ) (pb : PostBuilder) (e e1 : Embed)
    (w w1 : World σ) (h : embedLinkStage env pb e w = (.ok e1, w1)) :
    e1.Images = e.Images ∧ e1.UploadedImages = e.UploadedImages ∧ e1.Record = e.Record := by
  unfold embedLinkStage at h
  split at h
  · split at h
    · simp at h
    · rcases hft : fetchOpenGraphTwitterTags env pb.EmbedLink w with ⟨r, w2⟩
      rw [hft] at h
      cases r with
      | error err => simp at h
      | ok siteTags =>
        simp only at h
        split at h
        · split at h
          · simp at h
          · rename_i parsedImageUrl _
            rcases hup : RepoUploadImage env
              { Uri := parsedImageUrl, Alt := (siteTags "image:alt").getD "" } w2 with ⟨r2, w3⟩
            rw [hup] at h
            cases r2 with
            | error err => simp at h
            | ok blob =>
              simp only [Prod.mk.injEq, Outcome.ok.injEq] at h
              rw [← h.1]; exact ⟨rfl, rfl, rfl⟩
        · simp only [Prod.mk.injEq, Outcome.ok.injEq] at h
          rw [← h.1]; exact ⟨rfl, rfl, rfl⟩
  · simp only [Prod.mk.injEq, Outcome.ok.injEq] at h
    rw [← h.1]; exact ⟨rfl, rfl, rfl⟩

theorem embedQuoteStage_images {σ : Type} (env : Env σ) (pb : PostBuilder) (e e1 : Embed)
    (w w1 : World σ) (h : embedQuoteStage env pb e w = (.ok e1, w1)) :
    e1.Images = e.Images ∧ e1.UploadedImages = e.UploadedImages ∧ e1.Link = e.Link := by
  unfold embedQuoteStage at h
  split at h
  · split at h
    · simp at h
    · simp at h
    · simp only [Prod.mk.injEq, Outcome.ok.injEq] at h
      rw [← h.1]; exact ⟨rfl, rfl, rfl⟩
  · simp only [Prod.mk.injEq, Outcome.ok.injEq] at h
    rw [← h.1]; exact ⟨rfl, rfl, rfl⟩

/-- Every embed value that `Post` hands to `buildPost` has as many uploaded
blobs as images. -/
theorem resolveStages_lengths {σ : Type} (env : Env σ) (pb : PostBuilder) (w w4 : World σ)
    (er : Embed × ReplyReference) (hres : resolveStages env pb w = (.ok er, w4)) :
    er.1.Images.length = er.1.UploadedImages.length := by
  unfold resolveStages at hres
  rcases h1 : embedImagesStage env pb Embed.zero w with ⟨r1, w1⟩
  rw [h1] at hres
  cases r1 with
  | error err => simp [Outcome.andThen] at hres
  | fault => simp [Outcome.andThen] at hres
  | ok e1 =>
    simp only [Outcome.andThen] at hres
    rcases h2 : embedLinkStage env pb e1 w1 with ⟨r2, w2⟩
    rw [h2] at hres
    cases r2 with
    | error err => simp at hres
    | fault => simp at hres
    | ok e2 =>
      simp only at hres
      rcases h3 : embedQuoteStage env pb e2 w2 with ⟨r3, w3⟩
      rw [h3] at hres
      cases r3 with
      | error err => simp at hres
      | fault => simp at hres
      | ok e3 =>
        simp only at hres
        rcases h4 : replyStage env pb w3 with ⟨r4, w5⟩
        rw [h4] at hres
        cases r4 with
        | error err => simp at hres
        | fault => simp at hres
        | ok rr =>
          simp only [Prod.mk.injEq, Outcome.ok.injEq] at hres
          rw [← hres.1]
          have l1 := (embedImagesStage_lengths env pb _ _ _ _ h1 rfl).1
          have l2 := embedLinkStage_images env pb _ _ _ _ h2
          have l3 := embedQuoteStage_images env pb _ _ _ _ h3
          simp only
          rw [l3.1, l3.2.1, l2.1, l2.2.1]
          exact l1

/-- C12: for every embed value and reply reference that `Post` resolves and
hands to `buildPost`, the embed field of the record is absent exactly when the
embed value is the zero value (no embed was resolved), a present embed field
has exactly one of its three variants set, and the reply field is absent
exactly when the reply reference is the zero value. -/
theorem buildPost_embed_and_reply {σ : Type} (env : Env σ) (pb : PostBuilder) (w w4 : World σ)
    (er : Embed × ReplyReference) (now : String) (ms : List MentionMatch) (post : FeedPost)
    (hres : resolveStages env pb w = (.ok er, w4))
    (hb : buildPost env.lib now pb er.1 er.2 ms = .ok post) :
    (post.Embed = none ↔ er.1 = Embed.zero) ∧
    (∀ e, post.Embed = some e → e.variants = 1) ∧
    (post.Reply = none ↔ er.2 = ReplyReference.zero) := by
  have hlen := resolveStages_lengths env pb w w4 er hres
  obtain ⟨-, hpost⟩ := buildPost_ok _ _ _ _ _ _ _ hb
  subst hpost
  refine ⟨?_, buildEmbed_variants env.lib er.1, ?_⟩
  · simp only
    constructor
    · intro hnone
      unfold buildEmbed at hnone
      split at hnone
      · cases hnone
      · rename_i hlink
        split at hnone
        · cases hnone
        · rename_i himg
          split at hnone
          · cases hnone
          · rename_i hrec
            simp only [ne_eq, not_not] at hlink hrec
            have hi : er.1.Images = [] := by
              by_contra hne
              apply himg
              exact ⟨fun h0 => hne (List.length_eq_zero.mp h0), hlen⟩
            have hu : er.1.UploadedImages = [] := by
              apply List.length_eq_zero.mp
              rw [← hlen, hi]; rfl
            rcases hE : er.1 with ⟨l, i, u, r⟩
            rw [hE] at hlink hrec hi hu
            simp only at hlink hrec hi hu
            subst hlink hrec hi hu
            rfl
    · intro hz
      rw [hz]
      rfl
  · simp only [buildReply]
    constructor
    · intro h
      by_contra hne
      simp [hne] at h
    · intro h
      simp [h]

/-- C12 at a draft that quotes a post: the record has an embed with the quoted
record as its only variant, and no reply. -/
theorem buildPost_embed_and_reply_witness :
    resolveStages (sampleEnv (sampleLib .nil (plainPost "")) true []) quoteDraft World.start =
      (.ok (quotedEmbed, ReplyReference.zero),
        (resolveStages (sampleEnv (sampleLib .nil (plainPost "")) true []) quoteDraft
          World.start).2) ∧
    buildPost (sampleLib .nil (plainPost "")) "" quoteDraft quotedEmbed ReplyReference.zero [] =
      .ok quotePost ∧
    ((quotePost.Embed = none ↔ quotedEmbed = Embed.zero) ∧
      (∀ e, quotePost.Embed = some e → e.variants = 1) ∧
      (quotePost.Reply = none ↔ ReplyReference.zero = ReplyReference.zero)) :=
  ⟨Prod.ext (by decide) rfl, by rfl,
    buildPost_embed_and_reply (sampleEnv (sampleLib .nil (plainPost "")) true []) quoteDraft
      World.start
      (resolveStages (sampleEnv (sampleLib .nil (plainPost "")) true []) quoteDraft World.start).2
      (quotedEmbed, ReplyReference.zero) "" [] quotePost (Prod.ext (by decide) rfl) (by rfl)⟩

/-! ## C13: the first occurrence of a display text -/

theorem dropBytes_append_left (pre x : List Char) : dropBytes (pre ++ x) (byteLen pre) = x := by
  induction pre with
  | nil => cases x <;> rfl
  | cons c p ih =>
    have hc := Char.utf8Size_pos c
    obtain ⟨n, hn⟩ : ∃ n, c.utf8Size + byteLen p = n + 1 := ⟨c.utf8Size + byteLen p - 1, by omega⟩
    simp only [List.cons_append, byteLen, hn, dropBytes]
    have : n + 1 - c.utf8Size = byteLen p := by omega
    rw [this, ih]

theorem takeBytes_append_left (sub post : List Char) :
    takeBytes (sub ++ post) (byteLen sub) = sub := by
  induction sub with
  | nil => cases post <;> rfl
  | cons c p ih =>
    have hc := Char.utf8Size_pos c
    obtain ⟨n, hn⟩ : ∃ n, c.utf8Size + byteLen p = n + 1 := ⟨c.utf8Size + byteLen p - 1, by omega⟩
    simp only [List.cons_append, byteLen, hn, takeBytes]
    have : n + 1 - c.utf8Size = byteLen p := by omega
    rw [this, ih]

/-- Slicing a text at the bytes of an occurrence gives the text that occurs. -/
theorem sliceBytes_occurrence (pre sub post : List Char) :
    sliceBytes (pre ++ sub ++ post) (byteLen pre) (byteLen pre + byteLen sub) = sub := by
  unfold sliceBytes
  rw [List.append_assoc, dropBytes_append_left]
  have : byteLen pre + byteLen sub - byteLen pre = byteLen sub := by omega
  rw [this, takeBytes_append_left]

/-- The search `indexFrom` returns the smallest offset of an occurrence. -/
theorem indexFrom_first (sub : List Char) (s : List Char) :
    ∀ pos i, indexFrom sub pos s = some i →
      ∃ k, i = pos + k ∧ OccursAt s sub k ∧ ∀ j, OccursAt s sub j → k ≤ j := by
  induction s with
  | nil =>
    intro pos i h
    simp only [indexFrom, List.isPrefixOf_iff_prefix, List.prefix_nil] at h
    split at h
    · rename_i hs
      simp only [Option.some.injEq] at h
      subst hs
      exact ⟨0, by omega, ⟨[], [], rfl, rfl⟩, fun j _ => Nat.zero_le j⟩
    · cases h
  | cons c t ih =>
    intro pos i h
    simp only [indexFrom, List.isPrefixOf_iff_prefix] at h
    split at h
    · rename_i hs
      simp only [Option.some.injEq] at h
      obtain ⟨r, hr⟩ := hs
      exact ⟨0, by omega, ⟨[], r, by simp [hr], rfl⟩, fun j _ => Nat.zero_le j⟩
    · rename_i hs
      obtain ⟨k, hk, ⟨pre, post, hocc, hlen⟩, hmin⟩ := ih _ _ h
      refine ⟨c.utf8Size + k, by omega, ⟨c :: pre, post, by simp [hocc], by simp [byteLen, hlen]⟩, ?_⟩
      intro j hj
      obtain ⟨pre0, post0, hocc0, hlen0⟩ := hj
      cases pre0 with
      | nil =>
        exfalso
        apply hs
        exact ⟨post0, by simpa using hocc0.symm⟩
      | cons d p0 =>
        simp only [List.cons_append, List.cons.injEq] at hocc0
        obtain ⟨rfl, ht⟩ := hocc0
        have := hmin (byteLen p0) ⟨p0, post0, ht, rfl⟩
        simp only [byteLen] at hlen0
        omega

/-- C13: in a record that `buildPost` composes from the mentions `ms`, the `k`-th
inline link has its facet at position `|ms| + k` of the facets; the facet has
the single feature Link with the link's URL, and its index is
`ByteStart = i`, `ByteEnd = i + len(displayText)`, where `i` is the smallest byte
offset at which the display text occurs in the body; so the bytes of the span
are the display text and no later occurrence is annotated. -/
theorem buildPost_inline_link_first_occurrence (lib : Lib) (now : String) (pb : PostBuilder)
    (embed : Embed) (rr : ReplyReference) (ms : List MentionMatch) (post : FeedPost)
    (hb : buildPost lib now pb embed rr ms = .ok post) :
    ∀ (k : Nat) (l : InlineLink), pb.InlineLinks[k]? = some l → ∃ i,
      findSubstring pb.Text l.Text = .ok (i, i + byteLen l.Text.toList) ∧
      post.Facets[ms.length + k]? =
        some { Features := [{ RichtextFacet_Link :=
                                some { LexiconTypeID := "app.bsky.richtext.facet#link",
                                       Uri := l.Url },
                              RichtextFacet_Mention := none,
                              RichtextFacet_Tag := none }],
               Index := { ByteStart := i, ByteEnd := i + byteLen l.Text.toList } } ∧
      OccursAt pb.Text.toList l.Text.toList i ∧
      (∀ j, OccursAt pb.Text.toList l.Text.toList j → i ≤ j) ∧
      sliceBytes pb.Text.toList i (i + byteLen l.Text.toList) = l.Text.toList := by
  obtain ⟨hfound, hpost⟩ := buildPost_ok _ _ _ _ _ _ _ hb
  intro k l hk
  have hl : l ∈ pb.InlineLinks := List.mem_iff_getElem?.mpr ⟨k, hk⟩
  have hklt : k < pb.InlineLinks.length := by
    rcases Nat.lt_or_ge k pb.InlineLinks.length with h | h
    · exact h
    · rw [List.getElem?_eq_none h] at hk; cases hk
  obtain ⟨i, hi⟩ := Option.ne_none_iff_exists'.mp (hfound l hl)
  obtain ⟨k0, hk0, hocc, hmin⟩ := indexFrom_first _ _ 0 i hi
  have hik : i = k0 := by omega
  subst hik
  refine ⟨i, by simp [findSubstring, hi], ?_, hocc, hmin, ?_⟩
  · rw [hpost]
    show (List.map mentionFacet ms ++ List.map (inlineLinkFacet pb.Text) pb.InlineLinks ++ _ ++ _)[
      ms.length + k]? = _
    rw [List.append_assoc, List.append_assoc, List.getElem?_append_right (by simp),
      List.getElem?_append_left (by simp; omega)]
    simp only [List.length_map, Nat.add_sub_cancel_left, List.getElem?_map, hk, Option.map_some']
    simp [inlineLinkFacet, linkFacet, hi, Facet_Type.String]
  · obtain ⟨pre, post0, hs, hlen⟩ := hocc
    rw [hs, ← hlen]
    exact sliceBytes_occurrence pre _ post0

/-- C13 at the body "ab ab ab" with an inline link on "ab": the text also occurs
at offset 3, and the facet has the span [0,2) of the first occurrence. -/
theorem buildPost_inline_link_first_occurrence_witness :
    (buildPost (sampleLib .nil (plainPost "")) "" repeatedLink Embed.zero ReplyReference.zero
        []).map (fun post => post.Facets) =
      .ok [{ Features := [{ RichtextFacet_Link :=
                              some { LexiconTypeID := "app.bsky.richtext.facet#link",
                                     Uri := "https://example.com" },
                            RichtextFacet_Mention := none,
                            RichtextFacet_Tag := none }],
             Index := { ByteStart := 0, ByteEnd := 2 } }] ∧
    OccursAt "ab ab ab".toList "ab".toList 3 ∧
    ∀ (k : Nat) (l : InlineLink), repeatedLink.InlineLinks[k]? = some l → ∃ i,
      findSubstring repeatedLink.Text l.Text = .ok (i, i + byteLen l.Text.toList) ∧
      ({ plainPost "ab ab ab" with
          Facets := [{ Features := [{ RichtextFacet_Link :=
                                         some { LexiconTypeID := "app.bsky.richtext.facet#link",
                                                Uri := "https://example.com" },
                                       RichtextFacet_Mention := none,
                                       RichtextFacet_Tag := none }],
                        Index := { ByteStart := 0, ByteEnd := 2 } }] } : FeedPost).Facets[
          ([] : List MentionMatch).length + k]? =
        some { Features := [{ RichtextFacet_Link :=
                                some { LexiconTypeID := "app.bsky.richtext.facet#link",
                                       Uri := l.Url },
                              RichtextFacet_Mention := none,
                              RichtextFacet_Tag := none }],
               Index := { ByteStart := i, ByteEnd := i + byteLen l.Text.toList } } ∧
      OccursAt repeatedLink.Text.toList l.Text.toList i ∧
      (∀ j, OccursAt repeatedLink.Text.toList l.Text.toList j → i ≤ j) ∧
      sliceBytes repeatedLink.Text.toList i (i + byteLen l.Text.toList) = l.Text.toList :=
  ⟨by rfl, ⟨"ab ".toList, " ab".toList, by rfl, by rfl⟩,
    buildPost_inline_link_first_occurrence (sampleLib .nil (plainPost "")) "" repeatedLink
      Embed.zero ReplyReference.zero []
      { plainPost "ab ab ab" with
        Facets := [{ Features := [{ RichtextFacet_Link :=
                                       some { LexiconTypeID := "app.bsky.richtext.facet#link",
                                              Uri := "https://example.com" },
                                     RichtextFacet_Mention := none,
                                     RichtextFacet_Tag := none }],
                      Index := { ByteStart := 0, ByteEnd := 2 } }] } (by rfl)⟩

/-! ## What a match of a regular expression looks like -/

theorem starRun_matches {α : Type} (a : RE)
    (step : (Nat → List Char → Option α) → Nat → List Char → Option α)
    (hstep : ∀ (k : Nat → List Char → Option α) pos s x, step k pos s = some x →
      Consumes a k pos s x)
    (k : Nat → List Char → Option α) :
    ∀ fuel pos s x, starRun step k fuel pos s = some x → Consumes (.star a) k pos s x := by
  intro fuel
  induction fuel with
  | zero =>
    intro pos s x h
    exact ⟨[], s, rfl, Matches.starNil a pos, h⟩
  | succ n ih =>
    intro pos s x h
    unfold starRun at h
    rcases hs : step (fun pos1 s1 =>
        if s1.length < s.length then starRun step k n pos1 s1 else none) pos s with _ | y
    · rw [hs] at h
      simp only [Option.orElse] at h
      exact ⟨[], s, rfl, Matches.starNil a pos, h⟩
    · rw [hs] at h
      simp only [Option.orElse, Option.some.injEq] at h
      subst h
      obtain ⟨u, s1, hsplit, hmu, hk⟩ := hstep _ pos s y hs
      simp only at hk
      split at hk
      · obtain ⟨v, s2, hsplit2, hmv, hk2⟩ := ih _ s1 y hk
        refine ⟨u ++ v, s2, by rw [hsplit, hsplit2, List.append_assoc],
          Matches.starCons a pos u v hmu hmv, ?_⟩
        rw [byteLen_append, ← Nat.add_assoc]
        exact hk2
      · cases hk

/-- The matcher is sound for `Matches`. -/
theorem RE.run_matches {α : Type} (r : RE) :
    ∀ (k : Nat → List Char → Option α) pos s x, r.run k pos s = some x →
      Consumes r k pos s x := by
  induction r with
  | eps =>
    intro k pos s x h
    exact ⟨[], s, rfl, Matches.eps pos, h⟩
  | bot =>
    intro k pos s x h
    simp only [RE.run] at h
    split at h
    · rename_i h0
      subst h0
      exact ⟨[], s, rfl, Matches.bot, h⟩
    · cases h
  | cls p =>
    intro k pos s x h
    cases s with
    | nil => simp [RE.run] at h
    | cons c t =>
      simp only [RE.run] at h
      split at h
      · rename_i hp
        refine ⟨[c], t, rfl, Matches.cls p c pos hp, ?_⟩
        simpa [byteLen] using h
      · cases h
  | cat a b iha ihb =>
    intro k pos s x h
    simp only [RE.run] at h
    obtain ⟨u, s1, hsplit, hmu, hk⟩ := iha _ pos s x h
    obtain ⟨v, s2, hsplit2, hmv, hk2⟩ := ihb _ _ s1 x hk
    refine ⟨u ++ v, s2, by rw [hsplit, hsplit2, List.append_assoc],
      Matches.cat a b pos u v hmu hmv, ?_⟩
    rw [byteLen_append, ← Nat.add_assoc]
    exact hk2
  | alt a b iha ihb =>
    intro k pos s x h
    simp only [RE.run] at h
    rcases ha : a.run k pos s with _ | y
    · rw [ha] at h
      simp only [Option.orElse] at h
      obtain ⟨u, s1, hsplit, hmu, hk⟩ := ihb _ pos s x h
      exact ⟨u, s1, hsplit, Matches.altR a b pos u hmu, hk⟩
    · rw [ha] at h
      simp only [Option.orElse, Option.some.injEq] at h
      subst h
      obtain ⟨u, s1, hsplit, hmu, hk⟩ := iha _ pos s y ha
      exact ⟨u, s1, hsplit, Matches.altL a b pos u hmu, hk⟩
  | star a iha =>
    intro k pos s x h
    simp only [RE.run] at h
    exact starRun_matches a (fun k1 pos1 s1 => a.run k1 pos1 s1)
      (fun k1 pos1 s1 y hy => iha k1 pos1 s1 y hy) k s.length pos s x h

/-- Every match `(start, groupStart, end)` that `scan` reports splits the text:
after `start - pos` skipped bytes comes a text that `pre` matches, then, from
`groupStart` to `end`, a text that `grp` matches. -/
theorem scan_matches (pre grp : RE) (s : List Char) :
    ∀ (prev : Option Nat) (pos : Nat), ∀ m ∈ scan pre grp prev pos s,
      ∃ skipped u1 u2 rest, s = skipped ++ u1 ++ u2 ++ rest ∧ m.1 = pos + byteLen skipped ∧
        Matches pre m.1 u1 ∧ m.2.1 = m.1 + byteLen u1 ∧ Matches grp m.2.1 u2 ∧
        m.2.2 = m.2.1 + byteLen u2 := by
  have hatt : ∀ (pos : Nat) (s : List Char) (g e : Nat),
      pre.run (fun g s1 => grp.run (fun e _ => some (g, e)) g s1) pos s = some (g, e) →
      ∃ u1 u2 rest, s = u1 ++ u2 ++ rest ∧ Matches pre pos u1 ∧ g = pos + byteLen u1 ∧
        Matches grp g u2 ∧ e = g + byteLen u2 := by
    intro pos s g e h
    obtain ⟨u1, s1, hs1, hm1, hk1⟩ := RE.run_matches pre _ pos s (g, e) h
    obtain ⟨u2, s2, hs2, hm2, hk2⟩ := RE.run_matches grp _ _ s1 (g, e) hk1
    simp only [Option.some.injEq, Prod.mk.injEq] at hk2
    obtain ⟨hg, he⟩ := hk2
    subst hg
    exact ⟨u1, u2, s2, by rw [hs1, hs2, List.append_assoc], hm1, rfl, hm2, he.symm⟩
  induction s with
  | nil =>
    intro prev pos m hm
    unfold scan at hm
    simp only at hm
    split at hm
    · rename_i g e hhere
      split at hm
      · cases hm
      · simp only [List.mem_singleton] at hm
        subst hm
        split at hhere
        · cases hhere
        · obtain ⟨u1, u2, rest, h1, h2, h3, h4, h5⟩ := hatt pos [] g e hhere
          exact ⟨[], u1, u2, rest, by simpa using h1, by simp [byteLen], h2, h3, h4, h5⟩
    · cases hm
  | cons c t ih =>
    intro prev pos m hm
    have hrest : ∀ (prev1 : Option Nat), m ∈ scan pre grp prev1 (pos + c.utf8Size) t →
        ∃ skipped u1 u2 rest, c :: t = skipped ++ u1 ++ u2 ++ rest ∧
          m.1 = pos + byteLen skipped ∧ Matches pre m.1 u1 ∧ m.2.1 = m.1 + byteLen u1 ∧
          Matches grp m.2.1 u2 ∧ m.2.2 = m.2.1 + byteLen u2 := by
      intro prev1 h1
      obtain ⟨sk, u1, u2, rest, e1, e2, e3, e4, e5, e6⟩ := ih prev1 (pos + c.utf8Size) m h1
      refine ⟨c :: sk, u1, u2, rest, by simp [e1], ?_, e3, e4, e5, e6⟩
      simp only [byteLen]
      omega
    unfold scan at hm
    simp only at hm
    split at hm
    · rename_i g e hhere
      split at hm
      · exact hrest _ hm
      · rcases List.mem_cons.mp hm with hm | hm
        · subst hm
          split at hhere
          · cases hhere
          · obtain ⟨u1, u2, rest, h1, h2, h3, h4, h5⟩ := hatt pos (c :: t) g e hhere
            exact ⟨[], u1, u2, rest, by simpa using h1, by simp [byteLen], h2, h3, h4, h5⟩
        · exact hrest _ hm
    · exact hrest _ hm

theorem Matches.eps_inv {pos : Nat} {w : List Char} (h : Matches .eps pos w) : w = [] := by
  cases h; rfl

theorem Matches.bot_inv {pos : Nat} {w : List Char} (h : Matches .bot pos w) :
    w = [] ∧ pos = 0 := by
  cases h; exact ⟨rfl, rfl⟩

theorem Matches.cls_inv {p : Char → Bool} {pos : Nat} {w : List Char}
    (h : Matches (.cls p) pos w) : ∃ c, w = [c] ∧ p c = true := by
  cases h with
  | cls _ c _ hp => exact ⟨c, rfl, hp⟩

theorem Matches.cat_inv {a b : RE} {pos : Nat} {w : List Char} (h : Matches (.cat a b) pos w) :
    ∃ u v, w = u ++ v ∧ Matches a pos u ∧ Matches b (pos + byteLen u) v := by
  cases h with
  | cat _ _ _ u v hu hv => exact ⟨u, v, rfl, hu, hv⟩

theorem Matches.alt_inv {a b : RE} {pos : Nat} {w : List Char} (h : Matches (.alt a b) pos w) :
    Matches a pos w ∨ Matches b pos w := by
  cases h with
  | altL _ _ _ _ hu => exact Or.inl hu
  | altR _ _ _ _ hu => exact Or.inr hu

/-! ## C16: the shape of a mention candidate -/

/-- C16: every mention candidate of a body is an `@` followed by a text that
`domainRegex` matches, right after a character that is not alphanumeric: its
span starts at the byte of the `@`, at an offset of at least 1, and ends after
the handle, and the handle handed to the resolver is the text of the span
without the `@`. So no mention of `Post` starts at offset 0: a handle at the very
start of the body yields no candidate and no Mention facet. -/
theorem mention_candidate_shape (text : String) :
    (∀ c ∈ mentionCandidates text, ∃ before ch h after,
      text.toList = before ++ [ch] ++ ('@' :: h) ++ after ∧ isAlnum ch = false ∧
      c.Start = byteLen before + ch.utf8Size ∧ c.End = c.Start + 1 + byteLen h ∧
      sliceBytes text.toList c.Start c.End = '@' :: h ∧
      c.handle = String.mk h ∧ Matches domainRegex (c.Start + 1) h ∧ 1 ≤ c.Start) ∧
    (∀ {σ : Type} (env : Env σ) (w : World σ),
      (mentionStage env text w).1 =
          resolvedMentions (mentionCandidates text)
            (resolveAll env ((mentionCandidates text).map fun c => c.handle) w).1 ∧
        ∀ m ∈ (mentionStage env text w).1, 1 ≤ m.Start) := by
  have hshape : ∀ c ∈ mentionCandidates text, ∃ before ch h after,
      text.toList = before ++ [ch] ++ ('@' :: h) ++ after ∧ isAlnum ch = false ∧
      c.Start = byteLen before + ch.utf8Size ∧ c.End = c.Start + 1 + byteLen h ∧
      sliceBytes text.toList c.Start c.End = '@' :: h ∧
      c.handle = String.mk h ∧ Matches domainRegex (c.Start + 1) h ∧ 1 ≤ c.Start := by
    intro c hc
    simp only [mentionCandidates, FindAllStringSubmatchIndex, List.map_map, List.mem_map,
      Function.comp_apply] at hc
    obtain ⟨x, hx, rfl⟩ := hc
    obtain ⟨sk, u1, u2, rest, hsplit, hst, hm1, hg, hm2, he⟩ :=
      scan_matches mentionPre mentionGroup text.toList none 0 x hx
    obtain ⟨ch, rfl, hch⟩ := Matches.cls_inv hm1
    obtain ⟨a, h, rfl, ha, hh⟩ := Matches.cat_inv hm2
    obtain ⟨at_, rfl, hat⟩ := Matches.cls_inv ha
    have hat2 : at_ = '@' := by simpa using hat
    subst hat2
    have hsz : ('@' : Char).utf8Size = 1 := by decide
    have hcs := Char.utf8Size_pos ch
    have hb : byteLen (['@'] ++ h) = 1 + byteLen h := by
      show byteLen ('@' :: h) = _
      simp only [byteLen, hsz]
    have hstart : x.2.1 = byteLen (sk ++ [ch]) := by
      rw [byteLen_append, hg, hst]
      simp [byteLen]
    have hend : x.2.2 = byteLen (sk ++ [ch]) + byteLen (['@'] ++ h) := by
      rw [he, hstart]
    have hslice : sliceBytes text.toList x.2.1 x.2.2 = '@' :: h := by
      rw [hstart, hend, hsplit]
      exact sliceBytes_occurrence (sk ++ [ch]) (['@'] ++ h) rest
    refine ⟨sk, ch, h, rest, by simpa using hsplit, by simpa using hch, ?_, ?_, hslice, ?_, ?_, ?_⟩
    · simp only [hg, hst, byteLen]; omega
    · show x.2.2 = x.2.1 + 1 + byteLen h
      rw [he, hb]; omega
    · simp only [hslice]
      congr 1
      cases h <;> simp [dropBytes, hsz]
    · have h1 : byteLen ['@'] = 1 := by simp only [byteLen, hsz]
      rw [h1] at hh
      exact hh
    · simp only [hg, byteLen]; omega
  refine ⟨hshape, ?_⟩
  intro σ env w
  refine ⟨by rw [mentionStage_eq], ?_⟩
  intro m hm
  rw [mentionStage_eq] at hm
  obtain ⟨c, hc, h1, -⟩ := resolvedMentions_span _ _ m hm
  obtain ⟨_, _, _, _, _, _, _, _, _, _, _, h8⟩ := hshape c hc
  omega

/-- C16 at two bodies: a handle after a blank is a candidate whose span starts
at the `@`; a handle at the very start of the body is none, and `Post` submits
that body without a facet. -/
theorem mention_candidate_shape_witness :
    mentionCandidates "hi @bob.bsky.social" = [⟨"bob.bsky.social", 3, 19⟩] ∧
    mentionCandidates "@bob.bsky.social hi" = [] ∧
    (Post (sampleEnv (sampleLib .nil (plainPost "")) true ["bob.bsky.social"])
        (NewPostBuilder "@bob.bsky.social hi") World.start).2.log =
      [Event.createRecord "app.bsky.feed.post" "did:plc:me"
        { plainPost "@bob.bsky.social hi" with
          CreatedAt := "2024-01-01T00:00:00Z", Langs := ["en"] } true] ∧
    ∃ before ch h after,
      "hi @bob.bsky.social".toList = before ++ [ch] ++ ('@' :: h) ++ after ∧ isAlnum ch = false ∧
      (⟨"bob.bsky.social", 3, 19⟩ : MentionCandidate).Start = byteLen before + ch.utf8Size ∧
      (⟨"bob.bsky.social", 3, 19⟩ : MentionCandidate).End =
        (⟨"bob.bsky.social", 3, 19⟩ : MentionCandidate).Start + 1 + byteLen h ∧
      sliceBytes "hi @bob.bsky.social".toList (⟨"bob.bsky.social", 3, 19⟩ : MentionCandidate).Start
        (⟨"bob.bsky.social", 3, 19⟩ : MentionCandidate).End = '@' :: h ∧
      (⟨"bob.bsky.social", 3, 19⟩ : MentionCandidate).handle = String.mk h ∧
      Matches domainRegex ((⟨"bob.bsky.social", 3, 19⟩ : MentionCandidate).Start + 1) h ∧
      1 ≤ (⟨"bob.bsky.social", 3, 19⟩ : MentionCandidate).Start :=
  ⟨by decide, by decide, by decide,
    (mention_candidate_shape "hi @bob.bsky.social").1 ⟨"bob.bsky.social", 3, 19⟩ (by decide)⟩

/-! ## C14: the name of a Tag facet -/

theorem trimRightFunc_cons_of_not (f : Char → Bool) (a : Char) (t : List Char)
    (h : f a = false) : trimRightFunc f (a :: t) = a :: trimRightFunc f t := by
  unfold trimRightFunc
  rw [List.reverse_cons, List.dropWhile_append]
  split
  · rename_i hemp
    have : List.dropWhile f t.reverse = [] := List.isEmpty_iff.mp hemp
    simp [this, List.dropWhile, h]
  · simp

theorem trimRightFunc_isPrefix (f : Char → Bool) (l : List Char) : trimRightFunc f l <+: l := by
  unfold trimRightFunc
  apply List.reverse_suffix.mp
  rw [List.reverse_reverse]
  exact List.dropWhile_suffix f

theorem trimRightFunc_getLast (f : Char → Bool) (l : List Char) (c : Char)
    (h : (trimRightFunc f l).getLast? = some c) : f c = false := by
  unfold trimRightFunc at h
  rw [List.getLast?_reverse] at h
  have := List.head?_dropWhile_not f l.reverse
  rw [h] at this
  exact this

theorem unicodeIsSpace_of_isReSpace (c : Char) (h : isReSpace c = true) :
    unicodeIsSpace c = true := by
  simp only [isReSpace, Bool.or_eq_true, decide_eq_true_eq] at h
  simp only [unicodeIsSpace, Bool.or_eq_true, Bool.and_eq_true, decide_eq_true_eq]
  omega

/-- The value of a hashtag match: at most one blank of the regexp class `\s`,
then `#`, then a token whose first character is neither a digit nor such a
blank. -/
theorem hashtag_match_value (text : String) :
    ∀ m ∈ findRegexMatches text hashtagRegex, ∃ pre x tok,
      m.Value.toList = pre ++ '#' :: x :: tok ∧
      (pre = [] ∨ ∃ w, pre = [w] ∧ isReSpace w = true) ∧
      isDigit x = false ∧ isReSpace x = false := by
  intro m hm
  simp only [findRegexMatches, FindAllStringIndex, List.map_map, List.mem_map,
    Function.comp_apply] at hm
  obtain ⟨y, hy, rfl⟩ := hm
  obtain ⟨sk, u1, u2, rest, hsplit, hst, hm1, hg, hm2, he⟩ :=
    scan_matches .eps hashtagRegex text.toList none 0 y hy
  have hu1 := Matches.eps_inv hm1
  subst hu1
  obtain ⟨p, q, rfl, hp, hq⟩ := Matches.cat_inv hm2
  obtain ⟨a, r, rfl, ha, hr⟩ := Matches.cat_inv hq
  obtain ⟨hash, rfl, hhash⟩ := Matches.cls_inv ha
  obtain ⟨b, tok, rfl, hb, -⟩ := Matches.cat_inv hr
  obtain ⟨x, rfl, hx⟩ := Matches.cls_inv hb
  have hh : hash = '#' := by simpa using hhash
  subst hh
  have hslice : sliceBytes text.toList y.1 y.2.2 = p ++ ([('#' : Char)] ++ ([x] ++ tok)) := by
    have e1 : y.1 = byteLen sk := by rw [hst]; omega
    have e2 : y.2.2 = byteLen sk + byteLen (p ++ ([('#' : Char)] ++ ([x] ++ tok))) := by
      rw [he, hg, e1]; simp [byteLen]
    rw [e1, e2, hsplit]
    simp only [List.append_nil]
    exact sliceBytes_occurrence sk _ rest
  refine ⟨p, x, tok, ?_, ?_, ?_, ?_⟩
  · show sliceBytes text.toList y.1 y.2.2 = _
    rw [hslice]; simp
  · rcases Matches.alt_inv hp with hp | hp
    · exact Or.inl (Matches.bot_inv hp).1
    · obtain ⟨w, rfl, hw⟩ := Matches.cls_inv hp
      exact Or.inr ⟨w, rfl, hw⟩
  · simp only [Bool.not_eq_true', Bool.or_eq_false_iff] at hx
    exact hx.1
  · simp only [Bool.not_eq_true', Bool.or_eq_false_iff] at hx
    exact hx.2

/-- C14: the name of the Tag facet of a hashtag match is the matched token (what
follows the `#`) without the blank in front of the `#`, without trailing white
space and then without trailing punctuation; it does not end with a
punctuation character and, when it is not empty, its first character is the
first character of the token, which is not an ASCII digit. -/
theorem hashtag_tag_name (punctTable : Char → Bool) (text : String) :
    ∀ m ∈ findRegexMatches text hashtagRegex, ∃ pre tok,
      m.Value.toList = pre ++ '#' :: tok ∧
      (pre = [] ∨ ∃ w, pre = [w] ∧ isReSpace w = true) ∧
      (tagFacet punctTable m).Features =
        [{ RichtextFacet_Link := none, RichtextFacet_Mention := none,
           RichtextFacet_Tag := some { LexiconTypeID := "app.bsky.richtext.facet#tag",
                                       Tag := stripHashtag punctTable m.Value } }] ∧
      (stripHashtag punctTable m.Value).toList =
        trimRightFunc (unicodeIsPunct punctTable) (trimRightFunc unicodeIsSpace tok) ∧
      (∀ c, (stripHashtag punctTable m.Value).toList.getLast? = some c →
        unicodeIsPunct punctTable c = false) ∧
      (∀ c, (stripHashtag punctTable m.Value).toList.head? = some c →
        tok.head? = some c ∧ isDigit c = false) := by
  intro m hm
  obtain ⟨pre, x, tok, hval, hpre, hdig, -⟩ := hashtag_match_value text m hm
  have hhash : unicodeIsSpace '#' = false := by decide
  have hdrop : (pre ++ '#' :: x :: tok).dropWhile unicodeIsSpace = '#' :: x :: tok := by
    rcases hpre with rfl | ⟨w, rfl, hw⟩
    · simp [List.dropWhile, hhash]
    · simp [List.dropWhile, hhash, unicodeIsSpace_of_isReSpace w hw]
  have hname : (stripHashtag punctTable m.Value).toList =
      trimRightFunc (unicodeIsPunct punctTable) (trimRightFunc unicodeIsSpace (x :: tok)) := by
    show trimRightFunc (unicodeIsPunct punctTable) (trimHash (trimSpace m.Value.toList)) = _
    rw [hval]
    unfold trimSpace
    rw [hdrop, trimRightFunc_cons_of_not _ _ _ hhash]
    rfl
  refine ⟨pre, x :: tok, hval, hpre, rfl, hname, ?_, ?_⟩
  · intro c hc
    rw [hname] at hc
    exact trimRightFunc_getLast _ _ c hc
  · intro c hc
    rw [hname] at hc
    have hp : trimRightFunc (unicodeIsPunct punctTable)
        (trimRightFunc unicodeIsSpace (x :: tok)) <+: x :: tok :=
      (trimRightFunc_isPrefix _ _).trans (trimRightFunc_isPrefix _ _)
    obtain ⟨r, hr⟩ := hp
    cases hn : trimRightFunc (unicodeIsPunct punctTable)
        (trimRightFunc unicodeIsSpace (x :: tok)) with
    | nil => rw [hn] at hc; cases hc
    | cons d t =>
      rw [hn] at hc hr
      simp only [List.head?_cons, Option.some.injEq] at hc
      simp only [List.cons_append, List.cons.injEq] at hr
      subst hc
      rw [hr.1]
      exact ⟨rfl, hdig⟩

/-- C14 at the body "so #cool!! and #1st": one hashtag match, " #cool!!", whose
Tag facet is named "cool" ("#1st" is no match). -/
theorem hashtag_tag_name_witness :
    findRegexMatches "so #cool!! and #1st" hashtagRegex = [⟨" #cool!!", 2, 10⟩] ∧
    stripHashtag (fun _ => false) " #cool!!" = "cool" ∧
    ∃ pre tok,
      (⟨" #cool!!", 2, 10⟩ : RegexMatch).Value.toList = pre ++ '#' :: tok ∧
      (pre = [] ∨ ∃ w, pre = [w] ∧ isReSpace w = true) ∧
      (tagFacet (fun _ => false) ⟨" #cool!!", 2, 10⟩).Features =
        [{ RichtextFacet_Link := none, RichtextFacet_Mention := none,
           RichtextFacet_Tag := some { LexiconTypeID := "app.bsky.richtext.facet#tag",
                                       Tag := stripHashtag (fun _ => false)
                                         (⟨" #cool!!", 2, 10⟩ : RegexMatch).Value } }] ∧
      (stripHashtag (fun _ => false) (⟨" #cool!!", 2, 10⟩ : RegexMatch).Value).toList =
        trimRightFunc (unicodeIsPunct (fun _ => false)) (trimRightFunc unicodeIsSpace tok) ∧
      (∀ c, (stripHashtag (fun _ => false)
          (⟨" #cool!!", 2, 10⟩ : RegexMatch).Value).toList.getLast? = some c →
        unicodeIsPunct (fun _ => false) c = false) ∧
      (∀ c, (stripHashtag (fun _ => false)
          (⟨" #cool!!", 2, 10⟩ : RegexMatch).Value).toList.head? = some c →
        tok.head? = some c ∧ isDigit c = false) :=
  ⟨by decide, by decide,
    hashtag_tag_name (fun _ => false) "so #cool!! and #1st" ⟨" #cool!!", 2, 10⟩ (by decide)⟩

/-! ## C15: the pagination of `RepoGetRecords` -/

theorem recordsLoop_repeating (handleOrDid collection : String) :
    ∀ (fuel : Nat) (records : List RepoListRecords_Record) (cursor : String) (w : Session Unit),
      recordsLoop repeatingServer handleOrDid collection (-1) fuel records cursor "" w = none := by
  intro fuel
  induction fuel with
  | zero => intro records cursor w; rfl
  | succ n ih =>
    intro records cursor w
    unfold recordsLoop
    simp only [Server.callListRecords, repeatingServer, List.length_singleton, one_ne_zero,
      List.getLast?_singleton, Option.map_some', Option.some.injEq, false_or]
    have h1 : ¬ ("" = "cid-1") := by decide
    simp only [h1, if_false, ne_eq, not_true_eq_false, false_and]
    exact ih _ _ _

/-- C15 at a server that ignores the cursor and answers every request with the
same one-record page, with limit -1: `lastCid` is never assigned, so the test for
a page already seen never holds, and the loop of `RepoGetRecords` is still
running after any number of rounds. An empty page does stop it. -/
theorem RepoGetRecords_repeating_never_returns (fuel : Nat) :
    RepoGetRecords repeatingServer "alice" "app.bsky.feed.post" (-1) fuel Session.start = none ∧
    RepoGetRecords emptyServer "alice" "app.bsky.feed.post" (-1) 1 Session.start =
      some (.ok [], { st := (), calls := [Call.listRecords "app.bsky.feed.post" "" 100 "alice"] }) := by
  refine ⟨?_, by rfl⟩
  unfold RepoGetRecords
  rw [recordsLoop_repeating]

/-! ## C18: the limit of `NotifGetNotifications` -/

/-- For every limit of the caller, the one request of `NotifGetNotifications`
asks for 10 notifications. -/
theorem NotifGetNotifications_requests_ten {σ : Type} (srv : Server σ) (limit : Int)
    (w : Session σ) :
    (NotifGetNotifications srv limit w).2.calls = w.calls ++ [Call.listNotifications 10] := by
  unfold NotifGetNotifications Server.callListNotifications
  simp only
  split <;> · rename_i h; simp only [Prod.mk.injEq] at h; rw [← h.2]

/-- C18 at the limit 50: the clamp of 50 into 1..100 is 50, but the request that
`NotifGetNotifications` sends asks for 10 notifications, and 10 are returned. -/
theorem NotifGetNotifications_ignores_limit :
    max 1 (min 100 (50 : Int)) = 50 ∧
    (NotifGetNotifications repeatingServer 50 Session.start).2.calls =
      [Call.listNotifications 10] ∧
    (NotifGetNotifications repeatingServer 50 Session.start).1 =
      .ok (List.replicate 10 { Uri := "at://n", Reason := "like" }) := by
  refine ⟨by decide, by decide, by rfl⟩

/-! ## C17: the batches of `GetPostViews` -/

theorem batchAt_length (uris : List String) (k : Nat) :
    (batchAt uris k).length = min 25 (uris.length - 25 * k) := by
  simp [batchAt]

theorem join_range_batchAt (uris : List String) :
    ∀ (r k : Nat), ((List.range' k r).map (batchAt uris)).flatten =
      (uris.drop (25 * k)).take (25 * r) := by
  intro r
  induction r with
  | zero => intro k; simp
  | succ n ih =>
    intro k
    rw [List.range'_succ, List.map_cons, List.flatten_cons, ih (k + 1)]
    have h1 : 25 * (n + 1) = 25 + 25 * n := by ring
    have h2 : 25 * (k + 1) = 25 * k + 25 := by ring
    rw [h1, List.take_add, h2, ← List.drop_drop]
    rfl

/-- The batches are a cut of the list: joined in order they are the list, there
are `ceil(n/25)` of them, and each is non-empty with at most 25 URIs. -/
theorem batches_spec (uris : List String) :
    (batches uris).flatten = uris ∧ (batches uris).length = (uris.length + 24) / 25 ∧
      ∀ b ∈ batches uris, b ≠ [] ∧ b.length ≤ 25 := by
  refine ⟨?_, by simp [batches], ?_⟩
  · unfold batches
    rw [List.range_eq_range', join_range_batchAt]
    simp only [Nat.mul_zero, List.drop_zero]
    apply List.take_of_length_le
    omega
  · intro b hb
    simp only [batches, List.mem_map, List.mem_range] at hb
    obtain ⟨k, hk, rfl⟩ := hb
    have hlen := batchAt_length uris k
    constructor
    · intro h0
      rw [h0] at hlen
      simp only [List.length_nil] at hlen
      omega
    · omega

theorem hydrateLoop_eq {σ : Type} (srv : Server σ) (uris : List String) :
    ∀ (r k fuel : Nat) (postViews : List FeedDefs_PostView) (w : Session σ),
      r ≤ fuel → k + r = (uris.length + 24) / 25 →
      hydrateLoop srv uris fuel (25 * k) postViews w =
        some (runBatches srv ((List.range' k r).map (batchAt uris)) postViews w) := by
  intro r
  induction r with
  | zero =>
    intro k fuel postViews w _ hk
    have hge : ¬ 25 * k < uris.length := by omega
    cases fuel with
    | zero => simp [hydrateLoop, hge, runBatches]
    | succ f => simp [hydrateLoop, hge, runBatches]
  | succ n ih =>
    intro k fuel postViews w hf hk
    have hlt : 25 * k < uris.length := by omega
    cases fuel with
    | zero => omega
    | succ f =>
      have hslice : (uris.drop (25 * k)).take
          ((if 25 * k + 25 > uris.length then uris.length else 25 * k + 25) - 25 * k) =
          batchAt uris k := by
        unfold batchAt
        split
        · rw [List.take_of_length_le (by simp), List.take_of_length_le (by simp; omega)]
        · congr 1; omega
      unfold hydrateLoop
      simp only [hlt, if_true, hslice, List.range'_succ, List.map_cons, runBatches]
      rcases hcall : srv.callFeedGetPosts (batchAt uris k) w with ⟨res, w1⟩
      cases res with
      | error err => rfl
      | ok results =>
        simp only
        have := ih (k + 1) f (postViews ++ results) w1 (by omega) (by omega)
        have h2 : 25 * (k + 1) = 25 * k + 25 := by ring
        rw [h2] at this
        exact this

/-- What a run over a list of batches requests and returns: the requests are
those for the first batches, in order, up to and including the first one that
fails; if none fails, all batches are requested and the result is `postViews`
followed by the returned posts in order. -/
theorem runBatches_calls {σ : Type} (srv : Server σ) (bs : List (List String)) :
    ∀ (postViews : List FeedDefs_PostView) (w : Session σ),
      ∃ outs : List (Option (List FeedDefs_PostView)), outs.length ≤ bs.length ∧
        (runBatches srv bs postViews w).2.calls =
          w.calls ++ List.zipWith Call.feedGetPosts bs outs ∧
        (((∀ o ∈ outs, o ≠ none) ∧ outs.length = bs.length ∧
            (runBatches srv bs postViews w).1 =
              .ok (postViews ++ (outs.filterMap id).flatten)) ∨
          ((∃ err, (runBatches srv bs postViews w).1 =
              .error ("GetPostViews error (FeedGetPosts): " ++ err)) ∧
            outs.getLast? = some none ∧ ∀ o ∈ outs.dropLast, o ≠ none)) := by
  induction bs with
  | nil =>
    intro postViews w
    exact ⟨[], by simp, by simp [runBatches], Or.inl ⟨by simp, rfl, by simp [runBatches]⟩⟩
  | cons b rest ih =>
    intro postViews w
    unfold runBatches
    rcases hcall : srv.callFeedGetPosts b w with ⟨res, w1⟩
    have hw1 : w1.calls = w.calls ++ [Call.feedGetPosts b (postsOf res)] := by
      have h1 := congrArg (fun x => x.2.calls) hcall
      have h2 := congrArg (fun x => x.1) hcall
      simp only [Server.callFeedGetPosts] at h1 h2
      rw [← h1, h2]
    cases res with
    | error err =>
      refine ⟨[none], by simp, ?_, Or.inr ⟨⟨err, rfl⟩, rfl, by simp⟩⟩
      simp only [hw1, List.zipWith_cons_cons, List.zipWith_nil_right, postsOf]
    | ok results =>
      simp only
      obtain ⟨outs, hlen, hcalls, hcase⟩ := ih (postViews ++ results) w1
      refine ⟨some results :: outs, by simp; omega, ?_, ?_⟩
      · rw [hcalls, hw1]
        simp [postsOf]
      · rcases hcase with ⟨hall, hl, hres⟩ | ⟨herr, hlast, hinit⟩
        · refine Or.inl ⟨?_, by simp [hl], ?_⟩
          · intro o ho
            rcases List.mem_cons.mp ho with rfl | ho
            · simp
            · exact hall o ho
          · rw [hres]; simp
        · refine Or.inr ⟨herr, ?_, ?_⟩
          · cases outs with
            | nil => simp at hlast
            | cons o os => simpa using hlast
          · intro o ho
            cases outs with
            | nil => simp at hlast
            | cons o1 os =>
              simp only [List.dropLast_cons₂, List.mem_cons] at ho
              rcases ho with rfl | ho
              · simp
              · exact hinit o ho

/-- C17: for the `n` post URIs that `RepoGetRecordUris` returns, `GetPostViews`
returns, and it requests the `ceil(n/25)` consecutive batches of the list, each
non-empty and of at most 25 URIs, which joined in order are the list; the
requests are made in batch order up to and including the first that fails; if
none fails the result is the posts of all batches in batch order, and otherwise
it is the error of the first failing batch. -/
theorem GetPostViews_batches {σ : Type} (srv : Server σ) (handleOrDid : String) (limit : Int)
    (fuel : Nat) (w w1 : Session σ) (uris : List String)
    (hu : RepoGetRecordUris srv handleOrDid "app.bsky.feed.post" limit fuel w =
      some (.ok uris, w1)) :
    (batches uris).flatten = uris ∧ (batches uris).length = (uris.length + 24) / 25 ∧
    (∀ b ∈ batches uris, b ≠ [] ∧ b.length ≤ 25) ∧
    ∃ (outs : List (Option (List FeedDefs_PostView))) (r : Outcome (List FeedDefs_PostView))
        (w2 : Session σ),
      GetPostViews srv handleOrDid limit fuel w = some (r, w2) ∧
      outs.length ≤ (batches uris).length ∧
      w2.calls = w1.calls ++ List.zipWith Call.feedGetPosts (batches uris) outs ∧
      (((∀ o ∈ outs, o ≠ none) ∧ outs.length = (batches uris).length ∧
          r = .ok (outs.filterMap id).flatten) ∨
        ((∃ err, r = .error ("GetPostViews error (FeedGetPosts): " ++ err)) ∧
          outs.getLast? = some none ∧ ∀ o ∈ outs.dropLast, o ≠ none)) := by
  obtain ⟨hj, hl, hb⟩ := batches_spec uris
  refine ⟨hj, hl, hb, ?_⟩
  have hloop : hydrateLoop srv uris uris.length 0 [] w1 =
      some (runBatches srv (batches uris) [] w1) := by
    have := hydrateLoop_eq srv uris ((uris.length + 24) / 25) 0 uris.length [] w1
      (by omega) (by omega)
    simp only [Nat.mul_zero] at this
    rw [this, batches, List.range_eq_range']
  obtain ⟨outs, hlen, hcalls, hcase⟩ := runBatches_calls srv (batches uris) [] w1
  rcases hrun : runBatches srv (batches uris) [] w1 with ⟨res, w2⟩
  rw [hrun] at hcalls hcase
  cases res with
  | error err =>
    refine ⟨outs, .error err, w2, ?_, hlen, hcalls, ?_⟩
    · simp only [GetPostViews, hu, hloop, hrun]
    · rcases hcase with ⟨-, -, h⟩ | ⟨⟨e, he⟩, h2, h3⟩
      · cases h
      · simp only [Except.error.injEq] at he
        exact Or.inr ⟨⟨e, by rw [he]⟩, h2, h3⟩
  | ok views =>
    refine ⟨outs, .ok views, w2, ?_, hlen, hcalls, ?_⟩
    · simp only [GetPostViews, hu, hloop, hrun]
    · rcases hcase with ⟨h1, h2, h3⟩ | ⟨⟨e, he⟩, -, -⟩
      · simp only [List.nil_append, Except.ok.injEq] at h3
        exact Or.inl ⟨h1, h2, by rw [h3]⟩
      · cases he

/-- C17 at 27 URIs: two batches, of 25 and of 2 URIs, requested in this order,
and the 27 posts returned. -/
theorem GetPostViews_batches_witness :
    RepoGetRecordUris repeatingServer "alice" "app.bsky.feed.post" 27 27 Session.start =
      some (.ok sampleUris, afterListing) ∧
    batches sampleUris = [List.replicate 25 "at://alice/app.bsky.feed.post/1",
                          List.replicate 2 "at://alice/app.bsky.feed.post/1"] ∧
    GetPostViews repeatingServer "alice" 27 27 Session.start =
      some (.ok (List.replicate 27 { Uri := "at://alice/app.bsky.feed.post/1", Cid := "cid" }),
        { st := (),
          calls := afterListing.calls ++
            [Call.feedGetPosts (List.replicate 25 "at://alice/app.bsky.feed.post/1")
               (some (List.replicate 25 { Uri := "at://alice/app.bsky.feed.post/1", Cid := "cid" })),
             Call.feedGetPosts (List.replicate 2 "at://alice/app.bsky.feed.post/1")
               (some (List.replicate 2 { Uri := "at://alice/app.bsky.feed.post/1", Cid := "cid" }))] }) ∧
    ((batches sampleUris).flatten = sampleUris ∧
      (batches sampleUris).length = (sampleUris.length + 24) / 25 ∧
      (∀ b ∈ batches sampleUris, b ≠ [] ∧ b.length ≤ 25) ∧
      ∃ (outs : List (Option (List FeedDefs_PostView))) (r : Outcome (List FeedDefs_PostView))
          (w2 : Session Unit),
        GetPostViews repeatingServer "alice" 27 27 Session.start = some (r, w2) ∧
        outs.length ≤ (batches sampleUris).length ∧
        w2.calls = afterListing.calls ++ List.zipWith Call.feedGetPosts (batches sampleUris) outs ∧
        (((∀ o ∈ outs, o ≠ none) ∧ outs.length = (batches sampleUris).length ∧
            r = .ok (outs.filterMap id).flatten) ∨
          ((∃ err, r = .error ("GetPostViews error (FeedGetPosts): " ++ err)) ∧
            outs.getLast? = some none ∧ ∀ o ∈ outs.dropLast, o ≠ none))) :=
  ⟨by rfl, by decide, by rfl,
    GetPostViews_batches repeatingServer "alice" 27 27 Session.start afterListing sampleUris
      (by rfl)⟩

end Botsky
